import Mathlib

/-! EchoScript assistant subsystem

A shallow embedding of the conversational assistant of the EchoScript front end
(`src/components/EchoAssistantUltra.jsx`, which bundles `assistantClient.js`,
`vectorMemory.js`, `analytics.js` and `hooks/useEchoAssistant.js`).

* Every remote collaborator (OpenAI embeddings and chat completions, the two
  Pinecone indexes, the analytics endpoint, the clock) is a field of `World`:
  a function from the arguments of the call to its outcome, `Except.error`
  standing for a rejected promise or a thrown exception.
* An `async` function is an `Eff`: the remote calls it makes, in program
  order, and the value it settles with.
* The async generator `sendMessageStream` is a `GenRun`: the tokens it yields,
  the remote calls it makes, and whether it returns or throws.
* React state is the value obtained by applying the queued functional updaters
  in order.
-/

namespace EchoScript

/-! ## Data model -/

/-- A thrown JavaScript value, reduced to its message. -/
abbrev JsError := String

/-- The `role` field of a chat message. -/
inductive Role where
  | system
  | user
  | assistant
  deriving DecidableEq, Repr

/-- A chat message `{ role, content }`. -/
structure Message where
  role : Role
  content : String
  deriving DecidableEq, Repr

/-- The two Pinecone indexes held by `VectorMemory`. -/
inductive Index where
  | personal
  | collective
  deriving DecidableEq, Repr

/-- An embedding vector, `res.data[0].embedding`; its entries are never inspected. -/
abbrev Embedding := List Int

/-- The metadata `{ content, timestamp }` stored with a vector. -/
structure Metadata where
  content : String
  timestamp : String
  deriving DecidableEq, Repr

/-- One entry of `matches` in the reply of `idx.query`. -/
structure Match where
  metadata : Metadata
  deriving DecidableEq, Repr

/-- One entry of `vectors` in the request of `idx.upsert`. -/
structure UpsertVector where
  id : String
  values : Embedding
  metadata : Metadata
  deriving DecidableEq, Repr

/-- The `delta` of a streamed choice. -/
structure Delta where
  content : Option String
  deriving DecidableEq, Repr

/-- One entry of `choices` in a streamed part. -/
structure Choice where
  delta : Option Delta
  deriving DecidableEq, Repr

/-- One part of the streamed completion; `choices` may be absent. -/
structure Part where
  choices : Option (List Choice)
  deriving DecidableEq, Repr

/-- The async iterable returned by the streaming `create` call: the parts it
delivers and, when `failure` is `some e`, the error it throws after them. -/
structure CompletionStream where
  parts : List Part
  failure : Option JsError
  deriving DecidableEq, Repr

/-- A remote call, with the arguments the program passes to it. -/
inductive Call where
  | embeddingsCreate (model : String) (input : String)
  | indexQuery (idx : Index) (vector : Embedding) (topK : Nat) (includeMetadata : Bool)
  | indexUpsert (idx : Index) (vectors : List UpsertVector)
  | chatCreate (model : String) (messages : List Message)
  | chatCreateStream (model : String) (messages : List Message) (temperature : ℚ)
  | postSentiment (message : String) (sentiment : String)
  | postExchange (userMessage : String) (response : String) (sentiment : String)
  deriving DecidableEq

/-- The collaborators of one exchange. `embeddings` takes the index on whose
behalf the embedding is requested, so that two requests for the same text may
settle differently. `toLowerCase` is the host's `String.prototype.toLowerCase`
(full Unicode case mapping, taken as given). -/
structure World where
  toLowerCase : String → String
  embeddings : Index → String → Except JsError Embedding
  indexQuery : Index → Embedding → Nat → Except JsError (List Match)
  indexUpsert : Index → UpsertVector → Except JsError Unit
  dateNow : Index → Nat
  isoNow : Index → String
  sentimentReply : List Message → Except JsError String
  completion : String → List Message → ℚ → Except JsError CompletionStream
  postExchange : String → String → String → Except JsError Unit

/-! ## Async functions -/

/-- The run of an `async` function: the remote calls made and the settled value. -/
structure Eff (α : Type) where
  calls : List Call
  result : Except JsError α

namespace Eff

/-- An already settled value. -/
def ret {α : Type} (a : α) : Eff α := ⟨[], .ok a⟩

/-- Sequencing with `await`: a rejection skips the continuation. -/
def andThen {α β : Type} (m : Eff α) (f : α → Eff β) : Eff β :=
  match m.result with
  | .error e => ⟨m.calls, .error e⟩
  | .ok a => ⟨m.calls ++ (f a).calls, (f a).result⟩

/-- One remote call with a given outcome. -/
def call {α : Type} (c : Call) (r : Except JsError α) : Eff α := ⟨[c], r⟩

/-- The aggregate `Promise.all([a, b])`: both operands are started and run to
completion whatever the other does; the aggregate rejects when either rejects
(with the reason of the first operand that rejected, in argument order). -/
def both {α β : Type} (a : Eff α) (b : Eff β) : Eff (α × β) :=
  ⟨a.calls ++ b.calls,
   match a.result, b.result with
   | .ok x, .ok y => .ok (x, y)
   | .error e, _ => .error e
   | .ok _, .error e => .error e⟩

end Eff

instance : Monad Eff where
  pure := Eff.ret
  bind := Eff.andThen

/-! ## `vectorMemory.js` -/

/-- `VectorMemory.embed(text)`. -/
def embed (w : World) (idx : Index) (text : String) : Eff Embedding :=
  Eff.call (.embeddingsCreate "text-embedding-ada-002" text) (w.embeddings idx text)

/-- `VectorMemory.queryIdx(idx, text, topK)`. -/
def queryIdx (w : World) (idx : Index) (text : String) (topK : Nat) : Eff (List Metadata) := do
  let vec ← embed w idx text
  let found ← Eff.call (.indexQuery idx vec topK true) (w.indexQuery idx vec topK)
  pure (found.map (fun m => m.metadata))

/-- `VectorMemory.queryPersonal(text, topK)`. -/
def queryPersonal (w : World) (text : String) (topK : Nat) : Eff (List Metadata) :=
  queryIdx w .personal text topK

/-- `VectorMemory.queryCollective(text, topK)`. -/
def queryCollective (w : World) (text : String) (topK : Nat) : Eff (List Metadata) :=
  queryIdx w .collective text topK

/-- The vector `saveIdx` builds from the embedding and the two clock readings. -/
def saveVector (content : String) (vec : Embedding) (now : Nat) (iso : String) : UpsertVector :=
  { id := toString now, values := vec, metadata := { content := content, timestamp := iso } }

/-- `VectorMemory.saveIdx(idx, { userMessage, response })`. -/
def saveIdx (w : World) (idx : Index) (userMessage response : String) : Eff Unit := do
  let content := userMessage ++ "\n" ++ response
  let vec ← embed w idx content
  let v := saveVector content vec (w.dateNow idx) (w.isoNow idx)
  Eff.call (.indexUpsert idx [v]) (w.indexUpsert idx v)

/-- `VectorMemory.savePersonal(opts)`. -/
def savePersonal (w : World) (userMessage response : String) : Eff Unit :=
  saveIdx w .personal userMessage response

/-- `VectorMemory.saveCollective(opts)`. -/
def saveCollective (w : World) (userMessage response : String) : Eff Unit :=
  saveIdx w .collective userMessage response

/-! ## `analytics.js` -/

/-- `Analytics.trackSentiment(message, sentiment)`; the caller does not await it,
so its outcome reaches nobody. -/
def trackSentiment (message sentiment : String) : Eff Unit :=
  Eff.call (.postSentiment message sentiment) (.ok ())

/-- `Analytics.trackExchange({ userMessage, response, sentiment })`. -/
def trackExchange (w : World) (userMessage response sentiment : String) : Eff Unit :=
  Eff.call (.postExchange userMessage response sentiment)
    (w.postExchange userMessage response sentiment)

/-! ## `assistantClient.js` -/

/-- The code points `String.prototype.trim` strips: WhiteSpace and LineTerminator. -/
def isJsWhiteSpace (c : Char) : Bool :=
  let n := c.toNat
  n == 0x09 || n == 0x0A || n == 0x0B || n == 0x0C || n == 0x0D || n == 0x20 || n == 0xA0 ||
  n == 0x1680 || (0x2000 ≤ n && n ≤ 0x200A) || n == 0x2028 || n == 0x2029 || n == 0x202F ||
  n == 0x205F || n == 0x3000 || n == 0xFEFF

/-- `String.prototype.trim`. -/
def jsTrim (s : String) : String :=
  ⟨((s.data.dropWhile isJsWhiteSpace).reverse.dropWhile isJsWhiteSpace).reverse⟩

/-- `toLowerCase` on the letters A to Z, every other character kept: what the
host's `toLowerCase` does on a string whose letters are all ASCII. -/
def asciiToLowerCase (s : String) : String := ⟨s.data.map Char.toLower⟩

/-- The argument object of `sendMessageStream`. -/
structure StreamOpts where
  context : String
  transcript : String
  history : List Message
  userMessage : String

/-- Step 1, the retrieval: `Promise.all([queryPersonal(..., 5), queryCollective(..., 5)])`. -/
def retrieve (w : World) (userMessage : String) : Eff (List Metadata × List Metadata) :=
  Eff.both (queryPersonal w userMessage 5) (queryCollective w userMessage 5)

/-- The `memPrompt` string of step 1. A `join` of two or more entries is never
empty, so the trailing `|| ''` never applies. -/
def memPrompt (personal collective : List Metadata) : String :=
  "\n".intercalate
    (["## Personal Memory:"] ++ personal.map (fun m => m.content) ++
     ["## Collective Memory:"] ++ collective.map (fun m => m.content))

/-- The messages of the sentiment request of step 2. -/
def sentimentMessages (userMessage : String) : List Message :=
  [{ role := .system, content := "Rate sentiment: positive, neutral, or negative." },
   { role := .user, content := userMessage }]

/-- Step 2: the sentiment request and `content.trim().toLowerCase()`. -/
def classify (w : World) (userMessage : String) : Eff String := do
  let content ← Eff.call (.chatCreate "gpt-3.5-turbo" (sentimentMessages userMessage))
    (w.sentimentReply (sentimentMessages userMessage))
  pure (w.toLowerCase (jsTrim content))

/-- Step 3, the temperature. -/
def temperatureOf (sentiment : String) : ℚ :=
  if sentiment = "positive" then 0.7 else if sentiment = "negative" then 0.5 else 0.6

/-- Step 3, the system prompt. -/
def systemPrompt (sentiment memPrompt context transcript : String) : String :=
  "You are Echo, an empathetic AI assistant. Tone: " ++ sentiment ++ ". " ++
  "Memory:\n" ++ memPrompt ++ "\nContext:\n" ++ context ++ "\nTranscript:\n" ++ transcript

/-- Step 4, the message list. -/
def buildMessages (prompt : String) (history : List Message) (userMessage : String) :
    List Message :=
  [{ role := .system, content := prompt }] ++
  history.map (fun h => { role := h.role, content := h.content }) ++
  [{ role := .user, content := userMessage }]

/-- What the generator holds when it enters the `for await` loop. -/
structure Prepared where
  sentiment : String
  temperature : ℚ
  messages : List Message
  response : CompletionStream

/-- Steps 1 to 5 up to the streaming `create` call. -/
def prepare (w : World) (model : String) (o : StreamOpts) : Eff Prepared := do
  let (personal, collective) ← retrieve w o.userMessage
  let mem := memPrompt personal collective
  let sentiment ← classify w o.userMessage
  trackSentiment o.userMessage sentiment
  let temperature := temperatureOf sentiment
  let messages := buildMessages (systemPrompt sentiment mem o.context o.transcript)
    o.history o.userMessage
  let response ← Eff.call (.chatCreateStream model messages temperature)
    (w.completion model messages temperature)
  pure { sentiment := sentiment, temperature := temperature, messages := messages,
         response := response }

/-- The expression `part.choices?.[0].delta?.content`: `undefined` when `choices`
is absent, a `TypeError` when `choices` is an empty array (the member access
after `[0]` is not guarded), otherwise the content of the first delta. -/
def partToken (p : Part) : Except JsError (Option String) :=
  match p.choices with
  | none => .ok none
  | some [] => .error "TypeError: Cannot read properties of undefined (reading 'delta')"
  | some (c :: _) =>
    match c.delta with
    | none => .ok none
    | some d => .ok d.content

/-- The `for await` loop of step 5: the tokens yielded, in order, and how the
loop ends. A token is yielded when it is truthy, that is a non-empty string. -/
def streamLoop : List Part → Option JsError → List String × Except JsError Unit
  | [], none => ([], .ok ())
  | [], some e => ([], .error e)
  | p :: ps, failure =>
    match partToken p with
    | .error e => ([], .error e)
    | .ok none => streamLoop ps failure
    | .ok (some token) =>
      if token = "" then streamLoop ps failure
      else ((token :: (streamLoop ps failure).1), (streamLoop ps failure).2)

/-- Step 6: `Promise.all([savePersonal, saveCollective, trackExchange])`. -/
def persist (w : World) (userMessage aggregated sentiment : String) : Eff Unit := do
  let _ ← Eff.both (savePersonal w userMessage aggregated)
    (Eff.both (saveCollective w userMessage aggregated)
      (trackExchange w userMessage aggregated sentiment))
  pure ()

/-- The run of an async generator driven to its end. -/
structure GenRun where
  tokens : List String
  calls : List Call
  outcome : Except JsError Unit

/-- `AssistantClient.sendMessageStream(opts)`, for a client built with `model`. -/
def sendMessageStream (w : World) (model : String) (o : StreamOpts) : GenRun :=
  let p := prepare w model o
  match p.result with
  | .error e => { tokens := [], calls := p.calls, outcome := .error e }
  | .ok prep =>
    let loop := streamLoop prep.response.parts prep.response.failure
    match loop.2 with
    | .error e => { tokens := loop.1, calls := p.calls, outcome := .error e }
    | .ok () =>
      let s := persist w o.userMessage (String.join loop.1) prep.sentiment
      { tokens := loop.1, calls := p.calls ++ s.calls, outcome := s.result }

/-! ## `hooks/useEchoAssistant.js` -/

/-- The string shown when the exchange throws. -/
def errorText : String := "Error occurred."

/-- The local `text` and the `history` state inside the `for await` loop of `sendMessage`. -/
structure Streaming where
  history : List Message
  text : String
  deriving DecidableEq, Repr

/-- The loop body: `text += token; setHistory(h => [...h.slice(0,-1), {assistant, text}])`. -/
def onToken (s : Streaming) (token : String) : Streaming :=
  { text := s.text ++ token,
    history := s.history.dropLast ++ [{ role := .assistant, content := s.text ++ token }] }

/-- The first updater: `setHistory(h => [...h, { role:'user', content:msg }])`. -/
def accept (h : List Message) (msg : String) : Streaming :=
  { history := h ++ [{ role := .user, content := msg }], text := "" }

/-- The `catch` updater: `setHistory(h => [...h, {assistant, 'Error occurred.'}])`. -/
def onError (h : List Message) : List Message :=
  h ++ [{ role := .assistant, content := errorText }]

/-- The successive values of `history` during `sendMessage(msg)`: after the user
entry is appended, after each token, and after the `catch` block when the
generator throws. -/
def sendMessageTrace (h : List Message) (msg : String) (tokens : List String)
    (outcome : Except JsError Unit) : List (List Message) :=
  let states := List.scanl onToken (accept h msg) tokens
  let seen := states.map (fun s => s.history)
  match outcome with
  | .ok _ => seen
  | .error _ => seen ++ [onError (tokens.foldl onToken (accept h msg)).history]

/-- The `history` state once `sendMessage(msg)` has settled, the generator
having yielded `tokens` and ended with `outcome`. -/
def sendMessage (h : List Message) (msg : String) (tokens : List String)
    (outcome : Except JsError Unit) : List Message :=
  let s := tokens.foldl onToken (accept h msg)
  match outcome with
  | .ok _ => s.history
  | .error _ => onError s.history

/-- The props of the hook that reach the client. -/
structure HookProps where
  context : String
  transcript : String
  model : String

/-- The argument `{ context, transcript, history, userMessage: msg }` of the
generator call in `sendMessage`. -/
def streamOpts (props : HookProps) (h : List Message) (msg : String) : StreamOpts :=
  { context := props.context, transcript := props.transcript, history := h, userMessage := msg }

/-- The call `useEchoAssistant(...).sendMessage(msg)` from the settled history `h`:
the client is given the history of the render in which `sendMessage` was created. -/
def send (w : World) (props : HookProps) (h : List Message) (msg : String) : List Message :=
  let run := sendMessageStream w props.model (streamOpts props h msg)
  sendMessage h msg run.tokens run.outcome

/-- A sequence of `sendMessage` calls, each awaited before the next: the message
of each call with the tokens and the outcome of its generator. -/
def sendAll (h : List Message) : List (String × List String × Except JsError Unit) → List Message
  | [] => h
  | (msg, tokens, outcome) :: rest => sendAll (sendMessage h msg tokens outcome) rest

/-! ## Concrete scenarios -/

/-- A streamed part carrying the text `s`. -/
def textPart (s : String) : Part :=
  { choices := some [{ delta := some { content := some s } }] }

/-- A world in which every collaborator answers: both indexes are empty, the
sentiment request settles with `sentimentText` and the streaming request with
`stream`. -/
def demoWorld (sentimentText : Except JsError String)
    (stream : Except JsError CompletionStream) : World :=
  { toLowerCase := asciiToLowerCase
    embeddings := fun _ _ => .ok [1, 2, 3]
    indexQuery := fun _ _ _ => .ok []
    indexUpsert := fun _ _ => .ok ()
    dateNow := fun _ => 1700000000000
    isoNow := fun _ => "2023-11-14T22:13:20.000Z"
    sentimentReply := fun _ => sentimentText
    completion := fun _ _ _ => stream
    postExchange := fun _ _ _ => .ok () }

/-- The props of the demonstration session. -/
def demoProps : HookProps := { context := "App", transcript := "", model := "gpt-4o-mini" }

/-- Scenario A: the model answers "Hi there" in two tokens and the stream ends. -/
def helloWorld : World :=
  demoWorld (.ok "neutral") (.ok { parts := [textPart "Hi", textPart " there"], failure := none })

/-- Scenario B: the stream is interrupted after the token "Hel". -/
def interruptedWorld : World :=
  demoWorld (.ok "neutral") (.ok { parts := [textPart "Hel"], failure := some "StreamInterrupted" })

/-- What `prepare` hands to the loop in scenario B. -/
def interruptedPrepared : Prepared :=
  { sentiment := "neutral"
    temperature := 0.6
    messages := buildMessages (systemPrompt "neutral" (memPrompt [] []) "App" "") [] "Hello"
    response := { parts := [textPart "Hel"], failure := some "StreamInterrupted" } }

/-- The number of assistant entries of a history. -/
def assistantCount (h : List Message) : Nat :=
  (h.filter (fun m => m.role = Role.assistant)).length

/-- Scenario: both Pinecone indexes reject their queries. -/
def queryDownWorld : World :=
  { helloWorld with indexQuery := fun _ _ _ => .error "index unavailable" }

/-- Scenario: the sentiment request is rejected. -/
def classifierDownWorld : World :=
  demoWorld (.error "classifier unavailable")
    (.ok { parts := [textPart "Hi", textPart " there"], failure := none })

/-- Scenario: the sentiment model answers with a sentence-cased, punctuated word. -/
def punctuatedWorld : World :=
  demoWorld (.ok "Positive.") (.ok { parts := [textPart "Hi", textPart " there"], failure := none })

/-- Scenario C with a failing embedder at save time: the query text "X" is
embedded, the model answers "Y", the embedding of the content to save is rejected. -/
def saveEmbedDownWorld : World :=
  { demoWorld (.ok "neutral") (.ok { parts := [textPart "Y"], failure := none }) with
    embeddings := fun _ text => if text = "X" then .ok [1, 2, 3] else .error "ModelError" }

/-- Scenario C: the model answers "Y" and every collaborator answers. -/
def scenarioCWorld : World :=
  demoWorld (.ok "neutral") (.ok { parts := [textPart "Y"], failure := none })

/-- The argument of the generator in scenario C. -/
def scenarioCOpts : StreamOpts :=
  { context := "App", transcript := "", history := [], userMessage := "X" }

/-- What `prepare` hands to the loop in scenario C. -/
def scenarioCPrepared : Prepared :=
  { sentiment := "neutral"
    temperature := 0.6
    messages := buildMessages (systemPrompt "neutral" (memPrompt [] []) "App" "") [] "X"
    response := { parts := [textPart "Y"], failure := none } }

/-- The vector each index receives in scenario C. -/
def scenarioCVector : UpsertVector :=
  { id := "1700000000000"
    values := [1, 2, 3]
    metadata := { content := "X\nY", timestamp := "2023-11-14T22:13:20.000Z" } }

/-- Whether a call is a chat completion request, for the sentiment or for the stream. -/
def Call.isChat : Call → Bool
  | .chatCreate _ _ => true
  | .chatCreateStream _ _ _ => true
  | _ => false

/-- Whether a call belongs to the retrieval: an embedding request or an index query. -/
def Call.isRetrieval : Call → Bool
  | .embeddingsCreate _ _ => true
  | .indexQuery _ _ _ _ => true
  | _ => false

/-- The index and the vectors of an upsert request. -/
def Call.asUpsert : Call → Option (Index × List UpsertVector)
  | .indexUpsert idx vectors => some (idx, vectors)
  | _ => none

/-- The upsert requests among the calls, in order. -/
def upsertsOf (calls : List Call) : List (Index × List UpsertVector) :=
  calls.filterMap Call.asUpsert

/-- The temperature of a streaming request. -/
def Call.temperature : Call → Option ℚ
  | .chatCreateStream _ _ t => some t
  | _ => none

/-- The sentiment a call reports to analytics. -/
def Call.reportedSentiment : Call → Option String
  | .postSentiment _ s => some s
  | .postExchange _ _ s => some s
  | _ => none

/-- The arguments `{ userMessage, response, sentiment }` of a `trackExchange` request. -/
def Call.asExchange : Call → Option (String × String × String)
  | .postExchange userMessage response sentiment => some (userMessage, response, sentiment)
  | _ => none

/-- The `trackExchange` requests among the calls, in order. -/
def exchangesOf (calls : List Call) : List (String × String × String) :=
  calls.filterMap Call.asExchange

/-- The text of an embedding request. -/
def Call.embeddingInput : Call → Option String
  | .embeddingsCreate _ input => some input
  | _ => none

/-- What the promise returned by the hook's `sendMessage` settles with: the
`catch` block handles the error of the generator and does not rethrow. -/
def sendMessageSettled (outcome : Except JsError Unit) : Except JsError Unit :=
  match outcome with
  | .ok _ => .ok ()
  | .error _ => .ok ()

/-- A streamed part whose delta carries no content. -/
def emptyDeltaPart : Part :=
  { choices := some [{ delta := some { content := none } }] }

/-- Scenario: the stream ends without error and without any content token (an
empty first delta, then a delta without content). -/
def silentWorld : World :=
  demoWorld (.ok "neutral") (.ok { parts := [textPart "", emptyDeltaPart], failure := none })

/-- What `prepare` hands to the loop in the silent scenario. -/
def silentPrepared : Prepared :=
  { sentiment := "neutral"
    temperature := 0.6
    messages := buildMessages (systemPrompt "neutral" (memPrompt [] []) "App" "") [] "X"
    response := { parts := [textPart "", emptyDeltaPart], failure := none } }

/-- The vector each index receives in the silent scenario. -/
def silentVector : UpsertVector :=
  { id := "1700000000000"
    values := [1, 2, 3]
    metadata := { content := "X\n", timestamp := "2023-11-14T22:13:20.000Z" } }

/-- What `prepare` hands to the loop in scenario A. -/
def helloPrepared : Prepared :=
  { sentiment := "neutral"
    temperature := 0.6
    messages := buildMessages (systemPrompt "neutral" (memPrompt [] []) "App" "") [] "Hello"
    response := { parts := [textPart "Hi", textPart " there"], failure := none } }

/-- Scenario E: scenario A with the analytics endpoint rejecting `trackExchange`. -/
def analyticsDownWorld : World :=
  { helloWorld with postExchange := fun _ _ _ => .error "analytics unavailable" }

/-- The React state of `useEchoAssistant`. -/
structure HookState where
  history : List Message
  loading : Bool
  typing : Bool
  deriving DecidableEq, Repr

/-- The synchronous start of `sendMessage(msg)`, up to its first `await`:
`setLoading(true); setTyping(true); setHistory(h => [...h, {user, msg}])`. The
body reads neither `loading` nor `typing`. -/
def beginSend (s : HookState) (msg : String) : HookState :=
  { loading := true, typing := true, history := (accept s.history msg).history }

/-- The loop body of an exchange in flight whose local `text` is `text`, applied
to the shared state. -/
def tokenUpdate (s : HookState) (text token : String) : HookState :=
  { s with history := (onToken { history := s.history, text := text } token).history }

/-- A session at rest with an empty history. -/
def idleState : HookState := { history := [], loading := false, typing := false }

/-- A session in the state Sending: `sendMessage("first")` has been called and
no token has arrived yet. -/
def sendingState : HookState := beginSend idleState "first"

/-- The message list of a streaming request. -/
def Call.streamMessages : Call → Option (List Message)
  | .chatCreateStream _ messages _ => some messages
  | _ => none

/-- The lines of the system prompt in the order the specification gives: the
tone directive, the Personal Memory header and contents, the Collective Memory
header and contents, the context, the transcript. -/
def promptLines (sentiment context transcript : String)
    (personal collective : List Metadata) : List String :=
  ["You are Echo, an empathetic AI assistant. Tone: " ++ sentiment ++ ". Memory:",
   "## Personal Memory:"] ++ personal.map (fun m => m.content) ++
  ["## Collective Memory:"] ++ collective.map (fun m => m.content) ++
  ["Context:", context, "Transcript:", transcript]

/-- Two stored memories for the prompt example. -/
def examplePersonal : List Metadata :=
  [{ content := "likes tea", timestamp := "t1" }, { content := "lives in Oslo", timestamp := "t2" }]

/-- One stored memory for the prompt example. -/
def exampleCollective : List Metadata :=
  [{ content := "users ask about exports", timestamp := "t3" }]

/-- The number a string of decimal digits denotes. -/
def decimalValue (s : String) : Nat :=
  s.data.foldl (fun acc c => 10 * acc + (c.toNat - 48)) 0

/-- Scenario C one millisecond later. -/
def laterWorld : World :=
  { scenarioCWorld with dateNow := fun _ => 1700000000001 }

/-! ## The stored history: `JSON.stringify`, `JSON.parse` and the two effects -/

/-- UnicodeEscape of ECMA-262: a backslash, `u`, and four lowercase hexadecimal digits. -/
def unicodeEscape (n : Nat) : List Char :=
  ['\\', 'u', Nat.digitChar (n / 4096 % 16), Nat.digitChar (n / 256 % 16),
   Nat.digitChar (n / 16 % 16), Nat.digitChar (n % 16)]

/-- One code point under QuoteJSONString of ECMA-262: the two-character escapes
for backspace, tab, line feed, form feed, carriage return, the quote and the
backslash, a `u` escape for the other code points below U+0020, and the code
point itself otherwise. -/
def quoteJSONChar (c : Char) : List Char :=
  if c = '\x08' then ['\\', 'b']
  else if c = '\t' then ['\\', 't']
  else if c = '\n' then ['\\', 'n']
  else if c = '\x0c' then ['\\', 'f']
  else if c = '\r' then ['\\', 'r']
  else if c = '"' then ['\\', '"']
  else if c = '\\' then ['\\', '\\']
  else if c.toNat < 0x20 then unicodeEscape c.toNat
  else [c]

/-- The escaped text of a string, without the enclosing quotes. -/
def quoteChars : List Char → List Char
  | [] => []
  | c :: cs => quoteJSONChar c ++ quoteChars cs

/-- The value of a hexadecimal digit, of either case. -/
def hexValue (c : Char) : Option Nat :=
  if 48 ≤ c.toNat ∧ c.toNat ≤ 57 then some (c.toNat - 48)
  else if 97 ≤ c.toNat ∧ c.toNat ≤ 102 then some (c.toNat - 87)
  else if 65 ≤ c.toNat ∧ c.toNat ≤ 70 then some (c.toNat - 55)
  else none

/-- The code unit named by the four digits of a `u` escape. -/
def hex4 (a b c d : Char) : Option Nat :=
  match hexValue a, hexValue b, hexValue c, hexValue d with
  | some x, some y, some z, some t => some (x * 4096 + y * 256 + z * 16 + t)
  | _, _, _, _ => none

/-- The character named by a one-letter escape of the JSON grammar. -/
def simpleEscape (e : Char) : Option Char :=
  if e = '"' then some '"'
  else if e = '\\' then some '\\'
  else if e = '/' then some '/'
  else if e = 'b' then some '\x08'
  else if e = 'f' then some '\x0c'
  else if e = 'n' then some '\n'
  else if e = 'r' then some '\r'
  else if e = 't' then some '\t'
  else none

/-- Put a decoded character in front of the rest of the decoded string. -/
def consChar (c : Char) (r : Option (List Char × List Char)) : Option (List Char × List Char) :=
  match r with
  | some (cs, rest) => some (c :: cs, rest)
  | none => none

/-- The JSON string grammar after the opening quote: the decoded characters up to
the closing quote and the input that follows it; `none` is a SyntaxError (an
unescaped code point below U+0020, a malformed escape, or no closing quote). -/
def unquoteChars : List Char → Option (List Char × List Char)
  | [] => none
  | c :: rest =>
    if c = '"' then some ([], rest)
    else if c = '\\' then
      match rest with
      | [] => none
      | e :: rest1 =>
        if e = 'u' then
          match rest1 with
          | a :: b :: c1 :: d :: rest2 =>
            match hex4 a b c1 d with
            | some n => consChar (Char.ofNat n) (unquoteChars rest2)
            | none => none
          | _ => none
        else
          match simpleEscape e with
          | some ch => consChar ch (unquoteChars rest1)
          | none => none
    else if c.toNat < 0x20 then none
    else consChar c (unquoteChars rest)


/-- QuoteJSONString of ECMA-262: the escaped text between two quotes. -/
def quoteJSONString (s : String) : List Char :=
  '"' :: (quoteChars s.data ++ ['"'])

/-- A JSON string literal at the head of the input. -/
def parseString : List Char → Option (List Char × List Char)
  | [] => none
  | c :: rest => if c = '"' then unquoteChars rest else none

/-- The input after the given literal text, or `none` when it does not start with it. -/
def expect : List Char → List Char → Option (List Char)
  | [], input => some input
  | _ :: _, [] => none
  | l :: ls, c :: cs => if l = c then expect ls cs else none

/-- The string value of a role. -/
def roleName : Role → String
  | .system => "system"
  | .user => "user"
  | .assistant => "assistant"

/-- The role a string names. -/
def roleOfName (cs : List Char) : Option Role :=
  if cs = "system".data then some .system
  else if cs = "user".data then some .user
  else if cs = "assistant".data then some .assistant
  else none

/-- SerializeJSONObject on `{ role, content }`: the members in insertion order,
no white space. -/
def stringifyMessage (m : Message) : List Char :=
  "\x7b\"role\":".data ++ (quoteJSONString (roleName m.role) ++
    (",\"content\":".data ++ (quoteJSONString m.content ++ ['\x7d'])))

/-- An object with the members `role` and `content`, in this order and without
white space, at the head of the input: the form in which `JSON.stringify` writes
the entries of a history. -/
def parseMessage (input : List Char) : Option (Message × List Char) :=
  match expect "\x7b\"role\":".data input with
  | none => none
  | some r1 =>
    match parseString r1 with
    | none => none
    | some (roleChars, r2) =>
      match roleOfName roleChars with
      | none => none
      | some role =>
        match expect ",\"content\":".data r2 with
        | none => none
        | some r3 =>
          match parseString r3 with
          | none => none
          | some (content, r4) =>
            match r4 with
            | c :: r5 => if c = '\x7d' then some ({ role := role, content := ⟨content⟩ }, r5) else none
            | [] => none

/-- The entries after the first, each behind a comma, and the closing bracket. -/
def stringifyMore : List Message → List Char
  | [] => [']']
  | m :: ms => ',' :: (stringifyMessage m ++ stringifyMore ms)

/-- The entries after the first and the closing bracket, which must end the text;
the fuel bounds the number of entries read. -/
def parseMore : Nat → List Char → Option (List Message)
  | 0, _ => none
  | fuel + 1, input =>
    match input with
    | [] => none
    | c :: rest =>
      if c = ']' then (if rest = [] then some [] else none)
      else if c = ',' then
        match parseMessage rest with
        | none => none
        | some (m, rest1) =>
          match parseMore fuel rest1 with
          | none => none
          | some ms => some (m :: ms)
      else none

/-- `JSON.stringify(history)` for a history, an array of `{ role, content }`
objects with string members (SerializeJSONArray of ECMA-262). -/
def JSON.stringify (history : List Message) : String :=
  match history with
  | [] => ⟨['[', ']']⟩
  | m :: ms => ⟨'[' :: (stringifyMessage m ++ stringifyMore ms)⟩

/-- `JSON.parse(text)` on the texts `JSON.stringify` writes for a history: an
array of objects with the members `role` and `content`, without insignificant
white space; `none` is a SyntaxError. Other JSON texts are outside this model. -/
def JSON.parse (text : String) : Option (List Message) :=
  match text.data with
  | [] => none
  | c :: rest =>
    if c = '[' then
      if rest = [']'] then some []
      else
        match parseMessage rest with
        | none => none
        | some (m, rest1) =>
          match parseMore rest1.length rest1 with
          | none => none
          | some ms => some (m :: ms)
    else none

/-- The content of `localStorage`: the string stored under each key, if any. -/
abbrev Storage := String → Option String

/-- The key of a user's conversation. -/
def storageKey (userId : String) : String := "echo_conv_" ++ userId

/-- The save effect: `localStorage.setItem(key, JSON.stringify(history))`. -/
def saveEffect (storage : Storage) (userId : String) (history : List Message) : Storage :=
  fun k => if k = storageKey userId then some (JSON.stringify history) else storage k

/-- The load effect: `stored = localStorage.getItem(key)` and, when `stored` is
truthy, `setHistory(JSON.parse(stored))`; the result is the history state
afterwards, or the SyntaxError thrown by `JSON.parse`. -/
def loadEffect (storage : Storage) (userId : String) (history : List Message) :
    Except JsError (List Message) :=
  match storage (storageKey userId) with
  | none => .ok history
  | some stored =>
    if stored = "" then .ok history
    else
      match JSON.parse stored with
      | some parsed => .ok parsed
      | none => .error "SyntaxError"

/-- A history whose contents need every kind of escape. -/
def escapedHistory : List Message :=
  [{ role := .user, content := "say \"hi\"\n\ttab \\ back" },
   { role := .assistant, content := "bell\x07 é ok" }]

/-- A call of the gathering stage: an embedding request, an index query or the
sentiment request. -/
def Call.isGathering : Call → Bool
  | .embeddingsCreate _ _ => true
  | .indexQuery _ _ _ _ => true
  | .chatCreate _ _ => true
  | _ => false

/-- `AssistantClient.sendMessage(opts)`: the chunks of the generator joined with
the empty separator, or the error the generator throws. -/
def clientSendMessage (w : World) (model : String) (o : StreamOpts) : Except JsError String :=
  match (sendMessageStream w model o).outcome with
  | .ok _ => .ok ("".intercalate (sendMessageStream w model o).tokens)
  | .error e => .error e

/-- The streamed parts the loop reads without throwing: a part without `choices`,
a part whose first choice has no `delta`, and a part whose first delta has the
given content (possibly absent). -/
inductive PartShape where
  | noChoices
  | noDelta
  | content (c : Option String)
  deriving DecidableEq, Repr

/-- The streamed part of a shape. -/
def PartShape.toPart : PartShape → Part
  | .noChoices => { choices := none }
  | .noDelta => { choices := some [{ delta := none }] }
  | .content c => { choices := some [{ delta := some { content := c } }] }

/-- The non-empty content delta of a shape, if it has one. -/
def PartShape.token : PartShape → Option String
  | .content (some t) => if t = "" then none else some t
  | _ => none

/-- A streamed part whose `choices` array is empty. -/
def emptyChoicesPart : Part := { choices := some [] }

/-- Scenario: the stream delivers "Hi", a part with an empty `choices` array, then
" there", and ends without error. -/
def emptyChoicesWorld : World :=
  demoWorld (.ok "neutral")
    (.ok { parts := [textPart "Hi", emptyChoicesPart, textPart " there"], failure := none })

/-- The end of `sendMessage`: the `catch` updater when the generator threw, then
the `finally` block `setTyping(false); setLoading(false)`. They run in one
synchronous continuation, and a root made with `createRoot` (index.jsx) commits
the updates of one continuation in one render. -/
def settleSend (s : HookState) (outcome : Except JsError Unit) : HookState :=
  { history :=
      match outcome with
      | .ok _ => s.history
      | .error _ => onError s.history
    loading := false
    typing := false }

/-- The update of the load effect: `setHistory(JSON.parse(stored))`. -/
def loadUpdate (s : HookState) (stored : List Message) : HookState :=
  { s with history := stored }

/-- A rendered state while an exchange streams. -/
def streamingState (st : Streaming) : HookState :=
  { history := st.history, loading := true, typing := true }

/-- The states rendered during one awaited `sendMessage(msg)` called in state `s`:
after the synchronous start, after each token, and after the call settles. -/
def sendMessageStates (s : HookState) (msg : String) (tokens : List String)
    (outcome : Except JsError Unit) : List HookState :=
  (List.scanl onToken (accept s.history msg) tokens).map streamingState ++
    [settleSend (streamingState (tokens.foldl onToken (accept s.history msg))) outcome]

/-- One rendered change of the state of the hook: the start of a `sendMessage`
call, a token of an exchange in flight, the end of a call, or the load effect. -/
inductive HookStep : HookState → HookState → Prop where
  | start (s : HookState) (msg : String) : HookStep s (beginSend s msg)
  | token (s : HookState) (text tok : String) : HookStep s (tokenUpdate s text tok)
  | settle (s : HookState) (outcome : Except JsError Unit) : HookStep s (settleSend s outcome)
  | load (s : HookState) (stored : List Message) : HookStep s (loadUpdate s stored)

/-- The states the hook can render, from `useState([])`, `useState(false)`,
`useState(false)`, by any sequence of steps, overlapping exchanges included. -/
inductive Reachable : HookState → Prop where
  | init : Reachable idleState
  | step {s t : HookState} : Reachable s → HookStep s t → Reachable t

/-- The values of the history that a render commits, out of its successive
values: `flush` tells for each value but the last whether a render happens
before the next update is queued (otherwise both updates are batched); the
last value is always rendered. -/
def committed : List (List Message) → List Bool → List (List Message)
  | [], _ => []
  | h :: rest, flush =>
    match rest with
    | [] => [h]
    | _ :: _ =>
      if flush.headD false then h :: committed rest flush.tail
      else committed rest flush.tail

/-- The writes of the save effect `useEffect(() => localStorage.setItem(key,
JSON.stringify(history)), [history])`: one `setItem(key, value)` after each
render that commits a new value of the history. -/
def storageWrites (userId : String) (trace : List (List Message)) (flush : List Bool) :
    List (String × String) :=
  (committed trace flush).map (fun h => (storageKey userId, JSON.stringify h))

/-! ## Numbers of the host: IEEE 754 binary64 -/

/-- A Number value of the host: NaN, the two infinities, or a finite value, given
by the rational number it denotes. The two zeros are one value: the functions
modelled here divide by non-zero constants only, and `Math.max(0, x)`, `String(x)`
and `JSON.stringify(x)` give the same result for both zeros. -/
inductive JsNumber where
  | nan
  | posInf
  | negInf
  | fin (q : ℚ)
  deriving DecidableEq

/-- The power of two with an integer exponent. -/
def pow2 (e : Int) : ℚ :=
  if 0 ≤ e then ((2 ^ e.toNat : Nat) : ℚ) else 1 / ((2 ^ (-e).toNat : Nat) : ℚ)

/-- The binary logarithm of a positive natural number, rounded down, by repeated
halving; the first argument bounds the number of steps. -/
def log2Fuel : Nat → Nat → Nat
  | 0, _ => 0
  | fuel + 1, n => if n < 2 then 0 else log2Fuel fuel (n / 2) + 1

/-- The binary logarithm of a positive natural number, rounded down. -/
def natLog2 (n : Nat) : Nat := log2Fuel n n

/-- The binary exponent of a positive rational a: the integer e with
2^e ≤ a < 2^(e+1). -/
def binade (a : ℚ) : Int :=
  if pow2 ((natLog2 a.num.natAbs : Int) - (natLog2 a.den : Int)) ≤ a
  then (natLog2 a.num.natAbs : Int) - (natLog2 a.den : Int)
  else (natLog2 a.num.natAbs : Int) - (natLog2 a.den : Int) - 1

/-- The distance between neighbouring binary64 values around a positive rational:
53 significant bits, the exponent not below -1022 (subnormal values are spaced by
2^-1074). -/
def ulpOf (a : ℚ) : ℚ := pow2 (max (binade a) (-1022) - 52)

/-- The nearest integer, a tie going to the even one. -/
def roundHalfEven (y : ℚ) : Int :=
  if y - ⌊y⌋ < 1 / 2 then ⌊y⌋
  else if 1 / 2 < y - ⌊y⌋ then ⌊y⌋ + 1
  else if ⌊y⌋ % 2 = 0 then ⌊y⌋ else ⌊y⌋ + 1

/-- A positive rational rounded to the nearest multiple of its `ulpOf`, ties to the
even multiple: the binary64 value nearest to it when the exponent is unbounded
above. -/
def roundVal (a : ℚ) : ℚ := roundHalfEven (a / ulpOf a) * ulpOf a

/-- The Number value of a rational: round to nearest, ties to even; a magnitude
that rounds to 2^1024 or more overflows to an infinity. -/
def fl (q : ℚ) : JsNumber :=
  if q = 0 then .fin 0
  else if 0 < q then (if roundVal q < pow2 1024 then .fin (roundVal q) else .posInf)
  else (if roundVal (-q) < pow2 1024 then .fin (-roundVal (-q)) else .negInf)

/-- Unary minus. -/
def JsNumber.neg : JsNumber → JsNumber
  | .nan => .nan
  | .posInf => .negInf
  | .negInf => .posInf
  | .fin q => .fin (-q)

/-- The operator `+` on two Numbers: the exact sum, rounded. -/
def JsNumber.add : JsNumber → JsNumber → JsNumber
  | .nan, _ => .nan
  | _, .nan => .nan
  | .posInf, .negInf => .nan
  | .negInf, .posInf => .nan
  | .posInf, _ => .posInf
  | _, .posInf => .posInf
  | .negInf, _ => .negInf
  | _, .negInf => .negInf
  | .fin a, .fin b => fl (a + b)

/-- The operator `-` on two Numbers. -/
def JsNumber.sub (x y : JsNumber) : JsNumber := x.add y.neg

/-- The sign of a Number: 1, -1, and 0 for zero and NaN. -/
def JsNumber.sign : JsNumber → Int
  | .nan => 0
  | .posInf => 1
  | .negInf => -1
  | .fin q => if 0 < q then 1 else if q < 0 then -1 else 0

/-- The infinity of a sign, NaN for the sign 0. -/
def infOfSign (s : Int) : JsNumber :=
  if s = 0 then .nan else if 0 < s then .posInf else .negInf

/-- The operator `*` on two Numbers: the exact product, rounded; an infinity times
zero is NaN. -/
def JsNumber.mul : JsNumber → JsNumber → JsNumber
  | .nan, _ => .nan
  | _, .nan => .nan
  | .fin a, .fin b => fl (a * b)
  | x, y => infOfSign (x.sign * y.sign)

/-- The operator `/` on two Numbers: the exact quotient, rounded. A zero divisor
is the positive zero. -/
def JsNumber.div : JsNumber → JsNumber → JsNumber
  | .nan, _ => .nan
  | _, .nan => .nan
  | .fin a, .fin b => if b = 0 then infOfSign (JsNumber.fin a).sign else fl (a / b)
  | .fin _, _ => .fin 0
  | x, .fin b => infOfSign (x.sign * (if b < 0 then -1 else 1))
  | _, _ => .nan

/-- A rational rounded towards zero. -/
def trunc (q : ℚ) : Int := if 0 ≤ q then ⌊q⌋ else ⌈q⌉

/-- The operator `%` on two Numbers: the remainder of the division truncated
towards zero, which is exact; NaN for an infinite dividend or a zero divisor. -/
def JsNumber.rem : JsNumber → JsNumber → JsNumber
  | .fin a, .fin b => if b = 0 then .nan else .fin (a - b * trunc (a / b))
  | .fin a, .posInf => .fin a
  | .fin a, .negInf => .fin a
  | _, _ => .nan

/-- `Math.floor`. -/
def mathFloor : JsNumber → JsNumber
  | .fin q => .fin ⌊q⌋
  | x => x

/-- `Math.round`: the nearest integer, a tie going upwards. -/
def mathRound : JsNumber → JsNumber
  | .fin q => .fin ⌊q + 1 / 2⌋
  | x => x

/-- `Math.max` of two Numbers: NaN when one of them is NaN. -/
def mathMax : JsNumber → JsNumber → JsNumber
  | .nan, _ => .nan
  | _, .nan => .nan
  | .posInf, _ => .posInf
  | _, .posInf => .posInf
  | .negInf, y => y
  | x, .negInf => x
  | .fin a, .fin b => .fin (max a b)

/-- `Number(x || 0)` for a Number x or a missing one (`none`: `undefined` or
`null`): zero, NaN and a missing value give 0. -/
def numberOrZero : Option JsNumber → JsNumber
  | none => .fin 0
  | some .nan => .fin 0
  | some x => x

/-- `String(x)` for a Number x. An integer of magnitude below 10^21 is written in
decimal digits; for any other finite value (a fraction, or exponent notation from
10^21 on) the text is that of the host function, a parameter. -/
def numberToString (host : JsNumber → String) (x : JsNumber) : String :=
  match x with
  | .nan => "NaN"
  | .posInf => "Infinity"
  | .negInf => "-Infinity"
  | .fin q =>
    if q.den = 1 ∧ q.num.natAbs < 10 ^ 21 then
      (if q.num < 0 then "-" else "") ++ toString q.num.natAbs
    else host x

/-- `s.padStart(len, "0")`. -/
def padStart (s : String) (len : Nat) : String :=
  ⟨List.replicate (len - s.length) '0' ++ s.data⟩

/-! ## `components/TranscriptExportPanel.jsx`: `formatSrtTime` -/

/-- The helper `pad(n, len)`: `String(n).padStart(len, "0")`. -/
def pad (host : JsNumber → String) (n : JsNumber) (len : Nat) : String :=
  padStart (numberToString host n) len

/-- The first line of `formatSrtTime`:
`Math.max(0, Math.round(Number(secondsFloat || 0) * 1000))`. -/
def totalMsOf (secondsFloat : Option JsNumber) : JsNumber :=
  mathMax (.fin 0) (mathRound ((numberOrZero secondsFloat).mul (.fin 1000)))

/-- `formatSrtTime(secondsFloat)` for a Number or a missing argument. -/
def formatSrtTime (host : JsNumber → String) (secondsFloat : Option JsNumber) : String :=
  let totalMs := totalMsOf secondsFloat
  let hours := mathFloor (totalMs.div (.fin 3600000))
  let minutes := mathFloor ((totalMs.rem (.fin 3600000)).div (.fin 60000))
  let seconds := mathFloor ((totalMs.rem (.fin 60000)).div (.fin 1000))
  let millis := totalMs.rem (.fin 1000)
  pad host hours 2 ++ ":" ++ pad host minutes 2 ++ ":" ++ pad host seconds 2 ++ "," ++
    pad host millis 3

/-- The decimal digits of a natural number, zeros put in front up to the length
`len`: the reference text of one field. -/
def padNat (n : Nat) (len : Nat) : String := padStart (toString n) len

/-- The text HH:MM:SS,mmm of a natural number of milliseconds in exact arithmetic:
the reference `formatSrtTime` is compared with. -/
def exactSrtText (T : Nat) : String :=
  padNat (T / 3600000) 2 ++ ":" ++ padNat (T % 3600000 / 60000) 2 ++ ":" ++
    padNat (T % 60000 / 1000) 2 ++ "," ++ padNat (T % 1000) 3

/-! ## `utils/transcriptionUsage.js` -/

/-- The field `minutesUsed` of a record read by `JSON.parse`: `null` or a Number.
Other values (a string, a missing field) are not modelled. -/
inductive NumberOrNull where
  | null
  | num (x : JsNumber)
  deriving DecidableEq

/-- The Number an arithmetic operator takes from such a field: `null` counts as 0. -/
def NumberOrNull.toNumber : NumberOrNull → JsNumber
  | .null => .fin 0
  | .num x => x

/-- What `JSON.parse` reads back from the text `JSON.stringify` writes for a
Number: the same Number when it is finite (the digits written denote it), and
`null` for NaN and the infinities, which are written as `null`. -/
def jsonOfNumber : JsNumber → NumberOrNull
  | .fin q => .num (.fin q)
  | _ => .null

/-- A stored usage record, as `JSON.parse` reads it. -/
structure Usage where
  minutesUsed : NumberOrNull
  month : String
  deriving DecidableEq

/-- A usage record with the limit, as the functions return it. -/
structure UsageView where
  minutesUsed : NumberOrNull
  month : String
  limit : JsNumber
  deriving DecidableEq

/-- What is under the key `echoscript_usage`: nothing (or the empty text), a text
from which no record can be read (`JSON.parse` throws, or reading `data.month`
throws), or a record. -/
inductive StoredUsage where
  | absent
  | unreadable
  | record (u : Usage)
  deriving DecidableEq

/-- `getTranscriptionUsage()`, with the constant `MONTHLY_LIMIT_MINUTES` and the
value of `currentMonth()` as parameters. -/
def getTranscriptionUsage (limit : JsNumber) (stored : StoredUsage) (now : String) : UsageView :=
  match stored with
  | .absent => { minutesUsed := .num (.fin 0), month := now, limit := limit }
  | .unreadable => { minutesUsed := .num (.fin 0), month := now, limit := limit }
  | .record u =>
    if u.month ≠ now then { minutesUsed := .num (.fin 0), month := now, limit := limit }
    else { minutesUsed := u.minutesUsed, month := u.month, limit := limit }

/-- `updateTranscriptionUsage(minutesToAdd)`: what is under the key afterwards, as
`JSON.parse` will read it, and the value returned. -/
def updateTranscriptionUsage (limit : JsNumber) (stored : StoredUsage) (now : String)
    (minutesToAdd : Option JsNumber) : StoredUsage × UsageView :=
  let usage := getTranscriptionUsage limit stored now
  let minutesUsed := mathMax (.fin 0) (usage.minutesUsed.toNumber.add (numberOrZero minutesToAdd))
  (.record { minutesUsed := jsonOfNumber minutesUsed, month := now },
   { minutesUsed := .num minutesUsed, month := now, limit := limit })

/-- `getRemainingMinutes()`. -/
def getRemainingMinutes (limit : JsNumber) (stored : StoredUsage) (now : String) : JsNumber :=
  mathMax (.fin 0) (limit.sub (getTranscriptionUsage limit stored now).minutesUsed.toNumber)

/-- The minutes already used in the current month according to the store: those
of the stored record when its month is the current one, otherwise 0. -/
def previousMinutes (stored : StoredUsage) (now : String) : JsNumber :=
  match stored with
  | .record u => if u.month = now then u.minutesUsed.toNumber else .fin 0
  | _ => .fin 0

/-- A stored record of 50 minutes used in September 2025. -/
def storedSeptember : StoredUsage := .record (Usage.mk (.num (.fin 50)) "2025-09")

/-- A stored record of 2^1023 minutes (8.98846567431158e+307, a binary64 value)
used in September 2025. -/
def storedHuge : StoredUsage := .record (Usage.mk (.num (.fin (2 ^ 1023))) "2025-09")

/-! ## `utils/EmotionToneDetector.js` -/

/-- The alternatives of `positiveRegex`, in order. -/
def positiveWords : List String :=
  ["amazing", "awesome", "great", "excited", "cool", "yay", "yes", "love", "fantastic",
   "wonderful", "incredible", "happy", "satisfied", "blessed", "joyful", "thrilled",
   "grateful", "excellent", "brilliant", "nice", "good", "perfect", "stoked", "pumped",
   "win", "winning"]

/-- The alternatives of `negativeRegex`, in order. -/
def negativeWords : List String :=
  ["sad", "tired", "bad", "confused", "lost", "sorry", "angry", "upset", "hate",
   "frustrated", "annoyed", "depressed", "stressed", "miserable", "lonely", "terrible",
   "ugh", "nope", "awful", "horrible", "disappointed", "worried", "anxious", "mad",
   "furious", "irritated", "bummed"]

/-- The class `\w` of a regular expression without the `u` flag: the ASCII
letters, the digits and the underscore. -/
def isWordChar (c : Char) : Bool :=
  (65 ≤ c.toNat && c.toNat ≤ 90) || (97 ≤ c.toNat && c.toNat ≤ 122) ||
  (48 ≤ c.toNat && c.toNat ≤ 57) || c.toNat == 95

/-- Whether there is a word character at a position; `none` is an end of the input. -/
def isWordAt (c : Option Char) : Bool :=
  match c with
  | some x => isWordChar x
  | none => false

/-- The assertion `\b` between two neighbouring positions: exactly one of them
holds a word character. -/
def isBoundary (before after : Option Char) : Bool :=
  isWordAt before != isWordAt after

/-- Canonicalize of ECMA-262 for the flag `i`, on code points: the ASCII
lower-case letters are mapped to upper case. A character outside ASCII never
equals an ASCII letter under it, which is all a pattern of ASCII letters needs. -/
def canonicalize (c : Char) : Nat :=
  if 97 ≤ c.toNat ∧ c.toNat ≤ 122 then c.toNat - 32 else c.toNat

/-- One alternative matched at the head of the input, letter case ignored: the
last character consumed (or the character before the match when the
alternative is empty) and the rest of the input. -/
def matchWord : List Char → Option Char → List Char → Option (Option Char × List Char)
  | [], prev, s => some (prev, s)
  | _ :: _, _, [] => none
  | p :: ps, _, c :: cs =>
    if canonicalize c = canonicalize p then matchWord ps (some c) cs else none

/-- The pattern `\b(w1|w2|...)\b` tried at one position, `prev` being the
character before it: the alternatives are tried in order with backtracking, so
the pattern matches when some alternative does with a boundary on each side. -/
def matchAt (words : List String) (prev : Option Char) (s : List Char) : Bool :=
  isBoundary prev s.head? &&
  words.any (fun kw =>
    match matchWord kw.data prev s with
    | some (last, rest) => isBoundary last rest.head?
    | none => false)

/-- The pattern tried at every position from the left. -/
def regexTestFrom (words : List String) : Option Char → List Char → Bool
  | prev, [] => matchAt words prev []
  | prev, c :: cs => matchAt words prev (c :: cs) || regexTestFrom words (some c) cs

/-- `regex.test(s)` for the pattern `/\b(w1|w2|...)\b/i`. -/
def regexTest (words : List String) (s : String) : Bool :=
  regexTestFrom words none s.data

/-- `detectTone(text)`; an absent or otherwise falsy text is `none` or the empty
string, and `toLowerCase` is the host function. -/
def detectTone (toLowerCase : String → String) (text : Option String) : String :=
  match text with
  | none => "neutral"
  | some t =>
    if t = "" then "neutral"
    else if regexTest positiveWords (toLowerCase t) then "positive"
    else if regexTest negativeWords (toLowerCase t) then "negative"
    else "neutral"

/-- The keyword occurs in the string as a whole word, in any letter case: some
stretch of the string equals the keyword up to the case of ASCII letters, and
no word character stands right before or right after it. -/
def WholeWord (kw : String) (s : String) : Prop :=
  ∃ pre mid post : List Char,
    s.data = pre ++ mid ++ post ∧
    mid.map canonicalize = kw.data.map canonicalize ∧
    isWordAt pre.getLast? = false ∧ isWordAt post.head? = false


/-- A keyword made of word characters only, and not empty. -/
def Wordy (kw : String) : Prop :=
  kw.data ≠ [] ∧ ∀ c ∈ kw.data, isWordChar c = true

/-! ## The hook: history after `sendMessage` -/

theorem join_cons (t : String) (ts : List String) :
    String.join (t :: ts) = t ++ String.join ts := by
  apply String.ext
  simp [String.data_join]

theorem foldl_onToken_text (tokens : List String) (s : Streaming) :
    (tokens.foldl onToken s).text = s.text ++ String.join tokens := by
  induction tokens generalizing s with
  | nil => simp [String.join]
  | cons t ts ih => simp [ih, onToken, join_cons, String.append_assoc]

theorem foldl_onToken_history (t : String) (ts : List String) (s : Streaming) :
    ((t :: ts).foldl onToken s).history =
      s.history.dropLast ++ [{ role := .assistant, content := s.text ++ String.join (t :: ts) }] := by
  induction ts generalizing s t with
  | nil => simp [onToken, join_cons, String.join]
  | cons u us ih =>
    have h := ih u (onToken s t)
    simp only [List.foldl_cons] at h ⊢
    rw [h]
    simp [onToken, join_cons, String.append_assoc]

theorem sendMessage_ok_nil (h : List Message) (msg : String) (u : Unit) :
    sendMessage h msg [] (.ok u) = h ++ [{ role := .user, content := msg }] := rfl

theorem sendMessage_ok_cons (h : List Message) (msg t : String) (ts : List String) (u : Unit) :
    sendMessage h msg (t :: ts) (.ok u) =
      h ++ [{ role := .assistant, content := String.join (t :: ts) }] := by
  simp only [sendMessage]
  rw [foldl_onToken_history]
  simp [accept]

theorem sendMessage_error (h : List Message) (msg : String) (tokens : List String) (e : JsError) :
    sendMessage h msg tokens (.error e) =
      sendMessage h msg tokens (.ok ()) ++ [{ role := .assistant, content := errorText }] := rfl

theorem sendMessage_length (h : List Message) (msg : String) (tokens : List String)
    (outcome : Except JsError Unit) :
    (sendMessage h msg tokens outcome).length =
      h.length + (match outcome with | .ok _ => 1 | .error _ => 2) := by
  cases outcome with
  | ok u =>
    cases tokens with
    | nil => simp [sendMessage_ok_nil]
    | cons t ts => simp [sendMessage_ok_cons]
  | error e =>
    rw [sendMessage_error]
    cases tokens with
    | nil => simp [sendMessage_ok_nil]
    | cons t ts => simp [sendMessage_ok_cons]

theorem sendAll_length (h : List Message)
    (calls : List (String × List String × Except JsError Unit)) :
    (sendAll h calls).length =
      h.length + (calls.map (fun c => match c.2.2 with | .ok _ => 1 | .error _ => 2)).sum := by
  induction calls generalizing h with
  | nil => simp [sendAll]
  | cons c cs ih =>
    obtain ⟨msg, tokens, outcome⟩ := c
    simp only [sendAll, ih, sendMessage_length, List.map_cons, List.sum_cons]
    omega

/-! ## The generator: how a run ends -/

theorem sendMessageStream_of_prepare_error (w : World) (model : String) (o : StreamOpts)
    (e : JsError) (hp : (prepare w model o).result = .error e) :
    sendMessageStream w model o =
      { tokens := [], calls := (prepare w model o).calls, outcome := .error e } := by
  simp only [sendMessageStream, hp]

theorem sendMessageStream_of_loop_error (w : World) (model : String) (o : StreamOpts)
    (prep : Prepared) (tokens : List String) (e : JsError)
    (hp : (prepare w model o).result = .ok prep)
    (hl : streamLoop prep.response.parts prep.response.failure = (tokens, .error e)) :
    sendMessageStream w model o =
      { tokens := tokens, calls := (prepare w model o).calls, outcome := .error e } := by
  simp only [sendMessageStream, hp, hl]

theorem sendMessageStream_of_loop_ok (w : World) (model : String) (o : StreamOpts)
    (prep : Prepared) (tokens : List String)
    (hp : (prepare w model o).result = .ok prep)
    (hl : streamLoop prep.response.parts prep.response.failure = (tokens, .ok ())) :
    sendMessageStream w model o =
      { tokens := tokens
        calls := (prepare w model o).calls ++
          (persist w o.userMessage (String.join tokens) prep.sentiment).calls
        outcome := (persist w o.userMessage (String.join tokens) prep.sentiment).result } := by
  simp only [sendMessageStream, hp, hl]

/-! ## Claims C1 to C5: the history kept by the hook -/

/-- C1, as the code behaves: an awaited `sendMessage` lengthens the history by 1
when the generator returns (with or without tokens) and by 2 only when it
throws; from the empty history, `sendMessage("Hello")` answered by "Hi there"
leaves a history of length 1, not 2. -/
theorem sendMessage_history_growth :
    (∀ (h : List Message) (calls : List (String × List String × Except JsError Unit)),
      (sendAll h calls).length =
        h.length + (calls.map (fun c => match c.2.2 with | .ok _ => 1 | .error _ => 2)).sum) ∧
    (send helloWorld demoProps [] "Hello").length = 1 :=
  ⟨sendAll_length, by decide⟩

/-- C2, as the code behaves: after a stream of one or more tokens that ends
without error the settled history is the prior history followed by the
assistant entry alone; the user entry is not in it. From the empty history and
"Hello" the result is the single entry assistant "Hi there". -/
theorem sendMessage_success_history :
    (∀ (h : List Message) (msg t : String) (ts : List String),
      sendMessage h msg (t :: ts) (.ok ()) =
        h ++ [{ role := .assistant, content := String.join (t :: ts) }]) ∧
    send helloWorld demoProps [] "Hello" = [{ role := .assistant, content := "Hi there" }] :=
  ⟨fun h msg t ts => sendMessage_ok_cons h msg t ts (), by decide⟩

/-- C3, as the code behaves: once a token has arrived, the entry at index
`len(h)` is the assistant entry, during the exchange and after it settles,
whether the generator returns or throws: the first token overwrites the user
entry. -/
theorem sendMessage_user_entry_overwritten :
    (∀ (h : List Message) (msg t : String) (ts : List String) (outcome : Except JsError Unit),
      (sendMessage h msg (t :: ts) outcome)[h.length]? =
        some { role := .assistant, content := String.join (t :: ts) }) ∧
    sendMessageTrace [] "Hello" ["Hi", " there"] (.ok ()) =
      [[{ role := .user, content := "Hello" }],
       [{ role := .assistant, content := "Hi" }],
       [{ role := .assistant, content := "Hi there" }]] := by
  refine ⟨?_, by decide⟩
  intro h msg t ts outcome
  cases outcome with
  | ok u => simp [sendMessage_ok_cons]
  | error e =>
    rw [sendMessage_error, sendMessage_ok_cons, List.append_assoc,
      List.getElem?_append_right (Nat.le_refl _)]
    simp

/-- C4, the claim as stated fails: when the stream is interrupted after the
token "Hel", the call leaves two assistant entries, the streamed text and the
error entry. -/
theorem sendMessage_failure_two_assistant_entries :
    send interruptedWorld demoProps [] "Hello" =
      [{ role := .assistant, content := "Hel" }, { role := .assistant, content := errorText }] ∧
    ¬ (assistantCount (send interruptedWorld demoProps [] "Hello") = assistantCount [] + 1) := by
  decide

/-- C4, amended: when the generator throws, the `catch` handler appends exactly
one assistant entry, holding the fixed error string, to the history as it stood
at the failure, and that entry is last; when no token was produced the settled
history is the prior history, the user entry and the error entry, so that the
call added exactly one assistant entry. -/
theorem sendMessage_failure_appends_error_entry (h : List Message) (msg : String)
    (tokens : List String) (e : JsError) :
    sendMessage h msg tokens (.error e) =
      (tokens.foldl onToken (accept h msg)).history ++
        [{ role := .assistant, content := "Error occurred." }] ∧
    assistantCount (sendMessage h msg tokens (.error e)) =
      assistantCount (tokens.foldl onToken (accept h msg)).history + 1 ∧
    sendMessage h msg [] (.error e) =
      h ++ [{ role := .user, content := msg },
            { role := .assistant, content := "Error occurred." }] ∧
    assistantCount (sendMessage h msg [] (.error e)) = assistantCount h + 1 := by
  refine ⟨rfl, ?_, ?_, ?_⟩
  · simp [sendMessage, onError, assistantCount, List.filter_append]
  · simp [sendMessage, onError, accept, errorText]
  · simp [sendMessage, onError, accept, assistantCount, List.filter_append]

/-- C5, the claim as stated fails: when the stream is interrupted after "Hel",
the last entry of the settled history is the error entry, not the entry
holding "Hel". -/
theorem interrupted_stream_last_entry_is_error :
    (send interruptedWorld demoProps [] "Hello").getLast? =
      some { role := .assistant, content := "Error occurred." } ∧
    ¬ ((send interruptedWorld demoProps [] "Hello").getLast? =
      some { role := .assistant, content := "Hel" }) := by
  decide

/-- C5, amended: when the completion stream yields one or more tokens and the
loop then throws, the settled history ends with the assistant entry holding the
concatenated tokens followed by the assistant entry holding the fixed error
string: the streamed text is kept, as the entry before the last. -/
theorem interrupted_stream_keeps_text (w : World) (props : HookProps) (h : List Message)
    (msg : String) (prep : Prepared) (t : String) (ts : List String) (e : JsError)
    (hp : (prepare w props.model (streamOpts props h msg)).result = .ok prep)
    (hl : streamLoop prep.response.parts prep.response.failure = (t :: ts, .error e)) :
    ∃ pre, send w props h msg =
      pre ++ [{ role := .assistant, content := String.join (t :: ts) },
              { role := .assistant, content := "Error occurred." }] := by
  refine ⟨h, ?_⟩
  simp only [send]
  rw [sendMessageStream_of_loop_error w props.model _ prep (t :: ts) e hp hl]
  simp [sendMessage_error, sendMessage_ok_cons, errorText]

/-- C5, amended, in scenario B. -/
theorem interrupted_stream_keeps_text_witness :
    (prepare interruptedWorld demoProps.model (streamOpts demoProps [] "Hello")).result =
      .ok interruptedPrepared ∧
    streamLoop interruptedPrepared.response.parts interruptedPrepared.response.failure =
      ("Hel" :: [], .error "StreamInterrupted") ∧
    ∃ pre, send interruptedWorld demoProps [] "Hello" =
      pre ++ [{ role := .assistant, content := String.join ("Hel" :: []) },
              { role := .assistant, content := "Error occurred." }] :=
  ⟨rfl, rfl, interrupted_stream_keeps_text interruptedWorld demoProps [] "Hello"
    interruptedPrepared "Hel" [] "StreamInterrupted" rfl rfl⟩

/-! ## The generator: the calls of each stage -/

theorem queryIdx_eq (w : World) (idx : Index) (text : String) (topK : Nat) :
    queryIdx w idx text topK =
      match w.embeddings idx text with
      | .error e => ⟨[.embeddingsCreate "text-embedding-ada-002" text], .error e⟩
      | .ok vec =>
        ⟨[.embeddingsCreate "text-embedding-ada-002" text, .indexQuery idx vec topK true],
         match w.indexQuery idx vec topK with
         | .error e => .error e
         | .ok found => .ok (found.map (fun m => m.metadata))⟩ := by
  simp only [queryIdx, embed, bind, Eff.andThen, Eff.call, pure, Eff.ret]
  cases h1 : w.embeddings idx text with
  | error e => rfl
  | ok vec =>
    cases h2 : w.indexQuery idx vec topK with
    | error e => simp [h2]
    | ok found => simp [h2]

theorem queryIdx_calls_isRetrieval (w : World) (idx : Index) (text : String) (topK : Nat) :
    ∀ c ∈ (queryIdx w idx text topK).calls, c.isRetrieval = true := by
  rw [queryIdx_eq]
  cases w.embeddings idx text <;> simp [Call.isRetrieval]

theorem retrieve_calls_isRetrieval (w : World) (userMessage : String) :
    ∀ c ∈ (retrieve w userMessage).calls, c.isRetrieval = true := by
  intro c hc
  simp only [retrieve, Eff.both, queryPersonal, queryCollective, List.mem_append] at hc
  rcases hc with hc | hc
  · exact queryIdx_calls_isRetrieval w _ _ _ c hc
  · exact queryIdx_calls_isRetrieval w _ _ _ c hc

theorem prepare_eq (w : World) (model : String) (o : StreamOpts) :
    prepare w model o =
      match (retrieve w o.userMessage).result with
      | .error e => ⟨(retrieve w o.userMessage).calls, .error e⟩
      | .ok (personal, collective) =>
        match w.sentimentReply (sentimentMessages o.userMessage) with
        | .error e =>
          ⟨(retrieve w o.userMessage).calls ++
            [.chatCreate "gpt-3.5-turbo" (sentimentMessages o.userMessage)], .error e⟩
        | .ok text =>
          ⟨(retrieve w o.userMessage).calls ++
            [.chatCreate "gpt-3.5-turbo" (sentimentMessages o.userMessage),
             .postSentiment o.userMessage (w.toLowerCase (jsTrim text)),
             .chatCreateStream model
               (buildMessages (systemPrompt (w.toLowerCase (jsTrim text))
                 (memPrompt personal collective) o.context o.transcript) o.history o.userMessage)
               (temperatureOf (w.toLowerCase (jsTrim text)))],
           match w.completion model
               (buildMessages (systemPrompt (w.toLowerCase (jsTrim text))
                 (memPrompt personal collective) o.context o.transcript) o.history o.userMessage)
               (temperatureOf (w.toLowerCase (jsTrim text))) with
           | .error e => .error e
           | .ok response =>
             .ok { sentiment := w.toLowerCase (jsTrim text)
                   temperature := temperatureOf (w.toLowerCase (jsTrim text))
                   messages := buildMessages (systemPrompt (w.toLowerCase (jsTrim text))
                     (memPrompt personal collective) o.context o.transcript)
                     o.history o.userMessage
                   response := response }⟩ := by
  simp only [prepare, classify, trackSentiment, bind, Eff.andThen, Eff.call, pure, Eff.ret]
  cases h1 : (retrieve w o.userMessage).result with
  | error e => rfl
  | ok pc =>
    obtain ⟨personal, collective⟩ := pc
    cases h2 : w.sentimentReply (sentimentMessages o.userMessage) with
    | error e => simp [h2]
    | ok text =>
      cases h3 : w.completion model
        (buildMessages (systemPrompt (w.toLowerCase (jsTrim text))
          (memPrompt personal collective) o.context o.transcript) o.history o.userMessage)
        (temperatureOf (w.toLowerCase (jsTrim text))) with
      | error e => simp [h3]
      | ok response => simp [h3]

theorem saveIdx_eq (w : World) (idx : Index) (userMessage response : String) :
    saveIdx w idx userMessage response =
      match w.embeddings idx (userMessage ++ "\n" ++ response) with
      | .error e =>
        ⟨[.embeddingsCreate "text-embedding-ada-002" (userMessage ++ "\n" ++ response)], .error e⟩
      | .ok vec =>
        ⟨[.embeddingsCreate "text-embedding-ada-002" (userMessage ++ "\n" ++ response),
          .indexUpsert idx [saveVector (userMessage ++ "\n" ++ response) vec
            (w.dateNow idx) (w.isoNow idx)]],
         w.indexUpsert idx (saveVector (userMessage ++ "\n" ++ response) vec
            (w.dateNow idx) (w.isoNow idx))⟩ := by
  simp only [saveIdx, embed, bind, Eff.andThen, Eff.call]
  cases h1 : w.embeddings idx (userMessage ++ "\n" ++ response) with
  | error e => rfl
  | ok vec => rfl

theorem persist_calls (w : World) (userMessage aggregated sentiment : String) :
    (persist w userMessage aggregated sentiment).calls =
      (saveIdx w .personal userMessage aggregated).calls ++
        ((saveIdx w .collective userMessage aggregated).calls ++
          [.postExchange userMessage aggregated sentiment]) := by
  simp only [persist, savePersonal, saveCollective, trackExchange, Eff.both, Eff.call, bind,
    Eff.andThen, pure, Eff.ret]
  split <;> simp

theorem filterMap_retrieve_calls {β : Type} (f : Call → Option β)
    (hf : ∀ c, c.isRetrieval = true → f c = none) (w : World) (userMessage : String) :
    (retrieve w userMessage).calls.filterMap f = [] := by
  rw [List.filterMap_eq_nil_iff]
  intro c hc
  exact hf c (retrieve_calls_isRetrieval w userMessage c hc)

theorem asUpsert_of_isRetrieval (c : Call) (h : c.isRetrieval = true) : c.asUpsert = none := by
  cases c <;> simp_all [Call.isRetrieval, Call.asUpsert]

theorem temperature_of_isRetrieval (c : Call) (h : c.isRetrieval = true) :
    c.temperature = none := by
  cases c <;> simp_all [Call.isRetrieval, Call.temperature]

theorem reportedSentiment_of_isRetrieval (c : Call) (h : c.isRetrieval = true) :
    c.reportedSentiment = none := by
  cases c <;> simp_all [Call.isRetrieval, Call.reportedSentiment]

theorem isChat_of_isRetrieval (c : Call) (h : c.isRetrieval = true) : c.isChat = false := by
  cases c <;> simp_all [Call.isRetrieval, Call.isChat]

theorem retrieve_result_error (w : World) (userMessage : String)
    (h : (∃ e, (queryPersonal w userMessage 5).result = .error e) ∨
         (∃ e, (queryCollective w userMessage 5).result = .error e)) :
    ∃ e, (retrieve w userMessage).result = .error e := by
  simp only [retrieve, Eff.both]
  rcases h with ⟨e, h⟩ | ⟨e, h⟩
  · exact ⟨e, by simp [h]⟩
  · cases hp : (queryPersonal w userMessage 5).result with
    | error e1 => exact ⟨e1, by simp⟩
    | ok x => exact ⟨e, by simp [h]⟩

/-! ## Claims C6 to C8: failures and values of the gathering steps -/

/-- C6, the claim as stated fails: with both index queries rejected, the
generator throws before any token and never asks for a completion, and the
hook shows the fixed error entry instead of the model's answer. -/
theorem query_failure_aborts_exchange :
    (sendMessageStream queryDownWorld "gpt-4o-mini" (streamOpts demoProps [] "hi")).outcome =
      .error "index unavailable" ∧
    (sendMessageStream queryDownWorld "gpt-4o-mini" (streamOpts demoProps [] "hi")).tokens = [] ∧
    (sendMessageStream queryDownWorld "gpt-4o-mini" (streamOpts demoProps [] "hi")).calls.any
      Call.isChat = false ∧
    send queryDownWorld demoProps [] "hi" =
      [{ role := .user, content := "hi" }, { role := .assistant, content := "Error occurred." }] :=
  ⟨rfl, rfl, rfl, rfl⟩

/-- C6, amended: when `queryPersonal` and/or `queryCollective` throws, the
rejection of `Promise.all` propagates: the generator throws before yielding any
token, its only calls are those of the two queries, and no sentiment or
completion request is made. -/
theorem query_failure_propagates (w : World) (model : String) (o : StreamOpts)
    (h : (∃ e, (queryPersonal w o.userMessage 5).result = .error e) ∨
         (∃ e, (queryCollective w o.userMessage 5).result = .error e)) :
    (sendMessageStream w model o).tokens = [] ∧
    (∃ e, (sendMessageStream w model o).outcome = .error e) ∧
    (sendMessageStream w model o).calls =
      (queryPersonal w o.userMessage 5).calls ++ (queryCollective w o.userMessage 5).calls ∧
    ∀ c ∈ (sendMessageStream w model o).calls, c.isChat = false := by
  obtain ⟨e, he⟩ := retrieve_result_error w o.userMessage h
  have hp : prepare w model o = ⟨(retrieve w o.userMessage).calls, .error e⟩ := by
    rw [prepare_eq, he]
  have hrun := sendMessageStream_of_prepare_error w model o e (by rw [hp])
  rw [hrun, hp]
  refine ⟨rfl, ⟨e, rfl⟩, rfl, ?_⟩
  intro c hc
  exact isChat_of_isRetrieval c (retrieve_calls_isRetrieval w o.userMessage c hc)

/-- C6, amended, with both index queries rejected. -/
theorem query_failure_propagates_witness :
    ((∃ e, (queryPersonal queryDownWorld "hi" 5).result = .error e) ∨
     (∃ e, (queryCollective queryDownWorld "hi" 5).result = .error e)) ∧
    (sendMessageStream queryDownWorld "gpt-4o-mini" (streamOpts demoProps [] "hi")).tokens = [] ∧
    (∃ e, (sendMessageStream queryDownWorld "gpt-4o-mini"
      (streamOpts demoProps [] "hi")).outcome = .error e) :=
  have hq : (∃ e, (queryPersonal queryDownWorld "hi" 5).result = .error e) ∨
      (∃ e, (queryCollective queryDownWorld "hi" 5).result = .error e) :=
    Or.inl ⟨"index unavailable", rfl⟩
  have ht := query_failure_propagates queryDownWorld "gpt-4o-mini"
    (streamOpts demoProps [] "hi") hq
  ⟨hq, ht.1, ht.2.1⟩

/-- C7, the claim as stated fails: with the sentiment request rejected, the
generator throws before any token and no streaming completion is requested, so
that no temperature is passed at all. -/
theorem classifier_failure_aborts_exchange :
    (sendMessageStream classifierDownWorld "gpt-4o-mini"
      (streamOpts demoProps [] "hi")).outcome = .error "classifier unavailable" ∧
    (sendMessageStream classifierDownWorld "gpt-4o-mini"
      (streamOpts demoProps [] "hi")).tokens = [] ∧
    (sendMessageStream classifierDownWorld "gpt-4o-mini"
      (streamOpts demoProps [] "hi")).calls.filterMap Call.temperature = [] :=
  ⟨rfl, rfl, rfl⟩

/-- C7, amended: when the sentiment request throws, the exchange is aborted:
the generator throws before yielding any token and requests no streaming
completion, so no temperature is passed; 0.6 is the temperature for the
sentiment 'neutral'. -/
theorem classifier_failure_propagates (w : World) (model : String) (o : StreamOpts)
    (e : JsError) (h : w.sentimentReply (sentimentMessages o.userMessage) = .error e) :
    (sendMessageStream w model o).tokens = [] ∧
    (∃ e1, (sendMessageStream w model o).outcome = .error e1) ∧
    (sendMessageStream w model o).calls.filterMap Call.temperature = [] ∧
    temperatureOf "neutral" = 0.6 := by
  have hret := filterMap_retrieve_calls Call.temperature temperature_of_isRetrieval w o.userMessage
  have ht : temperatureOf "neutral" = 0.6 := by simp [temperatureOf]
  cases hr : (retrieve w o.userMessage).result with
  | error e1 =>
    have hp : prepare w model o = ⟨(retrieve w o.userMessage).calls, .error e1⟩ := by
      rw [prepare_eq, hr]
    rw [sendMessageStream_of_prepare_error w model o e1 (by rw [hp]), hp]
    exact ⟨rfl, ⟨e1, rfl⟩, hret, ht⟩
  | ok pc =>
    have hp : prepare w model o = ⟨(retrieve w o.userMessage).calls ++
        [.chatCreate "gpt-3.5-turbo" (sentimentMessages o.userMessage)], .error e⟩ := by
      rw [prepare_eq, hr]
      simp only [h]
    rw [sendMessageStream_of_prepare_error w model o e (by rw [hp]), hp]
    refine ⟨rfl, ⟨e, rfl⟩, ?_, ht⟩
    simp [hret, Call.temperature]

/-- C7, amended, with the sentiment request rejected. -/
theorem classifier_failure_propagates_witness :
    classifierDownWorld.sentimentReply (sentimentMessages "hi") =
      .error "classifier unavailable" ∧
    (sendMessageStream classifierDownWorld "gpt-4o-mini" (streamOpts demoProps [] "hi")).tokens =
      [] ∧
    (sendMessageStream classifierDownWorld "gpt-4o-mini"
      (streamOpts demoProps [] "hi")).calls.filterMap Call.temperature = [] :=
  have ht := classifier_failure_propagates classifierDownWorld "gpt-4o-mini"
    (streamOpts demoProps [] "hi") "classifier unavailable" rfl
  ⟨rfl, ht.1, ht.2.2.1⟩

theorem classify_eq (w : World) (userMessage : String) :
    classify w userMessage =
      ⟨[.chatCreate "gpt-3.5-turbo" (sentimentMessages userMessage)],
       match w.sentimentReply (sentimentMessages userMessage) with
       | .error e => .error e
       | .ok text => .ok (w.toLowerCase (jsTrim text))⟩ := by
  simp only [classify, bind, Eff.andThen, Eff.call, pure, Eff.ret]
  cases h : w.sentimentReply (sentimentMessages userMessage) <;> simp [h]

theorem filterMap_prepare_calls {β : Type} (f : Call → Option β)
    (hf : ∀ c, c.isRetrieval = true → f c = none) (w : World) (model : String) (o : StreamOpts) :
    (prepare w model o).calls.filterMap f =
      match (retrieve w o.userMessage).result with
      | .error _ => []
      | .ok (personal, collective) =>
        match w.sentimentReply (sentimentMessages o.userMessage) with
        | .error _ =>
          [Call.chatCreate "gpt-3.5-turbo" (sentimentMessages o.userMessage)].filterMap f
        | .ok text =>
          [Call.chatCreate "gpt-3.5-turbo" (sentimentMessages o.userMessage),
           Call.postSentiment o.userMessage (w.toLowerCase (jsTrim text)),
           Call.chatCreateStream model
             (buildMessages (systemPrompt (w.toLowerCase (jsTrim text))
               (memPrompt personal collective) o.context o.transcript) o.history o.userMessage)
             (temperatureOf (w.toLowerCase (jsTrim text)))].filterMap f := by
  have hret := filterMap_retrieve_calls f hf w o.userMessage
  rw [prepare_eq]
  cases hr : (retrieve w o.userMessage).result with
  | error e => simpa using hret
  | ok pc =>
    obtain ⟨personal, collective⟩ := pc
    cases hs : w.sentimentReply (sentimentMessages o.userMessage) with
    | error e => simp only [List.filterMap_append, hret, List.nil_append]
    | ok text => simp only [List.filterMap_append, hret, List.nil_append]

theorem filterMap_saveIdx_calls {β : Type} (f : Call → Option β)
    (hf : ∀ c, c.isRetrieval = true → f c = none) (w : World) (idx : Index)
    (userMessage response : String) :
    (saveIdx w idx userMessage response).calls.filterMap f =
      match w.embeddings idx (userMessage ++ "\n" ++ response) with
      | .error _ => []
      | .ok vec =>
        [Call.indexUpsert idx [saveVector (userMessage ++ "\n" ++ response) vec
          (w.dateNow idx) (w.isoNow idx)]].filterMap f := by
  have he := hf (.embeddingsCreate "text-embedding-ada-002" (userMessage ++ "\n" ++ response)) rfl
  rw [saveIdx_eq]
  cases h : w.embeddings idx (userMessage ++ "\n" ++ response) with
  | error e => simp [he]
  | ok vec => simp [List.filterMap_cons, he]

theorem reportedSentiment_persist_calls (w : World) (userMessage aggregated sentiment : String) :
    (persist w userMessage aggregated sentiment).calls.filterMap Call.reportedSentiment =
      [sentiment] := by
  rw [persist_calls]
  simp only [List.filterMap_append,
    filterMap_saveIdx_calls Call.reportedSentiment reportedSentiment_of_isRetrieval]
  cases w.embeddings .personal (userMessage ++ "\n" ++ aggregated) <;>
    cases w.embeddings .collective (userMessage ++ "\n" ++ aggregated) <;>
    simp [Call.reportedSentiment, List.filterMap_cons]

theorem temperature_persist_calls (w : World) (userMessage aggregated sentiment : String) :
    (persist w userMessage aggregated sentiment).calls.filterMap Call.temperature = [] := by
  rw [persist_calls]
  simp only [List.filterMap_append,
    filterMap_saveIdx_calls Call.temperature temperature_of_isRetrieval]
  cases w.embeddings .personal (userMessage ++ "\n" ++ aggregated) <;>
    cases w.embeddings .collective (userMessage ++ "\n" ++ aggregated) <;>
    simp [Call.temperature, List.filterMap_cons]

theorem upsertsOf_persist_calls (w : World) (userMessage aggregated sentiment : String) :
    upsertsOf (persist w userMessage aggregated sentiment).calls =
      [Index.personal, Index.collective].filterMap (fun idx =>
        match w.embeddings idx (userMessage ++ "\n" ++ aggregated) with
        | .ok vec => some (idx, [saveVector (userMessage ++ "\n" ++ aggregated) vec
            (w.dateNow idx) (w.isoNow idx)])
        | .error _ => none) := by
  rw [upsertsOf, persist_calls]
  simp only [List.filterMap_append,
    filterMap_saveIdx_calls Call.asUpsert asUpsert_of_isRetrieval]
  cases h1 : w.embeddings .personal (userMessage ++ "\n" ++ aggregated) <;>
    cases h2 : w.embeddings .collective (userMessage ++ "\n" ++ aggregated) <;>
    simp [Call.asUpsert, List.filterMap_cons, h1, h2]

/-- The calls of a run are those of `prepare`, followed by those of `persist`
when the loop ended without error. -/
theorem sendMessageStream_calls (w : World) (model : String) (o : StreamOpts) :
    (sendMessageStream w model o).calls = (prepare w model o).calls ∨
    ∃ prep tokens, (prepare w model o).result = .ok prep ∧
      streamLoop prep.response.parts prep.response.failure = (tokens, .ok ()) ∧
      (sendMessageStream w model o).calls = (prepare w model o).calls ++
        (persist w o.userMessage (String.join tokens) prep.sentiment).calls := by
  cases hp : (prepare w model o).result with
  | error e => left; rw [sendMessageStream_of_prepare_error w model o e hp]
  | ok prep =>
    cases hl : streamLoop prep.response.parts prep.response.failure with
    | mk tokens r =>
      cases r with
      | error e => left; rw [sendMessageStream_of_loop_error w model o prep tokens e hp hl]
      | ok u =>
        right
        exact ⟨prep, tokens, rfl, hl, by rw [sendMessageStream_of_loop_ok w model o prep tokens hp hl]⟩

theorem reportedSentiments_of_run (w : World) (model : String) (o : StreamOpts)
    (personal collective : List Metadata) (text : String)
    (hr : (retrieve w o.userMessage).result = .ok (personal, collective))
    (hs : w.sentimentReply (sentimentMessages o.userMessage) = .ok text) :
    ∀ x ∈ (sendMessageStream w model o).calls.filterMap Call.reportedSentiment,
      x = w.toLowerCase (jsTrim text) := by
  have hprep := filterMap_prepare_calls Call.reportedSentiment reportedSentiment_of_isRetrieval
    w model o
  simp only [hr, hs] at hprep
  have hres := congrArg Eff.result (prepare_eq w model o)
  simp only [hr, hs] at hres
  rcases sendMessageStream_calls w model o with h | ⟨prep, tokens, hp, _, h⟩
  · rw [h, hprep]
    simp [Call.reportedSentiment, List.filterMap_cons]
  · rw [h, List.filterMap_append, hprep, reportedSentiment_persist_calls]
    have hsent : prep.sentiment = w.toLowerCase (jsTrim text) := by
      rw [hres] at hp
      split at hp
      · exact absurd hp (by simp)
      · simp only [Except.ok.injEq] at hp
        rw [← hp]
    simp [Call.reportedSentiment, List.filterMap_cons, hsent]

theorem temperatures_of_run (w : World) (model : String) (o : StreamOpts) :
    (sendMessageStream w model o).calls.filterMap Call.temperature =
      match (classify w o.userMessage).result, (retrieve w o.userMessage).result with
      | .ok s, .ok _ => [temperatureOf s]
      | _, _ => [] := by
  have hprep := filterMap_prepare_calls Call.temperature temperature_of_isRetrieval w model o
  have hrun : (sendMessageStream w model o).calls.filterMap Call.temperature =
      (prepare w model o).calls.filterMap Call.temperature := by
    rcases sendMessageStream_calls w model o with h | ⟨prep, tokens, _, _, h⟩
    · rw [h]
    · rw [h, List.filterMap_append, temperature_persist_calls, List.append_nil]
  rw [hrun, hprep, classify_eq]
  cases hr : (retrieve w o.userMessage).result with
  | error e => cases w.sentimentReply (sentimentMessages o.userMessage) <;> rfl
  | ok pc =>
    cases hs : w.sentimentReply (sentimentMessages o.userMessage) with
    | error e => simp [Call.temperature, List.filterMap_cons]
    | ok text => simp [Call.temperature, List.filterMap_cons]

theorem temperatureOf_table (s : String) :
    temperatureOf s = 0.7 ∨ temperatureOf s = 0.5 ∨ temperatureOf s = 0.6 := by
  unfold temperatureOf
  split
  · exact Or.inl rfl
  · split
    · exact Or.inr (Or.inl rfl)
    · exact Or.inr (Or.inr rfl)

/-- C8, the claim as stated fails: when the sentiment model answers
"Positive.", the value reported to analytics (by `trackSentiment` and by
`trackExchange`) and embedded in the prompt is "positive.", which is none of
the three sentiment values. -/
theorem sentiment_outside_enum :
    (sendMessageStream punctuatedWorld "gpt-4o-mini"
      (streamOpts demoProps [] "hi")).calls.filterMap Call.reportedSentiment =
        ["positive.", "positive."] ∧
    Call.chatCreateStream "gpt-4o-mini"
      (buildMessages (systemPrompt "positive." (memPrompt [] []) "App" "") [] "hi") 0.6 ∈
      (sendMessageStream punctuatedWorld "gpt-4o-mini" (streamOpts demoProps [] "hi")).calls ∧
    "positive." ∉ ["positive", "neutral", "negative"] := by
  refine ⟨rfl, ?_, by decide⟩
  rw [show (sendMessageStream punctuatedWorld "gpt-4o-mini"
      (streamOpts demoProps [] "hi")).calls =
    (retrieve punctuatedWorld "hi").calls ++
      ([Call.chatCreate "gpt-3.5-turbo" (sentimentMessages "hi"),
        Call.postSentiment "hi" "positive.",
        Call.chatCreateStream "gpt-4o-mini"
          (buildMessages (systemPrompt "positive." (memPrompt [] []) "App" "") [] "hi") 0.6] ++
       (persist punctuatedWorld "hi" "Hi there" "positive.").calls) from rfl]
  simp

/-- C8, amended: the sentiment value is the text returned by the sentiment
model after `trim()` and `toLowerCase()`, whatever that text is: this one
string is reported by `trackSentiment`, is the tone of the system prompt of the
streaming request (with the temperature chosen from it), and is the only
sentiment reported to analytics during the run. -/
theorem sentiment_is_normalised_reply (w : World) (model : String) (o : StreamOpts)
    (personal collective : List Metadata) (text : String)
    (hr : (retrieve w o.userMessage).result = .ok (personal, collective))
    (hs : w.sentimentReply (sentimentMessages o.userMessage) = .ok text) :
    Call.postSentiment o.userMessage (w.toLowerCase (jsTrim text)) ∈
      (sendMessageStream w model o).calls ∧
    Call.chatCreateStream model
      (buildMessages (systemPrompt (w.toLowerCase (jsTrim text))
        (memPrompt personal collective) o.context o.transcript) o.history o.userMessage)
      (temperatureOf (w.toLowerCase (jsTrim text))) ∈ (sendMessageStream w model o).calls ∧
    ∀ x ∈ (sendMessageStream w model o).calls.filterMap Call.reportedSentiment,
      x = w.toLowerCase (jsTrim text) := by
  have hcalls := congrArg Eff.calls (prepare_eq w model o)
  simp only [hr, hs] at hcalls
  refine ⟨?_, ?_, reportedSentiments_of_run w model o personal collective text hr hs⟩
  · rcases sendMessageStream_calls w model o with h | ⟨prep, tokens, _, _, h⟩ <;>
      rw [h, hcalls] <;> simp
  · rcases sendMessageStream_calls w model o with h | ⟨prep, tokens, _, _, h⟩ <;>
      rw [h, hcalls] <;> simp

/-- C8, amended, when the sentiment model answers "Positive.". -/
theorem sentiment_is_normalised_reply_witness :
    (retrieve punctuatedWorld "hi").result = .ok ([], []) ∧
    punctuatedWorld.sentimentReply (sentimentMessages "hi") = .ok "Positive." ∧
    Call.postSentiment "hi" "positive." ∈
      (sendMessageStream punctuatedWorld "gpt-4o-mini" (streamOpts demoProps [] "hi")).calls :=
  ⟨rfl, rfl, (sentiment_is_normalised_reply punctuatedWorld "gpt-4o-mini"
    (streamOpts demoProps [] "hi") [] [] "Positive." rfl rfl).1⟩

/-! ## Claim C9: the temperature table -/

/-- C9: the temperature of every streaming completion request of a run is
`temperatureOf` applied to the sentiment obtained in step 2 and to nothing
else; it is 0.7 for 'positive', 0.5 for 'negative', 0.6 for 'neutral', and never
a value other than these three. -/
theorem stream_temperature_from_sentiment (w : World) (model : String) (o : StreamOpts)
    (m : String) (msgs : List Message) (t : ℚ)
    (h : Call.chatCreateStream m msgs t ∈ (sendMessageStream w model o).calls) :
    (∃ s, (classify w o.userMessage).result = .ok s ∧ t = temperatureOf s) ∧
    (t = 0.7 ∨ t = 0.5 ∨ t = 0.6) ∧
    temperatureOf "positive" = 0.7 ∧ temperatureOf "negative" = 0.5 ∧
    temperatureOf "neutral" = 0.6 := by
  have ht : t ∈ (sendMessageStream w model o).calls.filterMap Call.temperature :=
    List.mem_filterMap.mpr ⟨_, h, rfl⟩
  rw [temperatures_of_run] at ht
  have hs : ∃ s, (classify w o.userMessage).result = .ok s ∧ t = temperatureOf s := by
    cases hc : (classify w o.userMessage).result with
    | error e => simp [hc] at ht
    | ok s =>
      cases hr : (retrieve w o.userMessage).result with
      | error e => simp [hc, hr] at ht
      | ok pc =>
        simp only [hc, hr, List.mem_singleton] at ht
        exact ⟨s, rfl, ht⟩
  obtain ⟨s, hcs, hts⟩ := hs
  refine ⟨⟨s, hcs, hts⟩, ?_, by simp [temperatureOf], by simp [temperatureOf],
    by simp [temperatureOf]⟩
  rw [hts]
  exact temperatureOf_table s

/-- C9 in scenario A: the request is made with 0.6, the temperature of 'neutral'. -/
theorem stream_temperature_from_sentiment_witness :
    Call.chatCreateStream "gpt-4o-mini"
      (buildMessages (systemPrompt "neutral" (memPrompt [] []) "App" "") [] "Hello") 0.6 ∈
      (sendMessageStream helloWorld "gpt-4o-mini" (streamOpts demoProps [] "Hello")).calls ∧
    ((0.6 : ℚ) = 0.7 ∨ (0.6 : ℚ) = 0.5 ∨ (0.6 : ℚ) = 0.6) :=
  have hmem : Call.chatCreateStream "gpt-4o-mini"
      (buildMessages (systemPrompt "neutral" (memPrompt [] []) "App" "") [] "Hello") 0.6 ∈
      (sendMessageStream helloWorld "gpt-4o-mini" (streamOpts demoProps [] "Hello")).calls := by
    rw [show (sendMessageStream helloWorld "gpt-4o-mini"
        (streamOpts demoProps [] "Hello")).calls =
      (retrieve helloWorld "Hello").calls ++
        ([Call.chatCreate "gpt-3.5-turbo" (sentimentMessages "Hello"),
          Call.postSentiment "Hello" "neutral",
          Call.chatCreateStream "gpt-4o-mini"
            (buildMessages (systemPrompt "neutral" (memPrompt [] []) "App" "") [] "Hello") 0.6] ++
         (persist helloWorld "Hello" "Hi there" "neutral").calls) from rfl]
    simp
  ⟨hmem, (stream_temperature_from_sentiment helloWorld "gpt-4o-mini"
    (streamOpts demoProps [] "Hello") _ _ _ hmem).2.1⟩

/-! ## Claim C10: the upserts of a completed exchange -/

theorem upsertsOf_prepare_calls (w : World) (model : String) (o : StreamOpts) :
    upsertsOf (prepare w model o).calls = [] := by
  rw [upsertsOf, filterMap_prepare_calls Call.asUpsert asUpsert_of_isRetrieval]
  cases (retrieve w o.userMessage).result with
  | error e => rfl
  | ok pc =>
    cases w.sentimentReply (sentimentMessages o.userMessage) <;>
      simp [Call.asUpsert, List.filterMap_cons]

/-- C10, the claim as stated fails: with userMessage "X", a stream that ends
without error with aggregate "Y", and an embedder that rejects the content to
save, no upsert is made on either index. -/
theorem no_upsert_when_embedding_fails :
    (prepare saveEmbedDownWorld "gpt-4o-mini" scenarioCOpts).result = .ok scenarioCPrepared ∧
    streamLoop scenarioCPrepared.response.parts scenarioCPrepared.response.failure =
      (["Y"], .ok ()) ∧
    (sendMessageStream saveEmbedDownWorld "gpt-4o-mini" scenarioCOpts).tokens = ["Y"] ∧
    upsertsOf (sendMessageStream saveEmbedDownWorld "gpt-4o-mini" scenarioCOpts).calls = [] :=
  ⟨rfl, rfl, rfl, rfl⟩

/-- C10, amended: after a stream that ends without error with aggregate Y (empty
or not), each of the two indexes receives exactly one upsert when the embedding
of the content is obtained and none when that request is rejected; the upserts
come in the order personal, collective, each carries one vector, and the
content stored is the user message, a newline, and Y. With both embeddings
obtained there are exactly two upserts. -/
theorem persist_upserts (w : World) (model : String) (o : StreamOpts) (prep : Prepared)
    (tokens : List String)
    (hp : (prepare w model o).result = .ok prep)
    (hl : streamLoop prep.response.parts prep.response.failure = (tokens, .ok ())) :
    upsertsOf (sendMessageStream w model o).calls =
      [Index.personal, Index.collective].filterMap (fun idx =>
        match w.embeddings idx (o.userMessage ++ "\n" ++ String.join tokens) with
        | .ok vec => some (idx, [saveVector (o.userMessage ++ "\n" ++ String.join tokens) vec
            (w.dateNow idx) (w.isoNow idx)])
        | .error _ => none) ∧
    (∀ vp vc, w.embeddings .personal (o.userMessage ++ "\n" ++ String.join tokens) = .ok vp →
      w.embeddings .collective (o.userMessage ++ "\n" ++ String.join tokens) = .ok vc →
      upsertsOf (sendMessageStream w model o).calls =
        [(.personal, [saveVector (o.userMessage ++ "\n" ++ String.join tokens) vp
            (w.dateNow .personal) (w.isoNow .personal)]),
         (.collective, [saveVector (o.userMessage ++ "\n" ++ String.join tokens) vc
            (w.dateNow .collective) (w.isoNow .collective)])]) ∧
    (∀ u ∈ upsertsOf (sendMessageStream w model o).calls,
      ∃ v, u.2 = [v] ∧ v.metadata.content = o.userMessage ++ "\n" ++ String.join tokens) := by
  have hmain : upsertsOf (sendMessageStream w model o).calls =
      [Index.personal, Index.collective].filterMap (fun idx =>
        match w.embeddings idx (o.userMessage ++ "\n" ++ String.join tokens) with
        | .ok vec => some (idx, [saveVector (o.userMessage ++ "\n" ++ String.join tokens) vec
            (w.dateNow idx) (w.isoNow idx)])
        | .error _ => none) := by
    rw [sendMessageStream_of_loop_ok w model o prep tokens hp hl]
    have h0 := upsertsOf_prepare_calls w model o
    rw [upsertsOf] at h0
    rw [← upsertsOf_persist_calls w o.userMessage (String.join tokens) prep.sentiment]
    simp only [upsertsOf, List.filterMap_append, h0, List.nil_append]
  refine ⟨hmain, ?_, ?_⟩
  · intro vp vc h1 h2
    rw [hmain]
    simp [List.filterMap_cons, h1, h2]
  · intro u hu
    rw [hmain, List.mem_filterMap] at hu
    obtain ⟨idx, _, hidx⟩ := hu
    cases he : w.embeddings idx (o.userMessage ++ "\n" ++ String.join tokens) with
    | error e => simp [he] at hidx
    | ok vec =>
      simp only [he, Option.some.injEq] at hidx
      exact ⟨_, by rw [← hidx], rfl⟩

/-- C10, amended, in scenario C: userMessage "X", aggregate "Y", two upserts
storing the content "X", newline, "Y". -/
theorem persist_upserts_witness :
    (prepare scenarioCWorld "gpt-4o-mini" scenarioCOpts).result = .ok scenarioCPrepared ∧
    streamLoop scenarioCPrepared.response.parts scenarioCPrepared.response.failure =
      (["Y"], .ok ()) ∧
    upsertsOf (sendMessageStream scenarioCWorld "gpt-4o-mini" scenarioCOpts).calls =
      [(.personal, [scenarioCVector]), (.collective, [scenarioCVector])] ∧
    scenarioCVector.metadata.content = "X\nY" :=
  ⟨rfl, rfl, (persist_upserts scenarioCWorld "gpt-4o-mini" scenarioCOpts scenarioCPrepared
    ["Y"] rfl rfl).2.1 [1, 2, 3] [1, 2, 3] rfl rfl, rfl⟩

/-! ## The persisting step -/

theorem asExchange_of_isRetrieval (c : Call) (h : c.isRetrieval = true) : c.asExchange = none := by
  cases c <;> simp_all [Call.isRetrieval, Call.asExchange]

theorem exchangesOf_prepare_calls (w : World) (model : String) (o : StreamOpts) :
    exchangesOf (prepare w model o).calls = [] := by
  rw [exchangesOf, filterMap_prepare_calls Call.asExchange asExchange_of_isRetrieval]
  cases (retrieve w o.userMessage).result with
  | error e => rfl
  | ok pc =>
    cases w.sentimentReply (sentimentMessages o.userMessage) <;>
      simp [Call.asExchange, List.filterMap_cons]

theorem exchangesOf_persist_calls (w : World) (userMessage aggregated sentiment : String) :
    exchangesOf (persist w userMessage aggregated sentiment).calls =
      [(userMessage, aggregated, sentiment)] := by
  rw [exchangesOf, persist_calls]
  simp only [List.filterMap_append,
    filterMap_saveIdx_calls Call.asExchange asExchange_of_isRetrieval]
  cases w.embeddings .personal (userMessage ++ "\n" ++ aggregated) <;>
    cases w.embeddings .collective (userMessage ++ "\n" ++ aggregated) <;>
    simp [Call.asExchange, List.filterMap_cons]

theorem embeddingInputs_queryIdx_calls (w : World) (idx : Index) (text : String) (topK : Nat) :
    (queryIdx w idx text topK).calls.filterMap Call.embeddingInput = [text] := by
  rw [queryIdx_eq]
  cases w.embeddings idx text <;> simp [Call.embeddingInput, List.filterMap_cons]

theorem embeddingInputs_prepare_calls (w : World) (model : String) (o : StreamOpts) :
    (prepare w model o).calls.filterMap Call.embeddingInput = [o.userMessage, o.userMessage] := by
  have hret : (retrieve w o.userMessage).calls.filterMap Call.embeddingInput =
      [o.userMessage, o.userMessage] := by
    simp only [retrieve, Eff.both, queryPersonal, queryCollective, List.filterMap_append,
      embeddingInputs_queryIdx_calls]
    rfl
  rw [prepare_eq]
  cases hr : (retrieve w o.userMessage).result with
  | error e => simpa using hret
  | ok pc =>
    obtain ⟨personal, collective⟩ := pc
    cases hs : w.sentimentReply (sentimentMessages o.userMessage) with
    | error e => simp [List.filterMap_append, hret, Call.embeddingInput, List.filterMap_cons]
    | ok text => simp [List.filterMap_append, hret, Call.embeddingInput, List.filterMap_cons]

theorem ne_append_newline (x p : String) : x ≠ x ++ "\n" ++ p := by
  intro h
  have hl := congrArg String.length h
  simp only [String.length_append] at hl
  have h1 : ("\n" : String).length = 1 := rfl
  omega

theorem persist_result_error_iff (w : World) (userMessage aggregated sentiment : String) :
    (∃ e, (persist w userMessage aggregated sentiment).result = .error e) ↔
      ((∃ e, (savePersonal w userMessage aggregated).result = .error e) ∨
       (∃ e, (saveCollective w userMessage aggregated).result = .error e) ∨
       (∃ e, (trackExchange w userMessage aggregated sentiment).result = .error e)) := by
  simp only [persist, Eff.both, bind, Eff.andThen, pure, Eff.ret]
  cases (savePersonal w userMessage aggregated).result <;>
    cases (saveCollective w userMessage aggregated).result <;>
    cases (trackExchange w userMessage aggregated sentiment).result <;> simp

/-! ## Claims C11 to C14: when the persisting step runs and what its failure does -/

/-- C11, the claim as stated fails: when the stream ends without error and
without a content token, the aggregate is empty and the persisting step runs
all the same: each index receives an upsert whose content is "X" and a newline,
and `trackExchange` is called with the empty response. -/
theorem empty_aggregate_still_persisted :
    (prepare silentWorld "gpt-4o-mini" scenarioCOpts).result = .ok silentPrepared ∧
    streamLoop silentPrepared.response.parts silentPrepared.response.failure = ([], .ok ()) ∧
    (sendMessageStream silentWorld "gpt-4o-mini" scenarioCOpts).tokens = [] ∧
    upsertsOf (sendMessageStream silentWorld "gpt-4o-mini" scenarioCOpts).calls =
      [(.personal, [silentVector]), (.collective, [silentVector])] ∧
    exchangesOf (sendMessageStream silentWorld "gpt-4o-mini" scenarioCOpts).calls =
      [("X", "", "neutral")] :=
  ⟨rfl, rfl, rfl, rfl, rfl⟩

/-- C11, amended: for an exchange whose stream produced no token, the
persisting step is skipped when the stream threw (no upsert, no `trackExchange`)
and runs when the stream ended without error: `trackExchange` is called once with
the empty response, and each index whose embedding request succeeds receives
one upsert whose content is the user message followed by a newline. -/
theorem persist_with_empty_aggregate (w : World) (model : String) (o : StreamOpts)
    (prep : Prepared) (r : Except JsError Unit)
    (hp : (prepare w model o).result = .ok prep)
    (hl : streamLoop prep.response.parts prep.response.failure = ([], r)) :
    match r with
    | .error _ =>
      upsertsOf (sendMessageStream w model o).calls = [] ∧
      exchangesOf (sendMessageStream w model o).calls = []
    | .ok _ =>
      exchangesOf (sendMessageStream w model o).calls = [(o.userMessage, "", prep.sentiment)] ∧
      upsertsOf (sendMessageStream w model o).calls =
        [Index.personal, Index.collective].filterMap (fun idx =>
          match w.embeddings idx (o.userMessage ++ "\n") with
          | .ok vec => some (idx, [saveVector (o.userMessage ++ "\n") vec
              (w.dateNow idx) (w.isoNow idx)])
          | .error _ => none) := by
  have hu := upsertsOf_prepare_calls w model o
  have hx := exchangesOf_prepare_calls w model o
  cases r with
  | error e =>
    rw [sendMessageStream_of_loop_error w model o prep [] e hp hl]
    exact ⟨hu, hx⟩
  | ok u =>
    rw [sendMessageStream_of_loop_ok w model o prep [] hp hl]
    have hj : String.join [] = "" := rfl
    have hup := upsertsOf_persist_calls w o.userMessage "" prep.sentiment
    have hex := exchangesOf_persist_calls w o.userMessage "" prep.sentiment
    simp only [String.append_empty] at hup
    rw [upsertsOf] at hu hup
    rw [exchangesOf] at hx hex
    simp only [hj, upsertsOf, exchangesOf, List.filterMap_append, hu, hx, hup, hex,
      List.nil_append, and_self]

/-- C11, amended, in the silent scenario. -/
theorem persist_with_empty_aggregate_witness :
    (prepare silentWorld "gpt-4o-mini" scenarioCOpts).result = .ok silentPrepared ∧
    streamLoop silentPrepared.response.parts silentPrepared.response.failure = ([], .ok ()) ∧
    exchangesOf (sendMessageStream silentWorld "gpt-4o-mini" scenarioCOpts).calls =
      [(scenarioCOpts.userMessage, "", silentPrepared.sentiment)] :=
  ⟨rfl, rfl, (persist_with_empty_aggregate silentWorld "gpt-4o-mini" scenarioCOpts
    silentPrepared (.ok ()) rfl rfl).1⟩

/-- C12, the claim as stated fails: when the stream is interrupted after "Hel",
the generator rethrows and makes no upsert, no `trackExchange` call and no
embedding request for the content to save. -/
theorem interrupted_stream_not_persisted :
    (sendMessageStream interruptedWorld "gpt-4o-mini" (streamOpts demoProps [] "Hello")).tokens =
      ["Hel"] ∧
    (sendMessageStream interruptedWorld "gpt-4o-mini" (streamOpts demoProps [] "Hello")).outcome =
      .error "StreamInterrupted" ∧
    upsertsOf (sendMessageStream interruptedWorld "gpt-4o-mini"
      (streamOpts demoProps [] "Hello")).calls = [] ∧
    exchangesOf (sendMessageStream interruptedWorld "gpt-4o-mini"
      (streamOpts demoProps [] "Hello")).calls = [] ∧
    (sendMessageStream interruptedWorld "gpt-4o-mini"
      (streamOpts demoProps [] "Hello")).calls.filterMap Call.embeddingInput =
      ["Hello", "Hello"] :=
  ⟨rfl, rfl, rfl, rfl, rfl⟩

/-- C12, amended: when the completion stream throws after the tokens of a text
p, the generator rethrows after those tokens and the persisting step does not
run: the calls of the run are those made up to the streaming request, with no
upsert, no `trackExchange` call, and no embedding request for the content made
of the user message, a newline and p. -/
theorem interrupted_stream_skips_persist (w : World) (model : String) (o : StreamOpts)
    (prep : Prepared) (tokens : List String) (e : JsError)
    (hp : (prepare w model o).result = .ok prep)
    (hl : streamLoop prep.response.parts prep.response.failure = (tokens, .error e)) :
    (sendMessageStream w model o).tokens = tokens ∧
    (sendMessageStream w model o).outcome = .error e ∧
    (sendMessageStream w model o).calls = (prepare w model o).calls ∧
    upsertsOf (sendMessageStream w model o).calls = [] ∧
    exchangesOf (sendMessageStream w model o).calls = [] ∧
    Call.embeddingsCreate "text-embedding-ada-002"
      (o.userMessage ++ "\n" ++ String.join tokens) ∉ (sendMessageStream w model o).calls := by
  rw [sendMessageStream_of_loop_error w model o prep tokens e hp hl]
  refine ⟨rfl, rfl, rfl, upsertsOf_prepare_calls w model o, exchangesOf_prepare_calls w model o,
    ?_⟩
  intro hmem
  have hin : o.userMessage ++ "\n" ++ String.join tokens ∈
      (prepare w model o).calls.filterMap Call.embeddingInput :=
    List.mem_filterMap.mpr ⟨_, hmem, rfl⟩
  rw [embeddingInputs_prepare_calls] at hin
  simp only [List.mem_cons, List.mem_singleton, List.not_mem_nil, or_false, or_self] at hin
  exact ne_append_newline o.userMessage (String.join tokens) hin.symm

/-- C12, amended, in scenario B. -/
theorem interrupted_stream_skips_persist_witness :
    (prepare interruptedWorld "gpt-4o-mini" (streamOpts demoProps [] "Hello")).result =
      .ok interruptedPrepared ∧
    streamLoop interruptedPrepared.response.parts interruptedPrepared.response.failure =
      (["Hel"], .error "StreamInterrupted") ∧
    exchangesOf (sendMessageStream interruptedWorld "gpt-4o-mini"
      (streamOpts demoProps [] "Hello")).calls = [] :=
  ⟨rfl, rfl, (interrupted_stream_skips_persist interruptedWorld "gpt-4o-mini"
    (streamOpts demoProps [] "Hello") interruptedPrepared ["Hel"] "StreamInterrupted"
    rfl rfl).2.2.2.2.1⟩

/-- C13, the claim as stated fails: in scenario A with `trackExchange`
rejected, the stream completes and both tokens are yielded, then the generator
throws the rejection to its consumer. -/
theorem persist_rejection_reaches_consumer :
    (prepare analyticsDownWorld "gpt-4o-mini" (streamOpts demoProps [] "Hello")).result =
      .ok helloPrepared ∧
    streamLoop helloPrepared.response.parts helloPrepared.response.failure =
      (["Hi", " there"], .ok ()) ∧
    (sendMessageStream analyticsDownWorld "gpt-4o-mini"
      (streamOpts demoProps [] "Hello")).tokens = ["Hi", " there"] ∧
    (sendMessageStream analyticsDownWorld "gpt-4o-mini"
      (streamOpts demoProps [] "Hello")).outcome = .error "analytics unavailable" :=
  ⟨rfl, rfl, rfl, rfl⟩

/-- C13, amended: for an exchange whose stream completed, all tokens are
yielded and the generator then throws exactly when `savePersonal`,
`saveCollective` or `trackExchange` is rejected: a failure of the persisting
step is propagated to the consumer, and the sequence ends normally only when
all three succeed. -/
theorem persist_failure_propagates (w : World) (model : String) (o : StreamOpts)
    (prep : Prepared) (tokens : List String)
    (hp : (prepare w model o).result = .ok prep)
    (hl : streamLoop prep.response.parts prep.response.failure = (tokens, .ok ())) :
    (sendMessageStream w model o).tokens = tokens ∧
    ((∃ e, (sendMessageStream w model o).outcome = .error e) ↔
      ((∃ e, (savePersonal w o.userMessage (String.join tokens)).result = .error e) ∨
       (∃ e, (saveCollective w o.userMessage (String.join tokens)).result = .error e) ∨
       (∃ e, (trackExchange w o.userMessage (String.join tokens) prep.sentiment).result =
          .error e))) := by
  rw [sendMessageStream_of_loop_ok w model o prep tokens hp hl]
  exact ⟨rfl, persist_result_error_iff w o.userMessage (String.join tokens) prep.sentiment⟩

/-- C13, amended, in scenario E. -/
theorem persist_failure_propagates_witness :
    (prepare analyticsDownWorld "gpt-4o-mini" (streamOpts demoProps [] "Hello")).result =
      .ok helloPrepared ∧
    streamLoop helloPrepared.response.parts helloPrepared.response.failure =
      (["Hi", " there"], .ok ()) ∧
    ∃ e, (sendMessageStream analyticsDownWorld "gpt-4o-mini"
      (streamOpts demoProps [] "Hello")).outcome = .error e :=
  ⟨rfl, rfl, (persist_failure_propagates analyticsDownWorld "gpt-4o-mini"
    (streamOpts demoProps [] "Hello") helloPrepared ["Hi", " there"] rfl rfl).2.mpr
      (Or.inr (Or.inr ⟨"analytics unavailable", rfl⟩))⟩

/-- C14, the claim as stated fails: with `trackExchange` rejected the settled
history is the one of scenario A followed by the error entry, so it differs
from the history obtained when `trackExchange` succeeds. -/
theorem analytics_failure_changes_history :
    send helloWorld demoProps [] "Hello" = [{ role := .assistant, content := "Hi there" }] ∧
    send analyticsDownWorld demoProps [] "Hello" =
      [{ role := .assistant, content := "Hi there" },
       { role := .assistant, content := "Error occurred." }] ∧
    send analyticsDownWorld demoProps [] "Hello" ≠ send helloWorld demoProps [] "Hello" := by
  decide

/-- C14, amended: for an exchange whose stream completed, when `trackExchange`
is rejected the generator throws after the stream and the `catch` block appends
the error entry: the settled history is the history of the run that returns
normally, unaltered, followed by the assistant entry holding the fixed error
string; the promise of `sendMessage` is fulfilled, not rejected. -/
theorem analytics_failure_appends_error_entry (w : World) (props : HookProps)
    (h : List Message) (msg : String) (prep : Prepared) (tokens : List String) (e : JsError)
    (hp : (prepare w props.model (streamOpts props h msg)).result = .ok prep)
    (hl : streamLoop prep.response.parts prep.response.failure = (tokens, .ok ()))
    (hfail : (trackExchange w msg (String.join tokens) prep.sentiment).result = .error e) :
    send w props h msg =
      sendMessage h msg tokens (.ok ()) ++
        [{ role := .assistant, content := "Error occurred." }] ∧
    sendMessageSettled (sendMessageStream w props.model (streamOpts props h msg)).outcome =
      .ok () := by
  have hrun := persist_failure_propagates w props.model (streamOpts props h msg) prep tokens hp hl
  obtain ⟨e1, he1⟩ := hrun.2.mpr (Or.inr (Or.inr ⟨e, hfail⟩))
  simp only [send]
  rw [hrun.1, he1]
  exact ⟨sendMessage_error h msg tokens e1, rfl⟩

/-- C14, amended, in scenario E. -/
theorem analytics_failure_appends_error_entry_witness :
    (prepare analyticsDownWorld demoProps.model (streamOpts demoProps [] "Hello")).result =
      .ok helloPrepared ∧
    streamLoop helloPrepared.response.parts helloPrepared.response.failure =
      (["Hi", " there"], .ok ()) ∧
    (trackExchange analyticsDownWorld "Hello" (String.join ["Hi", " there"])
      helloPrepared.sentiment).result = .error "analytics unavailable" ∧
    send analyticsDownWorld demoProps [] "Hello" =
      sendMessage [] "Hello" ["Hi", " there"] (.ok ()) ++
        [{ role := .assistant, content := "Error occurred." }] :=
  ⟨rfl, rfl, rfl, (analytics_failure_appends_error_entry analyticsDownWorld demoProps []
    "Hello" helloPrepared ["Hi", " there"] "analytics unavailable" rfl rfl rfl).1⟩

/-! ## Claim C15: overlapping calls of `sendMessage` -/

/-- C15, the claim as stated fails: a second `sendMessage` call made while the
session is Sending is accepted, not rejected: its user entry is appended to the
history at once, and the first token of the first exchange then replaces that
entry. -/
theorem second_send_not_rejected :
    sendingState.loading = true ∧
    sendingState.history = [{ role := .user, content := "first" }] ∧
    (beginSend sendingState "second").history =
      [{ role := .user, content := "first" }, { role := .user, content := "second" }] ∧
    (beginSend sendingState "second").history ≠ sendingState.history ∧
    (tokenUpdate (beginSend sendingState "second") "" "Hi").history =
      [{ role := .user, content := "first" }, { role := .assistant, content := "Hi" }] := by
  decide

/-- C15, amended: `sendMessage` has no guard on the state: whatever `loading`
and `typing` are, a call sets both to true and appends its user entry to the
history at once, exactly as a call made at rest does. -/
theorem beginSend_ignores_loading (s : HookState) (msg : String) :
    (beginSend s msg).history = s.history ++ [{ role := .user, content := msg }] ∧
    (beginSend s msg).loading = true ∧
    (beginSend s msg).typing = true ∧
    beginSend s msg = beginSend { s with loading := false, typing := false } msg :=
  ⟨rfl, rfl, rfl, rfl⟩

/-! ## Claim C16: the message list of the streaming request -/

theorem streamMessages_of_isRetrieval (c : Call) (h : c.isRetrieval = true) :
    c.streamMessages = none := by
  cases c <;> simp_all [Call.isRetrieval, Call.streamMessages]

theorem streamMessages_persist_calls (w : World) (userMessage aggregated sentiment : String) :
    (persist w userMessage aggregated sentiment).calls.filterMap Call.streamMessages = [] := by
  rw [persist_calls]
  simp only [List.filterMap_append,
    filterMap_saveIdx_calls Call.streamMessages streamMessages_of_isRetrieval]
  cases w.embeddings .personal (userMessage ++ "\n" ++ aggregated) <;>
    cases w.embeddings .collective (userMessage ++ "\n" ++ aggregated) <;>
    simp [Call.streamMessages, List.filterMap_cons]

theorem streamMessages_of_run (w : World) (model : String) (o : StreamOpts) :
    (sendMessageStream w model o).calls.filterMap Call.streamMessages =
      match (retrieve w o.userMessage).result with
      | .error _ => []
      | .ok (personal, collective) =>
        match (classify w o.userMessage).result with
        | .error _ => []
        | .ok sentiment =>
          [buildMessages (systemPrompt sentiment (memPrompt personal collective)
            o.context o.transcript) o.history o.userMessage] := by
  have hprep := filterMap_prepare_calls Call.streamMessages streamMessages_of_isRetrieval
    w model o
  have hrun : (sendMessageStream w model o).calls.filterMap Call.streamMessages =
      (prepare w model o).calls.filterMap Call.streamMessages := by
    rcases sendMessageStream_calls w model o with h | ⟨prep, tokens, _, _, h⟩
    · rw [h]
    · rw [h, List.filterMap_append, streamMessages_persist_calls, List.append_nil]
  rw [hrun, hprep, classify_eq]
  cases hr : (retrieve w o.userMessage).result with
  | error e => rfl
  | ok pc =>
    obtain ⟨personal, collective⟩ := pc
    cases hs : w.sentimentReply (sentimentMessages o.userMessage) with
    | error e => simp [Call.streamMessages, List.filterMap_cons]
    | ok text => simp [Call.streamMessages, List.filterMap_cons]

theorem map_role_content (h : List Message) :
    h.map (fun m => ({ role := m.role, content := m.content } : Message)) = h := by
  induction h with
  | nil => rfl
  | cons a l ih => simp [ih]

/-- C16: the message list of every streaming request of a run has the length of
the history plus 2: first the system entry holding the prompt composed from the
gathered memories and sentiment, then the role and content of each history
entry in order, last the user entry holding the user message. -/
theorem stream_messages_layout (w : World) (model : String) (o : StreamOpts)
    (m : String) (msgs : List Message) (t : ℚ)
    (h : Call.chatCreateStream m msgs t ∈ (sendMessageStream w model o).calls) :
    (∃ personal collective sentiment,
      (retrieve w o.userMessage).result = .ok (personal, collective) ∧
      (classify w o.userMessage).result = .ok sentiment ∧
      msgs.head? = some (Message.mk .system
        (systemPrompt sentiment (memPrompt personal collective) o.context o.transcript))) ∧
    msgs.length = o.history.length + 2 ∧
    (msgs.drop 1).take o.history.length =
      o.history.map (fun e => { role := e.role, content := e.content }) ∧
    (msgs.drop 1).take o.history.length = o.history ∧
    msgs.drop (o.history.length + 1) = [{ role := .user, content := o.userMessage }] := by
  have hm : msgs ∈ (sendMessageStream w model o).calls.filterMap Call.streamMessages :=
    List.mem_filterMap.mpr ⟨_, h, rfl⟩
  rw [streamMessages_of_run] at hm
  cases hr : (retrieve w o.userMessage).result with
  | error e => simp [hr] at hm
  | ok pc =>
    obtain ⟨personal, collective⟩ := pc
    cases hc : (classify w o.userMessage).result with
    | error e => simp [hr, hc] at hm
    | ok sentiment =>
      simp only [hr, hc, List.mem_singleton] at hm
      subst hm
      refine ⟨⟨personal, collective, sentiment, rfl, rfl, ?_⟩, ?_, ?_, ?_, ?_⟩
      · simp [buildMessages]
      · simp [buildMessages]
      · simp [buildMessages]
      · simp [buildMessages, map_role_content]
      · simp [buildMessages, map_role_content]

/-- C16 in scenario A, with a history of two entries. -/
theorem stream_messages_layout_witness :
    Call.chatCreateStream "gpt-4o-mini"
      (buildMessages (systemPrompt "neutral" (memPrompt [] []) "App" "")
        [{ role := .user, content := "a" }, { role := .assistant, content := "b" }] "Hello")
      0.6 ∈
      (sendMessageStream helloWorld "gpt-4o-mini" (streamOpts demoProps
        [{ role := .user, content := "a" }, { role := .assistant, content := "b" }]
        "Hello")).calls ∧
    (buildMessages (systemPrompt "neutral" (memPrompt [] []) "App" "")
        [{ role := .user, content := "a" }, { role := .assistant, content := "b" }]
        "Hello").length = 2 + 2 :=
  have hmem : Call.chatCreateStream "gpt-4o-mini"
      (buildMessages (systemPrompt "neutral" (memPrompt [] []) "App" "")
        [{ role := .user, content := "a" }, { role := .assistant, content := "b" }] "Hello")
      0.6 ∈
      (sendMessageStream helloWorld "gpt-4o-mini" (streamOpts demoProps
        [{ role := .user, content := "a" }, { role := .assistant, content := "b" }]
        "Hello")).calls := by
    rw [show (sendMessageStream helloWorld "gpt-4o-mini" (streamOpts demoProps
        [{ role := .user, content := "a" }, { role := .assistant, content := "b" }]
        "Hello")).calls =
      (retrieve helloWorld "Hello").calls ++
        ([Call.chatCreate "gpt-3.5-turbo" (sentimentMessages "Hello"),
          Call.postSentiment "Hello" "neutral",
          Call.chatCreateStream "gpt-4o-mini"
            (buildMessages (systemPrompt "neutral" (memPrompt [] []) "App" "")
              [{ role := .user, content := "a" }, { role := .assistant, content := "b" }]
              "Hello") 0.6] ++
         (persist helloWorld "Hello" "Hi there" "neutral").calls) from rfl]
    simp
  ⟨hmem, (stream_messages_layout helloWorld "gpt-4o-mini" (streamOpts demoProps
    [{ role := .user, content := "a" }, { role := .assistant, content := "b" }] "Hello")
    _ _ _ hmem).2.1⟩

/-! ## Claims C17 and C18: the composed prompt -/

theorem join_append (l₁ l₂ : List String) :
    String.join (l₁ ++ l₂) = String.join l₁ ++ String.join l₂ := by
  apply String.ext
  simp [String.data_join]

theorem intercalate_go_eq (acc s : String) (l : List String) :
    String.intercalate.go acc s l = acc ++ String.join (l.map (fun a => s ++ a)) := by
  induction l generalizing acc with
  | nil => simp [String.intercalate.go, String.join]
  | cons a l ih =>
    simp only [String.intercalate.go, ih, List.map_cons, join_cons, String.append_assoc]

theorem intercalate_cons (s a : String) (l : List String) :
    s.intercalate (a :: l) = a ++ String.join (l.map (fun b => s ++ b)) := by
  simp only [String.intercalate, intercalate_go_eq]

theorem memPrompt_eq (personal collective : List Metadata) :
    memPrompt personal collective =
      "## Personal Memory:" ++ String.join (personal.map (fun m => "\n" ++ m.content)) ++
      "\n" ++ "## Collective Memory:" ++
      String.join (collective.map (fun m => "\n" ++ m.content)) := by
  simp only [memPrompt, List.singleton_append, List.cons_append, List.append_assoc,
    intercalate_cons, List.map_append, List.map_cons, List.map_map, join_append, join_cons,
    String.append_assoc]
  rfl

theorem systemPrompt_eq (sentiment mem context transcript : String) :
    systemPrompt sentiment mem context transcript =
      "You are Echo, an empathetic AI assistant. Tone: " ++ sentiment ++ ". Memory:" ++
      "\n" ++ mem ++ "\n" ++ "Context:" ++ "\n" ++ context ++ "\n" ++ "Transcript:" ++
      "\n" ++ transcript := by
  have e1 : (". " ++ "Memory:\n" : String) = ". Memory:" ++ "\n" := rfl
  have e2 : ("\nContext:\n" : String) = "\n" ++ ("Context:" ++ "\n") := rfl
  have e3 : ("\nTranscript:\n" : String) = "\n" ++ ("Transcript:" ++ "\n") := rfl
  simp only [systemPrompt, String.append_assoc]
  rw [← String.append_assoc ". " "Memory:\n", e1, e2, e3]
  simp only [String.append_assoc]

/-- C17: the system prompt is the newline-joined list of lines determined by the
five inputs alone: the line carrying the tone directive with the sentiment, the
Personal Memory header, the personal contents in query order, the Collective
Memory header, the collective contents in query order, the Context header and
the context, the Transcript header and the transcript. -/
theorem systemPrompt_layout :
    (∀ (sentiment context transcript : String) (personal collective : List Metadata),
      systemPrompt sentiment (memPrompt personal collective) context transcript =
        "\n".intercalate (promptLines sentiment context transcript personal collective)) ∧
    systemPrompt "neutral" (memPrompt examplePersonal exampleCollective) "App" "Hi" =
      "You are Echo, an empathetic AI assistant. Tone: neutral. Memory:\n" ++
      "## Personal Memory:\nlikes tea\nlives in Oslo\n" ++
      "## Collective Memory:\nusers ask about exports\n" ++
      "Context:\nApp\nTranscript:\nHi" := by
  refine ⟨?_, rfl⟩
  intro sentiment context transcript personal collective
  rw [systemPrompt_eq, memPrompt_eq]
  simp only [promptLines, List.singleton_append, List.cons_append, List.append_assoc,
    List.nil_append, intercalate_cons, List.map_append, List.map_cons, List.map_map,
    List.map_nil, join_append, join_cons, String.append_assoc]
  simp only [String.join, List.foldl_nil, String.append_empty]
  rfl

/-- C18: prompt composition is total, and an empty memory list leaves its
section empty: with both lists empty the memory part is the Personal Memory
header line followed by the Collective Memory header line and nothing else;
with no personal memory the Collective Memory header comes right after the
Personal Memory header; with no collective memory the Collective Memory header
is the last line. -/
theorem memPrompt_empty_sections :
    memPrompt [] [] = "## Personal Memory:\n## Collective Memory:" ∧
    (∀ collective : List Metadata,
      memPrompt [] collective =
        "## Personal Memory:\n## Collective Memory:" ++
        String.join (collective.map (fun m => "\n" ++ m.content))) ∧
    (∀ personal : List Metadata,
      memPrompt personal [] =
        "## Personal Memory:" ++ String.join (personal.map (fun m => "\n" ++ m.content)) ++
        "\n## Collective Memory:") := by
  refine ⟨by decide, ?_, ?_⟩
  · intro collective
    rw [memPrompt_eq]
    rfl
  · intro personal
    rw [memPrompt_eq]
    simp only [List.map_nil, String.join, List.foldl_nil, String.append_empty,
      String.append_assoc]
    rfl

/-! ## Claim C20: the ids of the stored vectors -/

theorem digitChar_toNat (d : Nat) (h : d < 10) : (Nat.digitChar d).toNat - 48 = d := by
  interval_cases d <;> rfl

theorem foldl_toDigitsCore (fuel n : Nat) (ds : List Char) (h : n < fuel) :
    List.foldl (fun acc c => 10 * acc + (c.toNat - 48)) 0 (Nat.toDigitsCore 10 fuel n ds) =
      List.foldl (fun acc c => 10 * acc + (c.toNat - 48)) n ds := by
  induction fuel generalizing n ds with
  | zero => omega
  | succ fuel ih =>
    simp only [Nat.toDigitsCore]
    split
    · rename_i h0
      have hn : n % 10 = n := by omega
      have hd := digitChar_toNat (n % 10) (Nat.mod_lt n (by omega))
      simp only [List.foldl_cons, hd, Nat.mul_zero, Nat.zero_add]
      rw [hn]
    · rename_i h0
      have hlt : n / 10 < fuel := by omega
      have hd := digitChar_toNat (n % 10) (Nat.mod_lt n (by omega))
      rw [ih (n / 10) _ hlt]
      simp only [List.foldl_cons, hd]
      congr 1
      omega

theorem decimalValue_toString (n : Nat) : decimalValue (toString n) = n := by
  show List.foldl (fun acc c => 10 * acc + (c.toNat - 48)) 0 (Nat.toDigitsCore 10 (n + 1) n []) = n
  rw [foldl_toDigitsCore (n + 1) n [] (Nat.lt_succ_self n)]
  rfl

theorem toString_nat_injective (a b : Nat) (h : toString a = toString b) : a = b := by
  have := congrArg decimalValue h
  rwa [decimalValue_toString, decimalValue_toString] at this

/-- C20, the claim as stated fails: two `saveIdx` upserts into the collective
index that read the same millisecond carry the same id although their contents
differ. -/
theorem same_millisecond_same_id :
    upsertsOf (saveIdx scenarioCWorld .collective "X" "Y").calls =
      [(.collective, [saveVector "X\nY" [1, 2, 3] 1700000000000 "2023-11-14T22:13:20.000Z"])] ∧
    upsertsOf (saveIdx scenarioCWorld .collective "A" "B").calls =
      [(.collective, [saveVector "A\nB" [1, 2, 3] 1700000000000 "2023-11-14T22:13:20.000Z"])] ∧
    (saveVector "X\nY" [1, 2, 3] 1700000000000 "2023-11-14T22:13:20.000Z").id =
      (saveVector "A\nB" [1, 2, 3] 1700000000000 "2023-11-14T22:13:20.000Z").id ∧
    (saveVector "X\nY" [1, 2, 3] 1700000000000 "2023-11-14T22:13:20.000Z").metadata.content ≠
      (saveVector "A\nB" [1, 2, 3] 1700000000000 "2023-11-14T22:13:20.000Z").metadata.content := by
  refine ⟨rfl, rfl, rfl, by decide⟩

/-- C20, amended: each `saveIdx` whose embedding request succeeds issues one
upsert of one vector whose id is the decimal text of the `Date.now()` reading;
the ids of two such upserts are distinct exactly when the two readings differ,
whatever the contents, so two upserts within the same millisecond share an id. -/
theorem save_ids_distinct_iff (w₁ w₂ : World) (idx : Index) (x₁ y₁ x₂ y₂ : String)
    (v₁ v₂ : Embedding)
    (h₁ : w₁.embeddings idx (x₁ ++ "\n" ++ y₁) = .ok v₁)
    (h₂ : w₂.embeddings idx (x₂ ++ "\n" ++ y₂) = .ok v₂) :
    ∃ a b : UpsertVector,
      upsertsOf (saveIdx w₁ idx x₁ y₁).calls = [(idx, [a])] ∧
      upsertsOf (saveIdx w₂ idx x₂ y₂).calls = [(idx, [b])] ∧
      a.id = toString (w₁.dateNow idx) ∧ b.id = toString (w₂.dateNow idx) ∧
      (a.id ≠ b.id ↔ w₁.dateNow idx ≠ w₂.dateNow idx) := by
  refine ⟨saveVector (x₁ ++ "\n" ++ y₁) v₁ (w₁.dateNow idx) (w₁.isoNow idx),
    saveVector (x₂ ++ "\n" ++ y₂) v₂ (w₂.dateNow idx) (w₂.isoNow idx), ?_, ?_, rfl, rfl, ?_⟩
  · rw [upsertsOf, filterMap_saveIdx_calls Call.asUpsert asUpsert_of_isRetrieval, h₁]
    rfl
  · rw [upsertsOf, filterMap_saveIdx_calls Call.asUpsert asUpsert_of_isRetrieval, h₂]
    rfl
  · simp only [saveVector, ne_eq]
    constructor
    · intro hne heq
      exact hne (by rw [heq])
    · intro hne heq
      exact hne (toString_nat_injective _ _ heq)

/-- C20, amended, for two saves one millisecond apart. -/
theorem save_ids_distinct_iff_witness :
    scenarioCWorld.embeddings .collective ("X" ++ "\n" ++ "Y") = .ok [1, 2, 3] ∧
    laterWorld.embeddings .collective ("A" ++ "\n" ++ "B") = .ok [1, 2, 3] ∧
    ∃ a b : UpsertVector,
      upsertsOf (saveIdx scenarioCWorld .collective "X" "Y").calls = [(.collective, [a])] ∧
      upsertsOf (saveIdx laterWorld .collective "A" "B").calls = [(.collective, [b])] ∧
      a.id = toString (scenarioCWorld.dateNow .collective) ∧
      b.id = toString (laterWorld.dateNow .collective) ∧
      (a.id ≠ b.id ↔ scenarioCWorld.dateNow .collective ≠ laterWorld.dateNow .collective) :=
  ⟨rfl, rfl, save_ids_distinct_iff scenarioCWorld laterWorld .collective "X" "Y" "A" "B"
    [1, 2, 3] [1, 2, 3] rfl rfl⟩

/-! ## Claim C19: the stored history read back -/

theorem hexValue_digitChar (k : Nat) (h : k < 16) : hexValue (Nat.digitChar k) = some k := by
  interval_cases k <;> rfl

theorem hex4_unicodeEscape (n : Nat) (h : n < 65536) :
    hex4 (Nat.digitChar (n / 4096 % 16)) (Nat.digitChar (n / 256 % 16))
      (Nat.digitChar (n / 16 % 16)) (Nat.digitChar (n % 16)) = some n := by
  simp only [hex4, hexValue_digitChar _ (Nat.mod_lt _ (by omega : 0 < 16))]
  congr 1
  omega

theorem unquoteChars_cons (c : Char) (rest : List Char) :
    unquoteChars (c :: rest) =
      if c = '"' then some ([], rest)
      else if c = '\\' then
        match rest with
        | [] => none
        | e :: rest1 =>
          if e = 'u' then
            match rest1 with
            | a :: b :: c1 :: d :: rest2 =>
              match hex4 a b c1 d with
              | some n => consChar (Char.ofNat n) (unquoteChars rest2)
              | none => none
            | _ => none
          else
            match simpleEscape e with
            | some ch => consChar ch (unquoteChars rest1)
            | none => none
      else if c.toNat < 0x20 then none
      else consChar c (unquoteChars rest) := by
  conv_lhs => rw [unquoteChars.eq_def]

theorem unquoteChars_quoteJSONChar (c : Char) (t : List Char) :
    unquoteChars (quoteJSONChar c ++ t) = consChar c (unquoteChars t) := by
  unfold quoteJSONChar
  split_ifs with h1 h2 h3 h4 h5 h6 h7 h8
  · subst h1; rw [List.cons_append, unquoteChars_cons]; simp [simpleEscape]
  · subst h2; rw [List.cons_append, unquoteChars_cons]; simp [simpleEscape]
  · subst h3; rw [List.cons_append, unquoteChars_cons]; simp [simpleEscape]
  · subst h4; rw [List.cons_append, unquoteChars_cons]; simp [simpleEscape]
  · subst h5; rw [List.cons_append, unquoteChars_cons]; simp [simpleEscape]
  · subst h6; rw [List.cons_append, unquoteChars_cons]; simp [simpleEscape]
  · subst h7; rw [List.cons_append, unquoteChars_cons]; simp [simpleEscape]
  · simp only [unicodeEscape, List.cons_append, List.nil_append]
    rw [unquoteChars_cons]
    simp [hex4_unicodeEscape c.toNat (by omega)]
  · rw [List.cons_append, List.nil_append, unquoteChars_cons]
    simp [h6, h7, h8]

theorem unquoteChars_quoteChars (cs rest : List Char) :
    unquoteChars (quoteChars cs ++ '"' :: rest) = some (cs, rest) := by
  induction cs with
  | nil => rw [quoteChars, List.nil_append, unquoteChars_cons]; simp
  | cons c cs ih =>
    simp only [quoteChars, List.append_assoc]
    rw [unquoteChars_quoteJSONChar, ih]
    rfl

theorem parseString_quoteJSONString (s : String) (rest : List Char) :
    parseString (quoteJSONString s ++ rest) = some (s.data, rest) := by
  simp only [quoteJSONString, List.cons_append, List.append_assoc, parseString, if_true,
    List.nil_append]
  exact unquoteChars_quoteChars s.data rest

theorem expect_append (l t : List Char) : expect l (l ++ t) = some t := by
  induction l with
  | nil => cases t <;> rfl
  | cons a l ih => simp [expect, ih]

theorem roleOfName_roleName (r : Role) : roleOfName (roleName r).data = some r := by
  cases r <;> decide

theorem parseMessage_stringifyMessage (m : Message) (t : List Char) :
    parseMessage (stringifyMessage m ++ t) = some (m, t) := by
  simp only [stringifyMessage, parseMessage, List.append_assoc, expect_append,
    parseString_quoteJSONString, roleOfName_roleName]
  simp

theorem length_lt_stringifyMore (ms : List Message) : ms.length < (stringifyMore ms).length := by
  induction ms with
  | nil => simp [stringifyMore]
  | cons m ms ih => simp only [stringifyMore, List.length_cons, List.length_append]; omega

theorem parseMore_stringifyMore (ms : List Message) (fuel : Nat) (h : ms.length < fuel) :
    parseMore fuel (stringifyMore ms) = some ms := by
  induction ms generalizing fuel with
  | nil =>
    cases fuel with
    | zero => omega
    | succ f => simp [stringifyMore, parseMore]
  | cons m ms ih =>
    cases fuel with
    | zero => omega
    | succ f =>
      have hf : ms.length < f := by simp only [List.length_cons] at h; omega
      simp [stringifyMore, parseMore, parseMessage_stringifyMessage, ih f hf]

theorem stringifyMessage_head (m : Message) :
    ∃ t, stringifyMessage m = '\x7b' :: t :=
  ⟨_, rfl⟩

theorem parse_stringify (history : List Message) :
    JSON.parse (JSON.stringify history) = some history := by
  cases history with
  | nil => simp [JSON.stringify, JSON.parse]
  | cons m ms =>
    obtain ⟨t, ht⟩ := stringifyMessage_head m
    have hne : stringifyMessage m ++ stringifyMore ms ≠ [']'] := by
      rw [ht]
      simp
    simp only [JSON.stringify, JSON.parse, if_true, hne, if_false,
      parseMessage_stringifyMessage,
      parseMore_stringifyMore ms _ (length_lt_stringifyMore ms)]

theorem stringify_ne_empty (history : List Message) : JSON.stringify history ≠ "" := by
  cases history with
  | nil => decide
  | cons m ms =>
    intro h
    have := congrArg String.data h
    simp [JSON.stringify] at this

/-- C19: for every history, `JSON.parse(JSON.stringify(history))` is the same
history, order, roles and contents preserved, and the load effect run on what
the save effect stored under the user's key sets exactly that history, whatever
the contents are (quotes, backslashes, control characters, non-ASCII text). -/
theorem load_save_roundtrip :
    (∀ history : List Message, JSON.parse (JSON.stringify history) = some history) ∧
    (∀ (storage : Storage) (userId : String) (history current : List Message),
      loadEffect (saveEffect storage userId history) userId current = .ok history) ∧
    JSON.stringify escapedHistory =
      "[\x7b\"role\":\"user\",\"content\":\"say \\\"hi\\\"\\n\\ttab \\\\ back\"\x7d," ++
      "\x7b\"role\":\"assistant\",\"content\":\"bell\\u0007 é ok\"\x7d]" ∧
    JSON.parse (JSON.stringify escapedHistory) = some escapedHistory := by
  refine ⟨parse_stringify, ?_, by decide, by decide⟩
  intro storage userId history current
  simp [loadEffect, saveEffect, stringify_ne_empty, parse_stringify]

/-! ## Claim C21: the entries before the exchange -/

theorem onToken_frame (h : List Message) (s : Streaming) (t : String)
    (hs : ∃ x, s.history = h ++ [x]) : ∃ x, (onToken s t).history = h ++ [x] := by
  obtain ⟨x, hx⟩ := hs
  exact ⟨{ role := .assistant, content := s.text ++ t }, by simp [onToken, hx]⟩

theorem scanl_onToken_frame (h : List Message) (tokens : List String) (s₀ : Streaming)
    (h₀ : ∃ x, s₀.history = h ++ [x]) :
    ∀ s ∈ List.scanl onToken s₀ tokens, ∃ x, s.history = h ++ [x] := by
  induction tokens generalizing s₀ with
  | nil =>
    intro s hs
    have hs' : s = s₀ := by simpa [List.scanl] using hs
    rw [hs']
    exact h₀
  | cons t ts ih =>
    intro s hs
    have hs' : s = s₀ ∨ s ∈ List.scanl onToken (onToken s₀ t) ts := by
      simpa [List.scanl] using hs
    rcases hs' with hs' | hs'
    · rw [hs']
      exact h₀
    · exact ih (onToken s₀ t) (onToken_frame h s₀ t h₀) s hs'

theorem foldl_onToken_frame (h : List Message) (tokens : List String) (s₀ : Streaming)
    (h₀ : ∃ x, s₀.history = h ++ [x]) :
    ∃ x, (tokens.foldl onToken s₀).history = h ++ [x] := by
  induction tokens generalizing s₀ with
  | nil => exact h₀
  | cons t ts ih => exact ih (onToken s₀ t) (onToken_frame h s₀ t h₀)

/-- C21: during `sendMessage` and after it settles, whatever the tokens and the
outcome, every value of the history starts with the prior history h unchanged
and is longer than h: only entries at index `len(h)` and beyond are added or
replaced. -/
theorem sendMessage_keeps_prior_entries (h : List Message) (msg : String)
    (tokens : List String) (outcome : Except JsError Unit) :
    (∀ hist ∈ sendMessageTrace h msg tokens outcome,
      hist.take h.length = h ∧ h.length < hist.length) ∧
    (sendMessage h msg tokens outcome).take h.length = h ∧
    h.length < (sendMessage h msg tokens outcome).length := by
  have hacc : ∃ x, (accept h msg).history = h ++ [x] := ⟨_, rfl⟩
  have hscan := scanl_onToken_frame h tokens (accept h msg) hacc
  obtain ⟨y, hy⟩ := foldl_onToken_frame h tokens (accept h msg) hacc
  have hgood : ∀ hist : List Message, (∃ x, hist = h ++ [x]) →
      hist.take h.length = h ∧ h.length < hist.length := by
    rintro hist ⟨x, rfl⟩
    simp
  have hgood2 : ∀ hist : List Message, (∃ x z, hist = h ++ [x, z]) →
      hist.take h.length = h ∧ h.length < hist.length := by
    rintro hist ⟨x, z, rfl⟩
    simp
  refine ⟨?_, ?_⟩
  · intro hist hmem
    cases outcome with
    | ok u =>
      simp only [sendMessageTrace, List.mem_map] at hmem
      obtain ⟨s, hs, rfl⟩ := hmem
      exact hgood _ (hscan s hs)
    | error e =>
      simp only [sendMessageTrace, List.mem_append, List.mem_map, List.mem_singleton] at hmem
      rcases hmem with ⟨s, hs, rfl⟩ | hlast
      · exact hgood _ (hscan s hs)
      · rw [hlast]
        exact hgood2 _ ⟨y, { role := .assistant, content := errorText },
          by simp [onError, hy]⟩
  · cases outcome with
    | ok u =>
      have := hgood _ ⟨y, hy⟩
      simpa [sendMessage] using this
    | error e =>
      have := hgood2 (onError (tokens.foldl onToken (accept h msg)).history)
        ⟨y, { role := .assistant, content := errorText }, by simp [onError, hy]⟩
      simpa [sendMessage] using this

/-! ## Claim C23: what the gathering stage depends on -/

theorem isGathering_of_isRetrieval (c : Call) (h : c.isRetrieval = true) :
    c.isGathering = true := by
  cases c <;> simp_all [Call.isRetrieval, Call.isGathering]

theorem takeWhile_all {α : Type} (p : α → Bool) (l : List α) (h : ∀ a ∈ l, p a = true) :
    l.takeWhile p = l := by
  induction l with
  | nil => rfl
  | cons a l ih =>
    have ha : p a = true := h a (List.mem_cons_self a l)
    rw [List.takeWhile_cons_of_pos ha, ih (fun b hb => h b (List.mem_cons_of_mem a hb))]

theorem takeWhile_stop {α : Type} (p : α → Bool) (l : List α) (a : α) (t : List α)
    (h : ∀ b ∈ l, p b = true) (ha : p a = false) :
    (l ++ a :: t).takeWhile p = l := by
  induction l with
  | nil => simp [List.takeWhile_cons, ha]
  | cons b l ih =>
    have hb : p b = true := h b (List.mem_cons_self b l)
    rw [List.cons_append, List.takeWhile_cons_of_pos hb,
      ih (fun c hc => h c (List.mem_cons_of_mem b hc))]

theorem gathering_calls (w : World) (model : String) (o : StreamOpts) :
    (sendMessageStream w model o).calls.takeWhile Call.isGathering =
      (retrieve w o.userMessage).calls ++
        match (retrieve w o.userMessage).result with
        | .error _ => []
        | .ok _ => [Call.chatCreate "gpt-3.5-turbo" (sentimentMessages o.userMessage)] := by
  have hR : ∀ c ∈ (retrieve w o.userMessage).calls, c.isGathering = true := fun c hc =>
    isGathering_of_isRetrieval c (retrieve_calls_isRetrieval w o.userMessage c hc)
  have hRc : ∀ c ∈ (retrieve w o.userMessage).calls ++
      [Call.chatCreate "gpt-3.5-turbo" (sentimentMessages o.userMessage)],
      c.isGathering = true := by
    intro c hc
    rcases List.mem_append.mp hc with hc | hc
    · exact hR c hc
    · rw [List.mem_singleton.mp hc]
      rfl
  have hcalls := congrArg Eff.calls (prepare_eq w model o)
  have hres := congrArg Eff.result (prepare_eq w model o)
  cases hr : (retrieve w o.userMessage).result with
  | error e =>
    simp only [hr] at hcalls hres
    rw [sendMessageStream_of_prepare_error w model o e hres, hcalls]
    simpa using takeWhile_all Call.isGathering _ hR
  | ok pc =>
    obtain ⟨personal, collective⟩ := pc
    cases hs : w.sentimentReply (sentimentMessages o.userMessage) with
    | error e =>
      simp only [hr, hs] at hcalls hres
      rw [sendMessageStream_of_prepare_error w model o e hres, hcalls]
      exact takeWhile_all Call.isGathering _ hRc
    | ok text =>
      simp only [hr, hs] at hcalls
      have hshape : ∀ t : List Call,
          ((prepare w model o).calls ++ t).takeWhile Call.isGathering =
            (retrieve w o.userMessage).calls ++
              [Call.chatCreate "gpt-3.5-turbo" (sentimentMessages o.userMessage)] := by
        intro t
        rw [hcalls]
        have := takeWhile_stop Call.isGathering _
          (Call.postSentiment o.userMessage (w.toLowerCase (jsTrim text)))
          ([Call.chatCreateStream model
              (buildMessages (systemPrompt (w.toLowerCase (jsTrim text))
                (memPrompt personal collective) o.context o.transcript) o.history
                o.userMessage)
              (temperatureOf (w.toLowerCase (jsTrim text)))] ++ t) hRc rfl
        simpa [List.append_assoc] using this
      rcases sendMessageStream_calls w model o with h | ⟨prep, tokens, _, _, h⟩
      · rw [h]
        simpa using hshape []
      · rw [h]
        exact hshape _

/-- C23: the calls of the gathering stage (the embedding requests and index
queries of `queryPersonal` and `queryCollective`, then the sentiment request)
are the same, arguments included, for any two runs with the same user message,
whatever their history, context, transcript and model: they are determined by
the user message alone. -/
theorem gathering_depends_on_userMessage (w : World) (m₁ m₂ um c₁ t₁ c₂ t₂ : String)
    (h₁ h₂ : List Message) :
    (sendMessageStream w m₁ (StreamOpts.mk c₁ t₁ h₁ um)).calls.takeWhile Call.isGathering =
      (sendMessageStream w m₂ (StreamOpts.mk c₂ t₂ h₂ um)).calls.takeWhile Call.isGathering ∧
    (sendMessageStream w m₁ (StreamOpts.mk c₁ t₁ h₁ um)).calls.takeWhile Call.isGathering =
      (queryPersonal w um 5).calls ++ (queryCollective w um 5).calls ++
        match (retrieve w um).result with
        | .error _ => []
        | .ok _ => [Call.chatCreate "gpt-3.5-turbo"
            [{ role := .system, content := "Rate sentiment: positive, neutral, or negative." },
             { role := .user, content := um }]] := by
  refine ⟨?_, ?_⟩
  · rw [gathering_calls, gathering_calls]
  · rw [gathering_calls]
    rfl

/-! ## Claim C27: the tokens of a stream and their concatenation -/

theorem streamLoop_shapes (shapes : List PartShape) (failure : Option JsError) :
    streamLoop (shapes.map PartShape.toPart) failure =
      (shapes.filterMap PartShape.token,
       match failure with
       | none => .ok ()
       | some e => .error e) := by
  induction shapes with
  | nil => cases failure <;> rfl
  | cons s ss ih =>
    cases s with
    | noChoices =>
      simp only [List.map_cons, streamLoop, PartShape.toPart, partToken, ih]
      simp [PartShape.token]
    | noDelta =>
      simp only [List.map_cons, streamLoop, PartShape.toPart, partToken, ih]
      simp [PartShape.token]
    | content c =>
      cases c with
      | none =>
        simp only [List.map_cons, streamLoop, PartShape.toPart, partToken, ih]
        simp [PartShape.token]
      | some t =>
        by_cases ht : t = ""
        · simp only [List.map_cons, streamLoop, PartShape.toPart, partToken, ih, ht, if_true]
          simp [PartShape.token]
        · simp only [List.map_cons, streamLoop, PartShape.toPart, partToken, ih, ht, if_false]
          simp [PartShape.token, ht]

theorem token_ne_empty (shapes : List PartShape) :
    ∀ t ∈ shapes.filterMap PartShape.token, t ≠ "" := by
  intro t ht
  obtain ⟨s, _, hs⟩ := List.mem_filterMap.mp ht
  cases s with
  | noChoices => simp [PartShape.token] at hs
  | noDelta => simp [PartShape.token] at hs
  | content c =>
    cases c with
    | none => simp [PartShape.token] at hs
    | some u =>
      by_cases hu : u = ""
      · simp [PartShape.token, hu] at hs
      · simp only [PartShape.token, hu, if_false, Option.some.injEq] at hs
        rw [← hs]
        exact hu

theorem intercalate_empty (tokens : List String) : "".intercalate tokens = String.join tokens := by
  cases tokens with
  | nil => rfl
  | cons t ts =>
    rw [intercalate_cons, join_cons]
    have hmap : ts.map (fun b => "" ++ b) = ts := by
      induction ts with
      | nil => rfl
      | cons u us ih => simp
    rw [hmap]

/-- The run of a stream made of parts the loop reads without throwing, when the
persisting step succeeds: the tokens are the non-empty content deltas in order,
their concatenation is what `trackExchange` receives and what
`AssistantClient.sendMessage` returns. -/
theorem clientSendMessage_of_shapes (w : World) (model : String) (o : StreamOpts)
    (prep : Prepared) (shapes : List PartShape)
    (hp : (prepare w model o).result = .ok prep)
    (hparts : prep.response.parts = shapes.map PartShape.toPart)
    (hend : prep.response.failure = none)
    (hpersist : (persist w o.userMessage
      (String.join (shapes.filterMap PartShape.token)) prep.sentiment).result = .ok ()) :
    (sendMessageStream w model o).tokens = shapes.filterMap PartShape.token ∧
    exchangesOf (sendMessageStream w model o).calls =
      [(o.userMessage, String.join (shapes.filterMap PartShape.token), prep.sentiment)] ∧
    clientSendMessage w model o = .ok (String.join (shapes.filterMap PartShape.token)) := by
  have hl : streamLoop prep.response.parts prep.response.failure =
      (shapes.filterMap PartShape.token, .ok ()) := by
    rw [hparts, hend, streamLoop_shapes]
  have hrun := sendMessageStream_of_loop_ok w model o prep _ hp hl
  refine ⟨by rw [hrun], ?_, ?_⟩
  · rw [hrun]
    have h0 := exchangesOf_prepare_calls w model o
    have h1 := exchangesOf_persist_calls w o.userMessage
      (String.join (shapes.filterMap PartShape.token)) prep.sentiment
    rw [exchangesOf] at h0 h1
    simp only [exchangesOf, List.filterMap_append, h0, h1, List.nil_append]
  · simp only [clientSendMessage]
    rw [hrun]
    simp only [hpersist, intercalate_empty]

/-- C27, as the code behaves: for parts that have no `choices`, no `delta`, or a
first delta, the loop yields exactly the non-empty contents in order and none of
them is empty, and in scenario A their concatenation "Hi there" is saved and
returned; but a part whose `choices` array is empty makes the loop throw a
TypeError although the stream ends without error: after "Hi" nothing more is
yielded, nothing is saved, and `sendMessage` throws instead of returning
"Hi there". -/
theorem stream_tokens_and_empty_choices :
    (∀ shapes : List PartShape,
      streamLoop (shapes.map PartShape.toPart) none =
        (shapes.filterMap PartShape.token, .ok ()) ∧
      ∀ t ∈ shapes.filterMap PartShape.token, t ≠ "") ∧
    (sendMessageStream helloWorld "gpt-4o-mini" (streamOpts demoProps [] "Hello")).tokens =
      ["Hi", " there"] ∧
    exchangesOf (sendMessageStream helloWorld "gpt-4o-mini"
      (streamOpts demoProps [] "Hello")).calls = [("Hello", "Hi there", "neutral")] ∧
    clientSendMessage helloWorld "gpt-4o-mini" (streamOpts demoProps [] "Hello") =
      .ok "Hi there" ∧
    streamLoop [textPart "Hi", emptyChoicesPart, textPart " there"] none =
      (["Hi"], .error "TypeError: Cannot read properties of undefined (reading 'delta')") ∧
    (sendMessageStream emptyChoicesWorld "gpt-4o-mini"
      (streamOpts demoProps [] "Hello")).tokens = ["Hi"] ∧
    exchangesOf (sendMessageStream emptyChoicesWorld "gpt-4o-mini"
      (streamOpts demoProps [] "Hello")).calls = [] ∧
    clientSendMessage emptyChoicesWorld "gpt-4o-mini" (streamOpts demoProps [] "Hello") =
      .error "TypeError: Cannot read properties of undefined (reading 'delta')" := by
  refine ⟨fun shapes => ⟨?_, token_ne_empty shapes⟩, rfl, rfl, rfl, rfl, rfl, rfl, rfl⟩
  rw [streamLoop_shapes]

/-! ## Claim C28: `loading` and `typing` -/

theorem hookStep_keeps_equal (s t : HookState) (hst : HookStep s t)
    (h : s.loading = s.typing) : t.loading = t.typing := by
  cases hst with
  | start msg => rfl
  | token text tok => exact h
  | settle outcome => rfl
  | load stored => exact h

theorem reachable_loading_eq_typing (s : HookState) (hs : Reachable s) :
    s.loading = s.typing := by
  induction hs with
  | init => rfl
  | step _ hst ih => exact hookStep_keeps_equal _ _ hst ih

theorem scanl_head {α β : Type} (f : β → α → β) (b : β) (l : List α) :
    (List.scanl f b l).head? = some b := by
  cases l <;> rfl

theorem scanl_getLast {α β : Type} (f : β → α → β) (b : β) (l : List α) :
    (List.scanl f b l).getLast? = some (l.foldl f b) := by
  induction l generalizing b with
  | nil => rfl
  | cons a l ih =>
    show (b :: List.scanl f (f b a) l).getLast? = _
    rw [List.getLast?_cons, ih]
    rfl

theorem scanl_length {α β : Type} (f : β → α → β) (b : β) (l : List α) :
    (List.scanl f b l).length = l.length + 1 := by
  induction l generalizing b with
  | nil => rfl
  | cons a l ih =>
    show (b :: List.scanl f (f b a) l).length = _
    rw [List.length_cons, ih, List.length_cons]

/-- C28: `loading` and `typing` are equal in every state the hook can render,
overlapping exchanges included; during an awaited `sendMessage` both are true
from its start until it settles, and both are false in the state rendered when
it settles, whether the generator returned (with or without tokens) or threw. -/
theorem loading_equals_typing :
    (∀ s : HookState, Reachable s → s.loading = s.typing) ∧
    (∀ (s : HookState) (msg : String) (tokens : List String) (outcome : Except JsError Unit),
      (∀ st ∈ sendMessageStates s msg tokens outcome, st.loading = st.typing) ∧
      (sendMessageStates s msg tokens outcome).head? = some (beginSend s msg) ∧
      (beginSend s msg).loading = true ∧ (beginSend s msg).typing = true ∧
      (sendMessageStates s msg tokens outcome).getLast? =
        some { history := sendMessage s.history msg tokens outcome,
               loading := false, typing := false }) := by
  refine ⟨reachable_loading_eq_typing, ?_⟩
  intro s msg tokens outcome
  refine ⟨?_, ?_, rfl, rfl, ?_⟩
  · intro st hst
    simp only [sendMessageStates, List.mem_append, List.mem_map, List.mem_singleton] at hst
    rcases hst with ⟨x, _, rfl⟩ | rfl
    · rfl
    · rfl
  · simp only [sendMessageStates]
    cases tokens <;> rfl
  · simp only [sendMessageStates, List.getLast?_concat]
    cases outcome <;> rfl

/-! ## Claim C22: the writes of the save effect -/

theorem committed_cons_cons (h g : List Message) (rest : List (List Message))
    (flush : List Bool) :
    committed (h :: g :: rest) flush =
      if flush.headD false then h :: committed (g :: rest) flush.tail
      else committed (g :: rest) flush.tail := rfl

theorem committed_mem (l : List (List Message)) (flush : List Bool) :
    ∀ x ∈ committed l flush, x ∈ l := by
  induction l generalizing flush with
  | nil => intro x hx; simp [committed] at hx
  | cons h rest ih =>
    cases rest with
    | nil => intro x hx; simpa [committed] using hx
    | cons g rest =>
      intro x hx
      rw [committed_cons_cons] at hx
      split at hx
      · rcases List.mem_cons.mp hx with hx | hx
        · rw [hx]; exact List.mem_cons_self _ _
        · exact List.mem_cons_of_mem _ (ih _ x hx)
      · exact List.mem_cons_of_mem _ (ih _ x hx)

theorem committed_length_le (l : List (List Message)) (flush : List Bool) :
    (committed l flush).length ≤ l.length := by
  induction l generalizing flush with
  | nil => simp [committed]
  | cons h rest ih =>
    cases rest with
    | nil => simp [committed]
    | cons g rest =>
      rw [committed_cons_cons]
      have := ih flush.tail
      split
      · simp only [List.length_cons] at this ⊢; omega
      · simp only [List.length_cons] at this ⊢; omega

theorem committed_getLast (l : List (List Message)) (flush : List Bool) :
    (committed l flush).getLast? = l.getLast? := by
  induction l generalizing flush with
  | nil => simp [committed]
  | cons h rest ih =>
    cases rest with
    | nil => simp [committed]
    | cons g rest =>
      rw [committed_cons_cons, List.getLast?_cons_cons, ← ih flush.tail]
      split
      · have hne : ∃ a, (committed (g :: rest) flush.tail).getLast? = some a := by
          rw [ih]
          exact ⟨_, List.getLast?_eq_getLast _ (List.cons_ne_nil _ _)⟩
        obtain ⟨a, ha⟩ := hne
        rw [List.getLast?_cons, ha]
        rfl
      · rfl

theorem committed_all (l : List (List Message)) (n : Nat) (h : l.length ≤ n + 1) :
    committed l (List.replicate n true) = l := by
  induction l generalizing n with
  | nil => simp [committed]
  | cons a rest ih =>
    cases rest with
    | nil => simp [committed]
    | cons g rest =>
      cases n with
      | zero => simp at h
      | succ m =>
        rw [committed_cons_cons]
        simp only [List.replicate_succ, List.headD_cons, if_true, List.tail_cons]
        rw [ih m (by simp only [List.length_cons] at h ⊢; omega)]

theorem sendMessageTrace_length (h : List Message) (msg : String) (tokens : List String)
    (outcome : Except JsError Unit) :
    (sendMessageTrace h msg tokens outcome).length =
      tokens.length + (match outcome with | .ok _ => 1 | .error _ => 2) := by
  cases outcome with
  | ok u => simp [sendMessageTrace, scanl_length]
  | error e => simp [sendMessageTrace, scanl_length]

theorem sendMessageTrace_getLast (h : List Message) (msg : String) (tokens : List String)
    (outcome : Except JsError Unit) :
    (sendMessageTrace h msg tokens outcome).getLast? =
      some (sendMessage h msg tokens outcome) := by
  cases outcome with
  | ok u =>
    simp only [sendMessageTrace, sendMessage]
    have := scanl_getLast onToken (accept h msg) tokens
    rw [List.getLast?_map, this]
    rfl
  | error e => simp only [sendMessageTrace, sendMessage, List.getLast?_concat]

/-- C22, the claim as stated fails: when the render after each update happens
before the next token arrives, an exchange that streams two tokens causes three
writes under the user's key, one per value of the history, not one. -/
theorem one_write_per_rendered_update :
    storageWrites "u1" (sendMessageTrace [] "Hello" ["Hi", " there"] (.ok ()))
        [true, true] =
      [("echo_conv_u1", JSON.stringify [{ role := .user, content := "Hello" }]),
       ("echo_conv_u1", JSON.stringify [{ role := .assistant, content := "Hi" }]),
       ("echo_conv_u1", JSON.stringify [{ role := .assistant, content := "Hi there" }])] ∧
    (storageWrites "u1" (sendMessageTrace [] "Hello" ["Hi", " there"] (.ok ()))
        [true, true]).length ≠ 1 := by
  decide

/-- C22, amended: every write of the save effect is a whole-history overwrite
under the user's key, and the last one stores the settled history; the effect
runs after every render that commits a new value of the history, so that an
exchange of n tokens causes between 1 and n + 1 writes (n + 2 when it throws):
n + 1 (or n + 2) when every update is rendered before the next one, and 1 only
when all its updates are batched into one render. -/
theorem history_writes (userId : String) (h : List Message) (msg : String)
    (tokens : List String) (outcome : Except JsError Unit) (flush : List Bool) :
    (∀ wr ∈ storageWrites userId (sendMessageTrace h msg tokens outcome) flush,
      ∃ hist ∈ sendMessageTrace h msg tokens outcome,
        wr = (storageKey userId, JSON.stringify hist)) ∧
    (storageWrites userId (sendMessageTrace h msg tokens outcome) flush).getLast? =
      some (storageKey userId, JSON.stringify (sendMessage h msg tokens outcome)) ∧
    1 ≤ (storageWrites userId (sendMessageTrace h msg tokens outcome) flush).length ∧
    (storageWrites userId (sendMessageTrace h msg tokens outcome) flush).length ≤
      tokens.length + (match outcome with | .ok _ => 1 | .error _ => 2) ∧
    (storageWrites userId (sendMessageTrace h msg tokens outcome)
      (List.replicate (tokens.length + 1) true)).length =
      tokens.length + (match outcome with | .ok _ => 1 | .error _ => 2) ∧
    (storageWrites userId (sendMessageTrace h msg tokens outcome) []).length = 1 := by
  have hlast := sendMessageTrace_getLast h msg tokens outcome
  have hlen := sendMessageTrace_length h msg tokens outcome
  have hcl : ∀ f, (committed (sendMessageTrace h msg tokens outcome) f).getLast? =
      some (sendMessage h msg tokens outcome) := fun f => by rw [committed_getLast, hlast]
  have hpos : ∀ f, 1 ≤ (committed (sendMessageTrace h msg tokens outcome) f).length := by
    intro f
    cases hc : committed (sendMessageTrace h msg tokens outcome) f with
    | nil => have := hcl f; rw [hc] at this; simp at this
    | cons a l => simp
  refine ⟨?_, ?_, ?_, ?_, ?_, ?_⟩
  · intro wr hwr
    simp only [storageWrites, List.mem_map] at hwr
    obtain ⟨hist, hmem, rfl⟩ := hwr
    exact ⟨hist, committed_mem _ _ hist hmem, rfl⟩
  · simp only [storageWrites, List.getLast?_map, hcl]
    rfl
  · simpa [storageWrites] using hpos flush
  · have := committed_length_le (sendMessageTrace h msg tokens outcome) flush
    simp only [storageWrites, List.length_map]
    omega
  · simp only [storageWrites, List.length_map]
    rw [committed_all _ _ (by rw [hlen]; cases outcome <;> simp), hlen]
  · simp only [storageWrites, List.length_map]
    have hnil : ∀ l : List (List Message), l ≠ [] → (committed l []).length = 1 := by
      intro l
      induction l with
      | nil => intro hl; exact absurd rfl hl
      | cons a rest ih =>
        intro _
        cases rest with
        | nil => simp [committed]
        | cons g rest =>
          rw [committed_cons_cons]
          simpa using ih (List.cons_ne_nil _ _)
    apply hnil
    intro hnil'
    rw [hnil'] at hlen
    cases outcome <;> simp at hlen

/-! ## Numbers of the host: rounding -/

theorem pow2_eq (e : Int) : pow2 e = (2 : ℚ) ^ e := by
  unfold pow2
  split
  · rename_i h
    have h1 : ((e.toNat : Int)) = e := Int.toNat_of_nonneg h
    rw [Nat.cast_pow, Nat.cast_ofNat, ← zpow_natCast, h1]
  · rename_i h
    have h1 : (((-e).toNat : Int)) = -e := Int.toNat_of_nonneg (by omega)
    rw [Nat.cast_pow, Nat.cast_ofNat, one_div, ← zpow_natCast, h1, zpow_neg, inv_inv]

theorem pow2_pos (e : Int) : 0 < pow2 e := by
  rw [pow2_eq]; positivity

theorem pow2_le {a b : Int} (h : a ≤ b) : pow2 a ≤ pow2 b := by
  rw [pow2_eq, pow2_eq]
  exact zpow_le_zpow_right₀ (by norm_num) h

theorem pow2_lt_iff {a b : Int} : pow2 a < pow2 b ↔ a < b := by
  rw [pow2_eq, pow2_eq]
  exact zpow_lt_zpow_iff_right₀ (by norm_num)

theorem pow2_add (a b : Int) : pow2 (a + b) = pow2 a * pow2 b := by
  rw [pow2_eq, pow2_eq, pow2_eq]
  exact zpow_add₀ (by norm_num) a b

theorem pow2_natCast (n : Nat) : pow2 (n : Int) = (2 : ℚ) ^ n := by
  rw [pow2_eq, zpow_natCast]

theorem log2Fuel_spec : ∀ (fuel n : Nat), n ≤ fuel → 0 < n →
    2 ^ log2Fuel fuel n ≤ n ∧ n < 2 ^ (log2Fuel fuel n + 1)
  | 0, n, h, h0 => by omega
  | fuel + 1, n, h, h0 => by
    unfold log2Fuel
    split
    · simp; omega
    · have ih := log2Fuel_spec fuel (n / 2) (by omega) (by omega)
      rw [pow_succ] at ih
      rw [pow_succ, pow_succ, pow_succ]
      generalize 2 ^ log2Fuel fuel (n / 2) = P at ih
      omega

theorem natLog2_spec (n : Nat) (h : 0 < n) :
    2 ^ natLog2 n ≤ n ∧ n < 2 ^ (natLog2 n + 1) :=
  log2Fuel_spec n n (le_refl n) h

theorem binade_spec (a : ℚ) (ha : 0 < a) :
    pow2 (binade a) ≤ a ∧ a < pow2 (binade a + 1) := by
  have hnum : 0 < a.num := Rat.num_pos.mpr ha
  have hp0 : 0 < a.num.natAbs := Int.natAbs_pos.mpr (ne_of_gt hnum)
  have hd0 : 0 < a.den := a.den_pos
  obtain ⟨hp1, hp2⟩ := natLog2_spec a.num.natAbs hp0
  obtain ⟨hd1, hd2⟩ := natLog2_spec a.den hd0
  have ha_eq : a = (a.num.natAbs : ℚ) / (a.den : ℚ) := by
    have h2 : ((a.num.natAbs : ℚ)) = (a.num : ℚ) := by
      rw [Nat.cast_natAbs, abs_of_pos hnum]
    rw [h2]
    exact (Rat.num_div_den a).symm
  set p : ℚ := (a.num.natAbs : ℚ) with hp
  set d : ℚ := (a.den : ℚ) with hd
  have hP1 : (2 : ℚ) ^ natLog2 a.num.natAbs ≤ p := by
    rw [hp]; exact_mod_cast hp1
  have hP2 : p < (2 : ℚ) ^ natLog2 a.num.natAbs * 2 := by
    rw [hp, ← pow_succ]; exact_mod_cast hp2
  have hD1 : (2 : ℚ) ^ natLog2 a.den ≤ d := by
    rw [hd]; exact_mod_cast hd1
  have hD2 : d < (2 : ℚ) ^ natLog2 a.den * 2 := by
    rw [hd, ← pow_succ]; exact_mod_cast hd2
  have hPpos : (0 : ℚ) < (2 : ℚ) ^ natLog2 a.num.natAbs := by positivity
  have hDpos : (0 : ℚ) < (2 : ℚ) ^ natLog2 a.den := by positivity
  have hdpos : (0 : ℚ) < d := by rw [hd]; exact_mod_cast hd0
  have hppos : (0 : ℚ) < p := by rw [hp]; exact_mod_cast hp0
  have he0 : pow2 ((natLog2 a.num.natAbs : Int) - (natLog2 a.den : Int)) =
      (2 : ℚ) ^ natLog2 a.num.natAbs / (2 : ℚ) ^ natLog2 a.den := by
    rw [pow2_eq, zpow_sub₀ (by norm_num), zpow_natCast, zpow_natCast]
  generalize (2 : ℚ) ^ natLog2 a.num.natAbs = P at *
  generalize (2 : ℚ) ^ natLog2 a.den = D at *
  unfold binade
  split
  · rename_i h
    refine ⟨h, ?_⟩
    rw [pow2_add, he0]
    have : pow2 1 = 2 := by rw [pow2_eq]; norm_num
    rw [this, ha_eq, div_mul_eq_mul_div, div_lt_div_iff₀ hdpos hDpos]
    nlinarith
  · rename_i h
    push_neg at h
    have hsub : pow2 ((natLog2 a.num.natAbs : Int) - (natLog2 a.den : Int) - 1) = P / D / 2 := by
      rw [sub_eq_add_neg, pow2_add, he0]
      have : pow2 (-1) = 1 / 2 := by rw [pow2_eq]; norm_num
      rw [this]; ring
    refine ⟨?_, ?_⟩
    · rw [hsub, ha_eq, div_div, div_le_div_iff₀ (by positivity) hdpos]
      nlinarith
    · rw [sub_add_cancel]
      exact h

theorem binade_mono (a b : ℚ) (ha : 0 < a) (hab : a ≤ b) : binade a ≤ binade b := by
  by_contra h
  push_neg at h
  have h1 := (binade_spec a ha).1
  have h2 := (binade_spec b (lt_of_lt_of_le ha hab)).2
  have h3 : pow2 (binade b + 1) ≤ pow2 (binade a) := pow2_le (by omega)
  linarith

theorem ulpOf_pos (a : ℚ) : 0 < ulpOf a := pow2_pos _

theorem roundHalfEven_bounds (y : ℚ) : ⌊y⌋ ≤ roundHalfEven y ∧ roundHalfEven y ≤ ⌊y⌋ + 1 := by
  unfold roundHalfEven
  split_ifs <;> omega

theorem roundHalfEven_err (y : ℚ) : |(roundHalfEven y : ℚ) - y| ≤ 1 / 2 := by
  have h1 := Int.floor_le y
  have h2 := Int.lt_floor_add_one y
  unfold roundHalfEven
  rw [abs_le]
  split_ifs <;> push_cast <;> constructor <;> linarith

theorem roundHalfEven_intCast (n : Int) : roundHalfEven (n : ℚ) = n := by
  unfold roundHalfEven
  simp

theorem roundHalfEven_mono (y₁ y₂ : ℚ) (h : y₁ ≤ y₂) : roundHalfEven y₁ ≤ roundHalfEven y₂ := by
  have hf : ⌊y₁⌋ ≤ ⌊y₂⌋ := Int.floor_mono h
  rcases lt_or_eq_of_le hf with hlt | heq
  · have := (roundHalfEven_bounds y₁).2
    have := (roundHalfEven_bounds y₂).1
    omega
  · unfold roundHalfEven
    rw [heq]
    split_ifs <;> first | omega | (exfalso; linarith)

theorem roundVal_nonneg (a : ℚ) (ha : 0 ≤ a) : 0 ≤ roundVal a := by
  unfold roundVal
  have hu := ulpOf_pos a
  have h0 : (0 : Int) ≤ roundHalfEven (a / ulpOf a) := by
    have := roundHalfEven_mono 0 (a / ulpOf a) (by positivity)
    rw [show (0 : ℚ) = ((0 : Int) : ℚ) by norm_num, roundHalfEven_intCast] at this
    exact this
  have : (0 : ℚ) ≤ (roundHalfEven (a / ulpOf a) : ℚ) := by exact_mod_cast h0
  positivity

theorem roundVal_err (a : ℚ) : |roundVal a - a| ≤ ulpOf a / 2 := by
  have hu := ulpOf_pos a
  have h := roundHalfEven_err (a / ulpOf a)
  unfold roundVal
  have h1 : (roundHalfEven (a / ulpOf a) : ℚ) * ulpOf a - a =
      ((roundHalfEven (a / ulpOf a) : ℚ) - a / ulpOf a) * ulpOf a := by
    field_simp
  rw [h1, abs_mul, abs_of_pos hu]
  nlinarith

theorem roundVal_mono (a b : ℚ) (ha : 0 < a) (hab : a ≤ b) : roundVal a ≤ roundVal b := by
  have hb : 0 < b := lt_of_lt_of_le ha hab
  have hbin := binade_mono a b ha hab
  have hE : max (binade a) (-1022) ≤ max (binade b) (-1022) := max_le_max hbin (le_refl _)
  rcases lt_or_eq_of_le hE with hlt | heq
  · -- the binades differ
    have hua := ulpOf_pos a
    have hub := ulpOf_pos b
    have hEb : max (binade b) (-1022) = binade b := by
      rcases le_total (binade b) (-1022) with h | h
      · rw [max_eq_right h] at hlt
        have := le_max_right (binade a) (-1022)
        omega
      · exact max_eq_left h
    -- roundVal a ≤ 2 ^ (E a + 1)
    have h1 : roundVal a ≤ pow2 (max (binade a) (-1022) + 1) := by
      have ha2 := (binade_spec a ha).2
      have ha3 : a < pow2 (max (binade a) (-1022) + 1) :=
        lt_of_lt_of_le ha2 (pow2_le (by have := le_max_left (binade a) (-1022); omega))
      have hsplit : pow2 (max (binade a) (-1022) + 1) = ((2 ^ 53 : Int) : ℚ) * ulpOf a := by
        have h53 : ((2 ^ 53 : Int) : ℚ) = pow2 53 := by rw [pow2_eq]; norm_num
        unfold ulpOf
        rw [h53, ← pow2_add]
        congr 1
        ring
      have hy : a / ulpOf a ≤ ((2 ^ 53 : Int) : ℚ) := by
        rw [div_le_iff₀ hua, ← hsplit]
        exact le_of_lt ha3
      have := roundHalfEven_mono _ _ hy
      rw [roundHalfEven_intCast] at this
      unfold roundVal
      rw [hsplit]
      have h' : (roundHalfEven (a / ulpOf a) : ℚ) ≤ ((2 ^ 53 : Int) : ℚ) := by exact_mod_cast this
      exact mul_le_mul_of_nonneg_right h' (le_of_lt hua)
    -- 2 ^ (E b) ≤ roundVal b
    have h2 : pow2 (max (binade b) (-1022)) ≤ roundVal b := by
      have hb1 := (binade_spec b hb).1
      rw [← hEb] at hb1
      have hsplit : pow2 (max (binade b) (-1022)) = ((2 ^ 52 : Int) : ℚ) * ulpOf b := by
        have h52 : ((2 ^ 52 : Int) : ℚ) = pow2 52 := by rw [pow2_eq]; norm_num
        unfold ulpOf
        rw [h52, ← pow2_add]
        congr 1
        ring
      have hy : ((2 ^ 52 : Int) : ℚ) ≤ b / ulpOf b := by
        rw [le_div_iff₀ hub, ← hsplit]
        exact hb1
      have := roundHalfEven_mono _ _ hy
      rw [roundHalfEven_intCast] at this
      unfold roundVal
      rw [hsplit]
      have h' : ((2 ^ 52 : Int) : ℚ) ≤ (roundHalfEven (b / ulpOf b) : ℚ) := by exact_mod_cast this
      exact mul_le_mul_of_nonneg_right h' (le_of_lt hub)
    have h3 : pow2 (max (binade a) (-1022) + 1) ≤ pow2 (max (binade b) (-1022)) :=
      pow2_le (by omega)
    linarith
  · -- the same binade
    have hu : ulpOf a = ulpOf b := by unfold ulpOf; rw [heq]
    have hub := ulpOf_pos b
    unfold roundVal
    rw [hu]
    have hy : a / ulpOf b ≤ b / ulpOf b := div_le_div_of_nonneg_right hab (le_of_lt hub)
    have := roundHalfEven_mono _ _ hy
    have h' : (roundHalfEven (a / ulpOf b) : ℚ) ≤ (roundHalfEven (b / ulpOf b) : ℚ) := by
      exact_mod_cast this
    exact mul_le_mul_of_nonneg_right h' (le_of_lt hub)

theorem roundVal_natCast (k : Nat) (hk0 : 0 < k) (hk : k < 2 ^ 53) : roundVal (k : ℚ) = k := by
  have hkq : (0 : ℚ) < (k : ℚ) := by exact_mod_cast hk0
  have hb := (binade_spec (k : ℚ) hkq).1
  have hlt : pow2 (binade (k : ℚ)) < pow2 53 := by
    have : ((k : ℚ)) < pow2 53 := by
      rw [pow2_eq]; norm_num
      exact_mod_cast hk
    linarith
  have hbin : binade (k : ℚ) < 53 := pow2_lt_iff.mp hlt
  have hE : max (binade (k : ℚ)) (-1022) ≤ 52 := max_le (by omega) (by norm_num)
  obtain ⟨n, hn⟩ : ∃ n : Nat, (n : Int) = 52 - max (binade (k : ℚ)) (-1022) :=
    ⟨(52 - max (binade (k : ℚ)) (-1022)).toNat, Int.toNat_of_nonneg (by omega)⟩
  have hulp : ulpOf (k : ℚ) * (2 : ℚ) ^ n = 1 := by
    unfold ulpOf
    rw [← pow2_natCast, ← pow2_add, hn]
    have : max (binade (k : ℚ)) (-1022) - 52 + (52 - max (binade (k : ℚ)) (-1022)) = 0 := by ring
    rw [this, pow2_eq]; norm_num
  have hu := ulpOf_pos (k : ℚ)
  have hy : (k : ℚ) / ulpOf (k : ℚ) = (((k * 2 ^ n : Nat) : Int) : ℚ) := by
    rw [div_eq_iff (ne_of_gt hu)]
    push_cast
    rw [mul_assoc, mul_comm ((2 : ℚ) ^ n), hulp, mul_one]
  unfold roundVal
  rw [hy, roundHalfEven_intCast]
  push_cast
  rw [mul_assoc, mul_comm ((2 : ℚ) ^ n), hulp, mul_one]

theorem fl_of_pos (q : ℚ) (hq : 0 < q) :
    fl q = if roundVal q < pow2 1024 then .fin (roundVal q) else .posInf := by
  unfold fl
  rw [if_neg (ne_of_gt hq), if_pos hq]

theorem fl_of_neg (q : ℚ) (hq : q < 0) :
    fl q = if roundVal (-q) < pow2 1024 then .fin (-roundVal (-q)) else .negInf := by
  unfold fl
  rw [if_neg (ne_of_lt hq), if_neg (not_lt.mpr (le_of_lt hq))]

theorem fl_zero : fl 0 = .fin 0 := by
  unfold fl
  rw [if_pos rfl]

theorem fl_natCast (k : Nat) (hk : k < 2 ^ 53) : fl (k : ℚ) = .fin (k : ℚ) := by
  rcases Nat.eq_zero_or_pos k with h0 | h0
  · subst h0
    simpa using fl_zero
  · have hkq : (0 : ℚ) < (k : ℚ) := by exact_mod_cast h0
    rw [fl_of_pos _ hkq, roundVal_natCast k h0 hk, if_pos]
    have h1 : (k : ℚ) < pow2 53 := by
      rw [pow2_eq]; norm_num
      exact_mod_cast hk
    have h2 : pow2 53 ≤ pow2 1024 := pow2_le (by norm_num)
    linarith

theorem fl_le_of_le (q M : ℚ) (h0 : 0 ≤ q) (hqM : q ≤ M) (hM : fl M = .fin M) :
    ∃ v, fl q = .fin v ∧ 0 ≤ v ∧ v ≤ M := by
  rcases eq_or_lt_of_le h0 with h | hpos
  · exact ⟨0, by rw [← h]; exact fl_zero, le_refl 0, by rw [← h] at hqM; exact hqM⟩
  · have hMpos : 0 < M := lt_of_lt_of_le hpos hqM
    rw [fl_of_pos M hMpos] at hM
    have hM' : roundVal M < pow2 1024 ∧ roundVal M = M := by
      by_cases h : roundVal M < pow2 1024
      · rw [if_pos h] at hM
        exact ⟨h, by injection hM⟩
      · rw [if_neg h] at hM
        exact absurd hM (by simp)
    have hmono := roundVal_mono q M hpos hqM
    rw [hM'.2] at hmono
    refine ⟨roundVal q, ?_, roundVal_nonneg q h0, hmono⟩
    rw [fl_of_pos q hpos, if_pos]
    have := hM'.1
    rw [hM'.2] at this
    linarith

theorem fl_nonneg (q : ℚ) (hq : 0 ≤ q) : fl q = .posInf ∨ ∃ v, 0 ≤ v ∧ fl q = .fin v := by
  rcases eq_or_lt_of_le hq with h | hpos
  · exact Or.inr ⟨0, le_refl 0, by rw [← h]; exact fl_zero⟩
  · rw [fl_of_pos q hpos]
    by_cases h : roundVal q < pow2 1024
    · rw [if_pos h]
      exact Or.inr ⟨_, roundVal_nonneg q hq, rfl⟩
    · rw [if_neg h]
      exact Or.inl rfl

theorem fl_nonpos (q : ℚ) (hq : q ≤ 0) : fl q = .negInf ∨ ∃ v, v ≤ 0 ∧ fl q = .fin v := by
  rcases eq_or_lt_of_le hq with h | hneg
  · exact Or.inr ⟨0, le_refl 0, by rw [h]; exact fl_zero⟩
  · rw [fl_of_neg q hneg]
    by_cases h : roundVal (-q) < pow2 1024
    · rw [if_pos h]
      have := roundVal_nonneg (-q) (by linarith)
      exact Or.inr ⟨_, by linarith, rfl⟩
    · rw [if_neg h]
      exact Or.inl rfl

theorem floor_fl_div (T D : Nat) (hD0 : 0 < D) (hD : D < 2 ^ 22) (hT : T < D * 2 ^ 32) :
    mathFloor ((JsNumber.fin (T : ℚ)).div (.fin (D : ℚ))) = .fin (((T / D : Nat) : ℚ)) := by
  have hDq : (0 : ℚ) < (D : ℚ) := by exact_mod_cast hD0
  have hdiv : (JsNumber.fin (T : ℚ)).div (.fin (D : ℚ)) = fl ((T : ℚ) / D) := by
    simp only [JsNumber.div]
    rw [if_neg (ne_of_gt hDq)]
  rw [hdiv]
  -- the exact quotient lies between k and k + 1 - 1 / D
  have hk_le : ((T / D : Nat) : ℚ) ≤ (T : ℚ) / D := Nat.cast_div_le
  have hk_up : (T : ℚ) / D + 1 / D ≤ ((T / D : Nat) : ℚ) + 1 := by
    rw [← add_div, div_le_iff₀ hDq]
    have h1 : T + 1 ≤ (T / D + 1) * D := by
      have := Nat.div_add_mod T D
      have := Nat.mod_lt T hD0
      nlinarith
    exact_mod_cast h1
  have hDinv : (1 : ℚ) / 2 ^ 22 < 1 / D := by
    apply one_div_lt_one_div_of_lt hDq
    exact_mod_cast hD
  have hq32 : (T : ℚ) / D < pow2 32 := by
    rw [div_lt_iff₀ hDq, pow2_eq]
    norm_num
    have : (T : ℚ) < (D : ℚ) * 2 ^ 32 := by exact_mod_cast hT
    linarith
  rcases Nat.eq_zero_or_pos T with hT0 | hT0
  · subst hT0
    simp [fl_zero, mathFloor]
  · have hq : (0 : ℚ) < (T : ℚ) / D := by
      have : (0 : ℚ) < (T : ℚ) := by exact_mod_cast hT0
      positivity
    -- the rounded quotient lies between k and k + 1
    have hlow : ((T / D : Nat) : ℚ) ≤ roundVal ((T : ℚ) / D) := by
      rcases Nat.eq_zero_or_pos (T / D) with hk0 | hk0
      · rw [hk0]
        simpa using roundVal_nonneg _ (le_of_lt hq)
      · have hk53 : T / D < 2 ^ 53 := by
          have : T / D ≤ T := Nat.div_le_self T D
          have : T / D < 2 ^ 32 := by
            apply Nat.div_lt_of_lt_mul
            exact hT
          omega
        have := roundVal_mono ((T / D : Nat) : ℚ) ((T : ℚ) / D) (by exact_mod_cast hk0) hk_le
        rw [roundVal_natCast _ hk0 hk53] at this
        exact this
    have hulp : ulpOf ((T : ℚ) / D) ≤ 1 / 2 ^ 21 := by
      have hb := (binade_spec _ hq).1
      have hbin : binade ((T : ℚ) / D) < 32 := pow2_lt_iff.mp (lt_of_le_of_lt hb hq32)
      have hE : max (binade ((T : ℚ) / D)) (-1022) - 52 ≤ -21 := by
        have : max (binade ((T : ℚ) / D)) (-1022) ≤ 31 := max_le (by omega) (by norm_num)
        omega
      have := pow2_le hE
      unfold ulpOf
      have h21 : pow2 (-21) = 1 / 2 ^ 21 := by rw [pow2_eq]; norm_num
      rw [h21] at this
      exact this
    have herr := roundVal_err ((T : ℚ) / D)
    rw [abs_le] at herr
    have hup : roundVal ((T : ℚ) / D) < ((T / D : Nat) : ℚ) + 1 := by
      have h22 : (1 : ℚ) / 2 ^ 21 / 2 = 1 / 2 ^ 22 := by norm_num
      linarith [herr.2]
    have hfin : roundVal ((T : ℚ) / D) < pow2 1024 := by
      have h1 : ((T / D : Nat) : ℚ) + 1 ≤ pow2 32 + 1 := by linarith
      have h2 : pow2 32 + 1 < pow2 1024 := by
        rw [pow2_eq, pow2_eq]; norm_num
      linarith
    rw [fl_of_pos _ hq, if_pos hfin]
    simp only [mathFloor]
    congr 1
    have : ⌊roundVal ((T : ℚ) / D)⌋ = ((T / D : Nat) : Int) := by
      rw [Int.floor_eq_iff]
      constructor
      · exact_mod_cast hlow
      · exact_mod_cast hup
    rw [this, Int.cast_natCast]

theorem rem_natCast (T D : Nat) (hD0 : 0 < D) :
    (JsNumber.fin (T : ℚ)).rem (.fin (D : ℚ)) = .fin (((T % D : Nat) : ℚ)) := by
  have hDq : (0 : ℚ) < (D : ℚ) := by exact_mod_cast hD0
  simp only [JsNumber.rem]
  rw [if_neg (ne_of_gt hDq)]
  congr 1
  have hq : (0 : ℚ) ≤ (T : ℚ) / D := by positivity
  unfold trunc
  rw [if_pos hq, Rat.floor_natCast_div_natCast, ← Int.natCast_div, Int.cast_natCast]
  have := Nat.div_add_mod T D
  have h2 : ((D * (T / D) + T % D : Nat) : ℚ) = (T : ℚ) := by rw [this]
  push_cast at h2
  linarith

theorem numberToString_natCast (host : JsNumber → String) (n : Nat) (h : n < 10 ^ 21) :
    numberToString host (.fin (n : ℚ)) = toString n := by
  simp only [numberToString, Rat.den_natCast, Rat.num_natCast, Int.natAbs_ofNat]
  rw [if_pos ⟨trivial, h⟩, if_neg (by omega)]
  rfl

/-! ## Claim C29: the SRT time stamp -/

theorem toDigitsCore_length_lt (fuel n : Nat) (ds : List Char) (hf : fuel ≠ 0) :
    ds.length < (Nat.toDigitsCore 10 fuel n ds).length := by
  induction fuel generalizing n ds with
  | zero => exact absurd rfl hf
  | succ fuel ih =>
    simp only [Nat.toDigitsCore]
    split
    · simp
    · cases fuel with
      | zero => simp [Nat.toDigitsCore]
      | succ f =>
        have := ih (n / 10) (Nat.digitChar (n % 10) :: ds) (Nat.succ_ne_zero f)
        simp only [List.length_cons] at this
        omega

theorem toString_length_pos (n : Nat) : 1 ≤ (toString n).length := by
  have := toDigitsCore_length_lt (n + 1) n [] (Nat.succ_ne_zero n)
  exact this

theorem toString_length_le (n e : Nat) (he : 0 < e) (h : n < 10 ^ e) :
    (toString n).length ≤ e :=
  Nat.repr_length n e he h

theorem digitChar_isDigit (d : Nat) (h : d < 10) : (Nat.digitChar d).isDigit = true := by
  interval_cases d <;> rfl

theorem toDigitsCore_isDigit (fuel n : Nat) (ds : List Char)
    (hds : ∀ c ∈ ds, c.isDigit = true) :
    ∀ c ∈ Nat.toDigitsCore 10 fuel n ds, c.isDigit = true := by
  induction fuel generalizing n ds with
  | zero => simpa [Nat.toDigitsCore] using hds
  | succ fuel ih =>
    have hd := digitChar_isDigit (n % 10) (Nat.mod_lt n (by omega))
    have hcons : ∀ c ∈ Nat.digitChar (n % 10) :: ds, c.isDigit = true := by
      intro c hc
      rcases List.mem_cons.mp hc with hc | hc
      · rw [hc]; exact hd
      · exact hds c hc
    simp only [Nat.toDigitsCore]
    split
    · exact hcons
    · exact ih (n / 10) _ hcons

theorem padNat_isDigit (n len : Nat) : ∀ c ∈ (padNat n len).data, c.isDigit = true := by
  intro c hc
  simp only [padNat, padStart, List.mem_append, List.mem_replicate] at hc
  rcases hc with ⟨_, hc⟩ | hc
  · rw [hc]; rfl
  · exact toDigitsCore_isDigit (n + 1) n [] (by simp) c hc

theorem padNat_length (n len : Nat) : (padNat n len).length = max len (toString n).length := by
  have h : (padNat n len).length = (len - (toString n).length) + (toString n).length := by
    show (List.replicate (len - (toString n).length) '0' ++ (toString n).data).length = _
    rw [List.length_append, List.length_replicate]
    rfl
  rw [h, max_def]
  split <;> omega

theorem foldl_zeros (k : Nat) (l : List Char) :
    List.foldl (fun acc c => 10 * acc + (c.toNat - 48)) 0 (List.replicate k '0' ++ l) =
      List.foldl (fun acc c => 10 * acc + (c.toNat - 48)) 0 l := by
  induction k with
  | zero => rfl
  | succ k ih =>
    rw [List.replicate_succ, List.cons_append, List.foldl_cons]
    exact ih

theorem decimalValue_padNat (n len : Nat) : decimalValue (padNat n len) = n := by
  have h := decimalValue_toString n
  simp only [decimalValue, padNat, padStart] at h ⊢
  rw [foldl_zeros]
  exact h

theorem pad_natCast (host : JsNumber → String) (n len : Nat) (h : n < 10 ^ 21) :
    pad host (.fin (n : ℚ)) len = padNat n len := by
  unfold pad padNat
  rw [numberToString_natCast host n h]

theorem formatSrtTime_of_totalMs (host : JsNumber → String) (x : Option JsNumber) (T : Nat)
    (hx : totalMsOf x = .fin (T : ℚ)) (hT : T < 2 ^ 53) :
    formatSrtTime host x = exactSrtText T := by
  have h1 := floor_fl_div T 3600000 (by norm_num) (by norm_num) (by omega)
  have h2 := rem_natCast T 3600000 (by norm_num)
  have h3 := floor_fl_div (T % 3600000) 60000 (by norm_num) (by norm_num) (by omega)
  have h4 := rem_natCast T 60000 (by norm_num)
  have h5 := floor_fl_div (T % 60000) 1000 (by norm_num) (by norm_num) (by omega)
  have h6 := rem_natCast T 1000 (by norm_num)
  simp only [Nat.cast_ofNat] at h1 h2 h3 h4 h5 h6
  simp only [formatSrtTime, hx]
  rw [h2, h4, h6, h1, h3, h5]
  rw [pad_natCast host _ 2 (by omega), pad_natCast host _ 2 (by omega),
    pad_natCast host _ 2 (by omega), pad_natCast host _ 3 (by omega)]
  rfl

theorem totalMsOf_range (q : ℚ) (h0 : 0 ≤ q) (hq : q ≤ 9007199254740) :
    ∃ T : Nat, T < 2 ^ 53 ∧ totalMsOf (some (.fin q)) = .fin (T : ℚ) := by
  have hM : fl ((9007199254740000 : Nat) : ℚ) = .fin ((9007199254740000 : Nat) : ℚ) :=
    fl_natCast _ (by norm_num)
  obtain ⟨v, hv, hv0, hvM⟩ := fl_le_of_le (q * 1000) ((9007199254740000 : Nat) : ℚ)
    (by positivity) (by push_cast; linarith) hM
  have hz0 : 0 ≤ ⌊v + 1 / 2⌋ := Int.floor_nonneg.mpr (by linarith)
  have hzM : ⌊v + 1 / 2⌋ < 9007199254740001 := by
    rw [Int.floor_lt]
    push_cast at hvM ⊢
    linarith
  refine ⟨⌊v + 1 / 2⌋.toNat, by omega, ?_⟩
  have hmul : (numberOrZero (some (JsNumber.fin q))).mul (.fin 1000) = fl (q * 1000) := rfl
  simp only [totalMsOf, hmul, hv, mathRound, mathMax]
  congr 1
  have hcast : ((⌊v + 1 / 2⌋.toNat : Nat) : ℚ) = ((⌊v + 1 / 2⌋ : Int) : ℚ) := by
    have : ((⌊v + 1 / 2⌋.toNat : Nat) : Int) = ⌊v + 1 / 2⌋ := Int.toNat_of_nonneg hz0
    exact_mod_cast this
  rw [hcast]
  apply max_eq_right
  exact_mod_cast hz0

theorem totalMsOf_nonpos (q : ℚ) (hq : q ≤ 0) : totalMsOf (some (.fin q)) = .fin 0 := by
  have hmul : (numberOrZero (some (JsNumber.fin q))).mul (.fin 1000) = fl (q * 1000) := rfl
  have hq' : q * 1000 ≤ 0 := by linarith
  rcases fl_nonpos (q * 1000) hq' with h | ⟨v, hv, h⟩
  · simp only [totalMsOf, hmul, h, mathRound, mathMax]
  · simp only [totalMsOf, hmul, h, mathRound, mathMax]
    congr 1
    apply max_eq_left
    have : ⌊v + 1 / 2⌋ ≤ 0 := by
      have : ⌊v + 1 / 2⌋ < 1 := by
        rw [Int.floor_lt]
        push_cast
        linarith
      omega
    exact_mod_cast this

/-- C29, the claim as stated fails: 10^19 seconds is a binary64 value whose
millisecond count T = 10^22 is a non-negative whole number, yet the quotient
T / 3600000 is rounded up before `Math.floor` is applied, and the output is
2777777777777778:46:40,000, whose fields add up to T + 3600000, not to T. For
the input Infinity the output is Infinity:NaN:NaN,NaN. -/
theorem srt_fields_do_not_add_up :
    fl (10 ^ 19) = .fin (10 ^ 19) ∧
    totalMsOf (some (.fin (10 ^ 19))) = .fin (10 ^ 22) ∧
    (∀ host : JsNumber → String,
      formatSrtTime host (some (.fin (10 ^ 19))) = "2777777777777778:46:40,000") ∧
    2777777777777778 * 3600000 + 46 * 60000 + 40 * 1000 + 0 ≠ 10 ^ 22 ∧
    (∀ host : JsNumber → String,
      formatSrtTime host (some .posInf) = "Infinity:NaN:NaN,NaN") := by
  refine ⟨by decide!, by decide!, ?_, by norm_num, ?_⟩
  · intro host
    have e0 : totalMsOf (some (.fin (10 ^ 19))) = .fin (10 ^ 22) := by decide!
    have e1 : mathFloor ((JsNumber.fin (10 ^ 22)).div (.fin 3600000)) =
        .fin ((2777777777777778 : Nat) : ℚ) := by decide!
    have e2 : mathFloor (((JsNumber.fin (10 ^ 22)).rem (.fin 3600000)).div (.fin 60000)) =
        .fin ((46 : Nat) : ℚ) := by decide!
    have e3 : mathFloor (((JsNumber.fin (10 ^ 22)).rem (.fin 60000)).div (.fin 1000)) =
        .fin ((40 : Nat) : ℚ) := by decide!
    have e4 : (JsNumber.fin (10 ^ 22)).rem (.fin 1000) = .fin ((0 : Nat) : ℚ) := by decide!
    simp only [formatSrtTime, e0, e1, e2, e3, e4]
    rw [pad_natCast host _ 2 (by norm_num), pad_natCast host _ 2 (by norm_num),
      pad_natCast host _ 2 (by norm_num), pad_natCast host _ 3 (by norm_num)]
    decide
  · intro host
    have e0 : totalMsOf (some .posInf) = .posInf := by decide!
    have e1 : mathFloor ((JsNumber.posInf).div (.fin 3600000)) = .posInf := by decide!
    have e2 : mathFloor (((JsNumber.posInf).rem (.fin 3600000)).div (.fin 60000)) = .nan := by
      decide!
    have e3 : mathFloor (((JsNumber.posInf).rem (.fin 60000)).div (.fin 1000)) = .nan := by
      decide!
    have e4 : (JsNumber.posInf).rem (.fin 1000) = .nan := by decide!
    simp only [formatSrtTime, e0, e1, e2, e3, e4]
    rfl

/-- C29, amended: whenever the millisecond count T of the input, the value of
`Math.max(0, Math.round(Number(secondsFloat || 0) * 1000))`, is a whole number
below 2^53, the output is the hours, a colon, the minutes, a colon, the seconds,
a comma and the milliseconds of T, each a string of decimal digits denoting its
number: the hours in two digits or more, the minutes and the seconds in exactly
two and below 60, the milliseconds in exactly three and below 1000, the four
numbers adding up to T. Every number of seconds from 0 to 9007199254740 has
such a T. A missing input, NaN, zero, every negative number and -Infinity give
00:00:00,000. -/
theorem formatSrtTime_shape :
    (∀ (host : JsNumber → String) (x : Option JsNumber) (T : Nat),
      totalMsOf x = .fin (T : ℚ) → T < 2 ^ 53 →
      formatSrtTime host x =
        padNat (T / 3600000) 2 ++ ":" ++ padNat (T % 3600000 / 60000) 2 ++ ":" ++
        padNat (T % 60000 / 1000) 2 ++ "," ++ padNat (T % 1000) 3 ∧
      2 ≤ (padNat (T / 3600000) 2).length ∧
      (padNat (T % 3600000 / 60000) 2).length = 2 ∧
      (padNat (T % 60000 / 1000) 2).length = 2 ∧
      (padNat (T % 1000) 3).length = 3 ∧
      decimalValue (padNat (T / 3600000) 2) = T / 3600000 ∧
      decimalValue (padNat (T % 3600000 / 60000) 2) = T % 3600000 / 60000 ∧
      decimalValue (padNat (T % 60000 / 1000) 2) = T % 60000 / 1000 ∧
      decimalValue (padNat (T % 1000) 3) = T % 1000 ∧
      (∀ (n len : Nat), ∀ c ∈ (padNat n len).data, c.isDigit = true) ∧
      T % 3600000 / 60000 < 60 ∧ T % 60000 / 1000 < 60 ∧ T % 1000 < 1000 ∧
      T / 3600000 * 3600000 + T % 3600000 / 60000 * 60000 + T % 60000 / 1000 * 1000 +
        T % 1000 = T) ∧
    (∀ q : ℚ, 0 ≤ q → q ≤ 9007199254740 →
      ∃ T : Nat, T < 2 ^ 53 ∧ totalMsOf (some (.fin q)) = .fin (T : ℚ)) ∧
    (∀ host : JsNumber → String,
      formatSrtTime host (some (fl (3723004 / 1000))) = "01:02:03,004" ∧
      formatSrtTime host (some (fl (5005 / 10000))) = "00:00:00,500" ∧
      formatSrtTime host (some (.fin 360000)) = "100:00:00,000" ∧
      formatSrtTime host none = "00:00:00,000" ∧
      formatSrtTime host (some .nan) = "00:00:00,000" ∧
      formatSrtTime host (some .negInf) = "00:00:00,000" ∧
      ∀ q : ℚ, q ≤ 0 → formatSrtTime host (some (.fin q)) = "00:00:00,000") := by
  refine ⟨?_, totalMsOf_range, ?_⟩
  · intro host x T hx hT
    have hm : T % 3600000 / 60000 < 60 := by omega
    have hs : T % 60000 / 1000 < 60 := by omega
    have hms : T % 1000 < 1000 := by omega
    have l2 : ∀ n, n < 60 → (padNat n 2).length = 2 := by
      intro n hn
      have h1 := toString_length_pos n
      have h2 := toString_length_le n 2 (by omega) (by omega)
      rw [padNat_length]
      omega
    have l3 : (padNat (T % 1000) 3).length = 3 := by
      have h1 := toString_length_pos (T % 1000)
      have h2 := toString_length_le (T % 1000) 3 (by omega) (by omega)
      rw [padNat_length]
      omega
    refine ⟨formatSrtTime_of_totalMs host x T hx hT, ?_, l2 _ hm, l2 _ hs, l3,
      decimalValue_padNat _ _, decimalValue_padNat _ _, decimalValue_padNat _ _,
      decimalValue_padNat _ _, padNat_isDigit, hm, hs, hms, ?_⟩
    · rw [padNat_length]
      omega
    · omega
  · intro host
    have z : ∀ x, totalMsOf x = .fin ((0 : Nat) : ℚ) → formatSrtTime host x = "00:00:00,000" := by
      intro x hx
      rw [formatSrtTime_of_totalMs host x 0 hx (by norm_num)]
      decide
    refine ⟨?_, ?_, ?_, z _ (by decide!), z _ (by decide!), z _ (by decide!), ?_⟩
    · rw [formatSrtTime_of_totalMs host _ 3723004 (by decide!) (by norm_num)]
      decide
    · rw [formatSrtTime_of_totalMs host _ 500 (by decide!) (by norm_num)]
      decide
    · rw [formatSrtTime_of_totalMs host _ 360000000 (by decide!) (by norm_num)]
      decide
    · intro q hq
      apply z
      rw [totalMsOf_nonpos q hq]
      simp

/-! ## Claim C30: the monthly usage -/

theorem getTranscriptionUsage_minutes (limit : JsNumber) (stored : StoredUsage) (now : String) :
    (getTranscriptionUsage limit stored now).minutesUsed.toNumber = previousMinutes stored now := by
  cases stored with
  | absent => rfl
  | unreadable => rfl
  | record u =>
    by_cases hm : u.month = now
    · simp [getTranscriptionUsage, previousMinutes, hm]
    · simp [getTranscriptionUsage, previousMinutes, hm, NumberOrNull.toNumber]

theorem getTranscriptionUsage_record (limit : JsNumber) (m : NumberOrNull) (now : String) :
    (getTranscriptionUsage limit (.record { minutesUsed := m, month := now }) now).minutesUsed =
      m := by
  simp [getTranscriptionUsage]

theorem mathMax_zero_fl (q : ℚ) :
    mathMax (.fin 0) (fl q) = .posInf ∨ ∃ u, 0 ≤ u ∧ mathMax (.fin 0) (fl q) = .fin u := by
  rcases le_total 0 q with h | h
  · rcases fl_nonneg q h with h1 | ⟨v, hv, h1⟩
    · rw [h1]; exact Or.inl rfl
    · rw [h1]; exact Or.inr ⟨max 0 v, le_max_left _ _, rfl⟩
  · rcases fl_nonpos q h with h1 | ⟨v, hv, h1⟩
    · rw [h1]; exact Or.inr ⟨0, le_refl 0, rfl⟩
    · rw [h1]; exact Or.inr ⟨max 0 v, le_max_left _ _, rfl⟩

theorem remaining_bounds (L u : ℚ) (hL0 : 0 ≤ L) (hL : fl L = .fin L) (hu : 0 ≤ u) :
    ∃ m, 0 ≤ m ∧ m ≤ L ∧ mathMax (.fin 0) ((JsNumber.fin L).sub (.fin u)) = .fin m := by
  have hsub : (JsNumber.fin L).sub (.fin u) = fl (L + -u) := rfl
  rw [hsub]
  rcases le_total 0 (L + -u) with h | h
  · obtain ⟨v, hv, hv0, hvL⟩ := fl_le_of_le (L + -u) L h (by linarith) hL
    rw [hv]
    exact ⟨max 0 v, le_max_left _ _, max_le hL0 hvL, rfl⟩
  · rcases fl_nonpos (L + -u) h with h1 | ⟨v, hv, h1⟩
    · rw [h1]; exact ⟨0, le_refl 0, hL0, rfl⟩
    · rw [h1]
      exact ⟨max 0 v, le_max_left _ _, max_le hL0 (le_trans hv hL0), rfl⟩

/-- C30, the claim as stated fails: with 2^1023 minutes stored for the current
month and 2^1023 minutes added, the sum overflows: the value returned is
Infinity, what is stored is read back as `null`, and `getRemainingMinutes`
afterwards returns the whole limit of 60, not max(0, 60 - Infinity) = 0. -/
theorem usage_overflow_resets_remaining :
    fl (2 ^ 1023) = .fin (2 ^ 1023) ∧
    previousMinutes storedHuge "2025-09" = .fin (2 ^ 1023) ∧
    (updateTranscriptionUsage (.fin 60) storedHuge "2025-09" (some (.fin (2 ^ 1023)))).2.minutesUsed =
      .num .posInf ∧
    (updateTranscriptionUsage (.fin 60) storedHuge "2025-09" (some (.fin (2 ^ 1023)))).1 =
      .record (Usage.mk .null "2025-09") ∧
    getRemainingMinutes (.fin 60)
      (updateTranscriptionUsage (.fin 60) storedHuge "2025-09" (some (.fin (2 ^ 1023)))).1
      "2025-09" = .fin 60 ∧
    mathMax (.fin 0) ((JsNumber.fin 60).sub .posInf) = .fin 0 := by
  decide!

/-- C30, amended: with a finite non-negative limit, finite minutes p already used
in the current month (0 when nothing readable is stored or the stored month is
another one) and a finite number a to add (0 for a missing argument or NaN),
`updateTranscriptionUsage` returns minutesUsed = max(0, p + a), the sum rounded
as the host does, for the current month; this is +Infinity or a finite
value that is not negative. When it is finite, the same value is stored, and
`getRemainingMinutes` afterwards returns max(0, limit - minutesUsed), a finite
value between 0 and the limit. When it is +Infinity, `null` is stored and
`getRemainingMinutes` afterwards returns the limit. -/
theorem usage_update_bounds (L : ℚ) (stored : StoredUsage) (now : String)
    (minutesToAdd : Option JsNumber) (p a : ℚ)
    (hL0 : 0 ≤ L) (hL : fl L = .fin L)
    (hp : previousMinutes stored now = .fin p) (ha : numberOrZero minutesToAdd = .fin a) :
    (updateTranscriptionUsage (.fin L) stored now minutesToAdd).2 =
      { minutesUsed := .num (mathMax (.fin 0) ((JsNumber.fin p).add (.fin a))),
        month := now, limit := .fin L } ∧
    (updateTranscriptionUsage (.fin L) stored now minutesToAdd).1 =
      .record { minutesUsed := jsonOfNumber (mathMax (.fin 0) ((JsNumber.fin p).add (.fin a))),
                month := now } ∧
    (mathMax (.fin 0) ((JsNumber.fin p).add (.fin a)) = .posInf ∨
      ∃ u, 0 ≤ u ∧ mathMax (.fin 0) ((JsNumber.fin p).add (.fin a)) = .fin u) ∧
    (∀ u, mathMax (.fin 0) ((JsNumber.fin p).add (.fin a)) = .fin u →
      (updateTranscriptionUsage (.fin L) stored now minutesToAdd).1 =
        .record { minutesUsed := .num (.fin u), month := now } ∧
      getRemainingMinutes (.fin L) (updateTranscriptionUsage (.fin L) stored now minutesToAdd).1
        now = mathMax (.fin 0) ((JsNumber.fin L).sub (.fin u)) ∧
      ∃ m, 0 ≤ m ∧ m ≤ L ∧
        getRemainingMinutes (.fin L)
          (updateTranscriptionUsage (.fin L) stored now minutesToAdd).1 now = .fin m) ∧
    (mathMax (.fin 0) ((JsNumber.fin p).add (.fin a)) = .posInf →
      (updateTranscriptionUsage (.fin L) stored now minutesToAdd).1 =
        .record { minutesUsed := .null, month := now } ∧
      getRemainingMinutes (.fin L) (updateTranscriptionUsage (.fin L) stored now minutesToAdd).1
        now = .fin L) := by
  have hprev := getTranscriptionUsage_minutes (.fin L) stored now
  rw [hp] at hprev
  have hret : (updateTranscriptionUsage (.fin L) stored now minutesToAdd).2 =
      { minutesUsed := .num (mathMax (.fin 0) ((JsNumber.fin p).add (.fin a))),
        month := now, limit := .fin L } := by
    simp only [updateTranscriptionUsage, hprev, ha]
  have hstored : (updateTranscriptionUsage (.fin L) stored now minutesToAdd).1 =
      .record { minutesUsed := jsonOfNumber (mathMax (.fin 0) ((JsNumber.fin p).add (.fin a))),
                month := now } := by
    simp only [updateTranscriptionUsage, hprev, ha]
  have hread : ∀ m : NumberOrNull,
      getRemainingMinutes (.fin L) (.record { minutesUsed := m, month := now }) now =
        mathMax (.fin 0) ((JsNumber.fin L).sub m.toNumber) := by
    intro m
    simp only [getRemainingMinutes, getTranscriptionUsage_record]
  have hadd : (JsNumber.fin p).add (.fin a) = fl (p + a) := rfl
  refine ⟨hret, hstored, ?_, ?_, ?_⟩
  · rw [hadd]
    exact mathMax_zero_fl (p + a)
  · intro u hu
    have hu0 : 0 ≤ u := by
      rw [hadd] at hu
      rcases mathMax_zero_fl (p + a) with h | ⟨v, hv, h⟩
      · rw [h] at hu; exact absurd hu (by simp)
      · rw [h] at hu
        injection hu with hu
        rw [← hu]; exact hv
    have hst : (updateTranscriptionUsage (.fin L) stored now minutesToAdd).1 =
        .record { minutesUsed := .num (.fin u), month := now } := by
      rw [hstored, hu]
      rfl
    refine ⟨hst, ?_, ?_⟩
    · rw [hst, hread]
      rfl
    · obtain ⟨m, hm0, hmL, hm⟩ := remaining_bounds L u hL0 hL hu0
      refine ⟨m, hm0, hmL, ?_⟩
      rw [hst, hread]
      exact hm
  · intro hinf
    have hst : (updateTranscriptionUsage (.fin L) stored now minutesToAdd).1 =
        .record { minutesUsed := .null, month := now } := by
      rw [hstored, hinf]
      rfl
    refine ⟨hst, ?_⟩
    rw [hst, hread]
    obtain ⟨m, hm0, hmL, hm⟩ := remaining_bounds L 0 hL0 hL (le_refl 0)
    have hsub : (JsNumber.fin L).sub (NumberOrNull.null).toNumber = fl (L + -0) := rfl
    rw [hsub, neg_zero, add_zero, hL]
    show JsNumber.fin (max 0 L) = .fin L
    rw [max_eq_right hL0]

/-- C30, amended, with a limit of 60 minutes, 50 minutes stored for the current
month and 20 minutes added: 70 minutes are returned and stored and 0 minutes
remain. -/
theorem usage_update_bounds_witness :
    (0 : ℚ) ≤ 60 ∧ fl 60 = .fin 60 ∧ previousMinutes storedSeptember "2025-09" = .fin 50 ∧
    numberOrZero (some (.fin 20)) = .fin 20 ∧
    (updateTranscriptionUsage (.fin 60) storedSeptember "2025-09" (some (.fin 20))).2 =
      { minutesUsed := .num (.fin 70), month := "2025-09", limit := .fin 60 } ∧
    (updateTranscriptionUsage (.fin 60) storedSeptember "2025-09" (some (.fin 20))).1 =
      .record { minutesUsed := .num (.fin 70), month := "2025-09" } ∧
    getRemainingMinutes (.fin 60)
      (updateTranscriptionUsage (.fin 60) storedSeptember "2025-09" (some (.fin 20))).1
      "2025-09" = .fin 0 := by
  have h := usage_update_bounds 60 storedSeptember "2025-09" (some (.fin 20)) 50 20
    (by norm_num) (by decide!) (by decide!) (by decide!)
  have e : mathMax (.fin 0) ((JsNumber.fin 50).add (.fin 20)) = .fin 70 := by decide!
  refine ⟨by norm_num, by decide!, by decide!, by decide!, ?_, ?_, ?_⟩
  · rw [h.1, e]
  · exact (h.2.2.2.1 70 e).1
  · rw [(h.2.2.2.1 70 e).2.1]
    decide!

/-! ## Claims C24 to C26: `detectTone` -/

theorem isWordChar_of_canonicalize (c p : Char) (h : canonicalize c = canonicalize p)
    (hp : isWordChar p = true) : isWordChar c = true := by
  simp only [isWordChar, Bool.or_eq_true, Bool.and_eq_true, decide_eq_true_eq,
    beq_iff_eq] at hp ⊢
  simp only [canonicalize] at h
  split_ifs at h <;> omega

theorem isWordChar_of_map (mid kw : List Char)
    (h : mid.map canonicalize = kw.map canonicalize)
    (hkw : ∀ c ∈ kw, isWordChar c = true) : ∀ c ∈ mid, isWordChar c = true := by
  induction mid generalizing kw with
  | nil => intro c hc; simp at hc
  | cons a mid ih =>
    cases kw with
    | nil => simp at h
    | cons p ps =>
      simp only [List.map_cons, List.cons.injEq] at h
      intro c hc
      rcases List.mem_cons.mp hc with hc | hc
      · rw [hc]
        exact isWordChar_of_canonicalize a p h.1 (hkw p (List.mem_cons_self p ps))
      · exact ih ps h.2 (fun x hx => hkw x (List.mem_cons_of_mem p hx)) c hc

theorem getLast_or_cons (c : Char) (l : List Char) (prev : Option Char) :
    ((c :: l).getLast?).or prev = (l.getLast?).or (some c) := by
  rw [List.getLast?_cons]
  cases l.getLast? <;> rfl

theorem matchWord_iff (kw : List Char) (prev : Option Char) (s : List Char)
    (last : Option Char) (rest : List Char) :
    matchWord kw prev s = some (last, rest) ↔
      ∃ mid, s = mid ++ rest ∧ mid.map canonicalize = kw.map canonicalize ∧
        last = (mid.getLast?).or prev := by
  induction kw generalizing prev s with
  | nil =>
    simp only [matchWord, Option.some.injEq, Prod.mk.injEq, List.map_nil, List.map_eq_nil_iff]
    constructor
    · rintro ⟨rfl, rfl⟩
      exact ⟨[], rfl, rfl, rfl⟩
    · rintro ⟨mid, hs, rfl, hl⟩
      exact ⟨by simpa using hl.symm, by simpa using hs⟩
  | cons p ps ih =>
    cases s with
    | nil =>
      simp only [matchWord]
      constructor
      · intro h
        exact absurd h (by simp)
      · rintro ⟨mid, hs, hm, _⟩
        have : mid = [] := by
          cases mid with
          | nil => rfl
          | cons a l => simp at hs
        rw [this] at hm
        simp at hm
    | cons c cs =>
      simp only [matchWord]
      split_ifs with hc
      · rw [ih]
        constructor
        · rintro ⟨mid, hs, hm, hl⟩
          refine ⟨c :: mid, by rw [hs]; rfl, by simp [hc, hm], ?_⟩
          rw [getLast_or_cons]
          exact hl
        · rintro ⟨mid, hs, hm, hl⟩
          cases mid with
          | nil => simp at hm
          | cons a l =>
            simp only [List.cons_append, List.cons.injEq] at hs
            simp only [List.map_cons, List.cons.injEq] at hm
            obtain ⟨rfl, hs⟩ := hs
            refine ⟨l, hs, hm.2, ?_⟩
            rw [← getLast_or_cons]
            exact hl
      · constructor
        · intro h
          exact absurd h (by simp)
        · rintro ⟨mid, hs, hm, _⟩
          cases mid with
          | nil => simp at hm
          | cons a l =>
            simp only [List.cons_append, List.cons.injEq] at hs
            simp only [List.map_cons, List.cons.injEq] at hm
            exact absurd (hs.1 ▸ hm.1) hc

theorem matched_ends (kw : String) (hk : Wordy kw) (mid : List Char)
    (hm : mid.map canonicalize = kw.data.map canonicalize) (prev : Option Char) :
    isWordAt mid.head? = true ∧ isWordAt ((mid.getLast?).or prev) = true := by
  have hw := isWordChar_of_map mid kw.data hm hk.2
  cases mid with
  | nil =>
    have : kw.data = [] := by simpa using hm.symm
    exact absurd this hk.1
  | cons a l =>
    refine ⟨hw a (List.mem_cons_self a l), ?_⟩
    have hne : a :: l ≠ [] := List.cons_ne_nil a l
    rw [List.getLast?_eq_getLast _ hne]
    exact hw _ (List.getLast_mem hne)

theorem matchOne_iff (kw : String) (hk : Wordy kw) (prev : Option Char) (s : List Char) :
    (isBoundary prev s.head? &&
      (match matchWord kw.data prev s with
       | some (last, rest) => isBoundary last rest.head?
       | none => false)) = true ↔
      ∃ mid rest, s = mid ++ rest ∧ mid.map canonicalize = kw.data.map canonicalize ∧
        isWordAt prev = false ∧ isWordAt rest.head? = false := by
  constructor
  · intro h
    rw [Bool.and_eq_true] at h
    obtain ⟨hb, hmatch⟩ := h
    cases hmw : matchWord kw.data prev s with
    | none => rw [hmw] at hmatch; exact absurd hmatch (by simp)
    | some lr =>
      obtain ⟨last, rest⟩ := lr
      rw [hmw] at hmatch
      obtain ⟨mid, hs, hm, hl⟩ := (matchWord_iff kw.data prev s last rest).mp hmw
      obtain ⟨hhead, hlast⟩ := matched_ends kw hk mid hm prev
      refine ⟨mid, rest, hs, hm, ?_, ?_⟩
      · have hsh : s.head? = mid.head? := by
          cases mid with
          | nil => simp [isWordAt] at hhead
          | cons a l => rw [hs]; rfl
        rw [hsh] at hb
        simp only [isBoundary, hhead] at hb
        simpa using hb
      · simp only [isBoundary, hl, hlast] at hmatch
        simpa using hmatch
  · rintro ⟨mid, rest, hs, hm, hprev, hrest⟩
    obtain ⟨hhead, hlast⟩ := matched_ends kw hk mid hm prev
    have hmw := (matchWord_iff kw.data prev s _ rest).mpr ⟨mid, hs, hm, rfl⟩
    have hsh : s.head? = mid.head? := by
      cases mid with
      | nil => simp [isWordAt] at hhead
      | cons a l => rw [hs]; rfl
    rw [hmw, hsh]
    simp [isBoundary, hhead, hlast, hprev, hrest]

theorem matchAt_iff (words : List String) (hw : ∀ kw ∈ words, Wordy kw)
    (prev : Option Char) (s : List Char) :
    matchAt words prev s = true ↔
      ∃ kw ∈ words, ∃ mid rest, s = mid ++ rest ∧
        mid.map canonicalize = kw.data.map canonicalize ∧
        isWordAt prev = false ∧ isWordAt rest.head? = false := by
  simp only [matchAt, Bool.and_eq_true, List.any_eq_true]
  constructor
  · rintro ⟨hb, kw, hkw, hm⟩
    exact ⟨kw, hkw, (matchOne_iff kw (hw kw hkw) prev s).mp (by rw [Bool.and_eq_true]; exact ⟨hb, hm⟩)⟩
  · rintro ⟨kw, hkw, h⟩
    have := (matchOne_iff kw (hw kw hkw) prev s).mpr h
    rw [Bool.and_eq_true] at this
    exact ⟨this.1, kw, hkw, this.2⟩

theorem regexTestFrom_iff (words : List String) (hw : ∀ kw ∈ words, Wordy kw)
    (prev : Option Char) (s : List Char) :
    regexTestFrom words prev s = true ↔
      ∃ kw ∈ words, ∃ pre mid post, s = pre ++ mid ++ post ∧
        mid.map canonicalize = kw.data.map canonicalize ∧
        isWordAt ((pre.getLast?).or prev) = false ∧ isWordAt post.head? = false := by
  induction s generalizing prev with
  | nil =>
    simp only [regexTestFrom]
    rw [matchAt_iff words hw]
    constructor
    · rintro ⟨kw, hkw, mid, rest, hs, hm, hp, hr⟩
      exact ⟨kw, hkw, [], mid, rest, by simpa using hs, hm, by simpa using hp, hr⟩
    · rintro ⟨kw, hkw, pre, mid, post, hs, hm, hp, hr⟩
      have hpre : pre = [] := by
        cases pre with
        | nil => rfl
        | cons a l => simp at hs
      subst hpre
      exact ⟨kw, hkw, mid, post, by simpa using hs, hm, by simpa using hp, hr⟩
  | cons c cs ih =>
    simp only [regexTestFrom, Bool.or_eq_true]
    rw [matchAt_iff words hw, ih]
    constructor
    · rintro (⟨kw, hkw, mid, rest, hs, hm, hp, hr⟩ | ⟨kw, hkw, pre, mid, post, hs, hm, hp, hr⟩)
      · exact ⟨kw, hkw, [], mid, rest, by simpa using hs, hm, by simpa using hp, hr⟩
      · refine ⟨kw, hkw, c :: pre, mid, post, by rw [hs]; rfl, hm, ?_, hr⟩
        rw [getLast_or_cons]
        exact hp
    · rintro ⟨kw, hkw, pre, mid, post, hs, hm, hp, hr⟩
      cases pre with
      | nil =>
        left
        exact ⟨kw, hkw, mid, post, by simpa using hs, hm, by simpa using hp, hr⟩
      | cons a l =>
        right
        simp only [List.cons_append, List.cons.injEq] at hs
        obtain ⟨rfl, hs⟩ := hs
        refine ⟨kw, hkw, l, mid, post, hs, hm, ?_, hr⟩
        rw [← getLast_or_cons]
        exact hp

theorem regexTest_iff (words : List String) (hw : ∀ kw ∈ words, Wordy kw) (s : String) :
    regexTest words s = true ↔ ∃ kw ∈ words, WholeWord kw s := by
  simp only [regexTest, WholeWord]
  rw [regexTestFrom_iff words hw]
  constructor
  · rintro ⟨kw, hkw, pre, mid, post, hs, hm, hp, hr⟩
    exact ⟨kw, hkw, pre, mid, post, hs, hm, by simpa using hp, hr⟩
  · rintro ⟨kw, hkw, pre, mid, post, hs, hm, hp, hr⟩
    exact ⟨kw, hkw, pre, mid, post, hs, hm, by simpa using hp, hr⟩

theorem positiveWords_wordy : ∀ kw ∈ positiveWords, Wordy kw := by
  show ∀ kw ∈ positiveWords, kw.data ≠ [] ∧ ∀ c ∈ kw.data, isWordChar c = true
  decide

theorem negativeWords_wordy : ∀ kw ∈ negativeWords, Wordy kw := by
  show ∀ kw ∈ negativeWords, kw.data ≠ [] ∧ ∀ c ∈ kw.data, isWordChar c = true
  decide

theorem toLower_keeps (c : Char) :
    canonicalize c.toLower = canonicalize c ∧ isWordChar c.toLower = isWordChar c := by
  by_cases h : 65 ≤ c.toNat ∧ c.toNat ≤ 90
  · generalize hn : c.toNat = n at h
    have hc : c = Char.ofNat n := by rw [← hn, Char.ofNat_toNat]
    subst hc
    obtain ⟨h1, h2⟩ := h
    interval_cases n <;> decide
  · have : c.toLower = c := by
      simp only [Char.toLower]
      rw [if_neg h]
    rw [this]
    exact ⟨rfl, rfl⟩

theorem isWordAt_map_toLower (o : Option Char) :
    isWordAt (o.map Char.toLower) = isWordAt o := by
  cases o with
  | none => rfl
  | some c => exact (toLower_keeps c).2

theorem map_canonicalize_toLower (l : List Char) :
    (l.map Char.toLower).map canonicalize = l.map canonicalize := by
  induction l with
  | nil => rfl
  | cons a l ih => simp only [List.map_cons, ih, (toLower_keeps a).1]

theorem wholeWord_ascii_iff (kw text : String) :
    WholeWord kw (asciiToLowerCase text) ↔ WholeWord kw text := by
  simp only [WholeWord, asciiToLowerCase]
  constructor
  · rintro ⟨pre, mid, post, hs, hm, hp, hr⟩
    obtain ⟨l₁, post₀, ht, h₁, hpost⟩ := List.map_eq_append_iff.mp hs
    obtain ⟨pre₀, mid₀, ht₁, hpre, hmid⟩ := List.map_eq_append_iff.mp h₁
    refine ⟨pre₀, mid₀, post₀, by rw [ht, ht₁], ?_, ?_, ?_⟩
    · rw [← hm, ← hmid, map_canonicalize_toLower]
    · rw [← hpre, List.getLast?_map, isWordAt_map_toLower] at hp
      exact hp
    · rw [← hpost, List.head?_map, isWordAt_map_toLower] at hr
      exact hr
  · rintro ⟨pre, mid, post, hs, hm, hp, hr⟩
    refine ⟨pre.map Char.toLower, mid.map Char.toLower, post.map Char.toLower,
      by rw [hs]; simp, ?_, ?_, ?_⟩
    · rw [map_canonicalize_toLower, hm]
    · rw [List.getLast?_map, isWordAt_map_toLower]
      exact hp
    · rw [List.head?_map, isWordAt_map_toLower]
      exact hr

theorem wholeWord_ne_empty (kw text : String) (hk : Wordy kw) (h : WholeWord kw text) :
    text ≠ "" := by
  obtain ⟨pre, mid, post, hs, hm, _, _⟩ := h
  intro ht
  rw [ht] at hs
  have hmid : mid = [] := by
    cases mid with
    | nil => rfl
    | cons a l =>
      have := congrArg List.length hs
      simp at this
      omega
  rw [hmid] at hm
  exact hk.1 (by simpa using hm.symm)

theorem detectTone_of_tests (toLowerCase : String → String) (t : String) (ht : t ≠ "") :
    detectTone toLowerCase (some t) =
      if regexTest positiveWords (toLowerCase t) = true then "positive"
      else if regexTest negativeWords (toLowerCase t) = true then "negative"
      else "neutral" := by
  simp only [detectTone, ht, if_false]

theorem detectTone_positive_of (toLowerCase : String → String) (text kw : String)
    (hkw : kw ∈ positiveWords) (hne : text ≠ "") (h : WholeWord kw (toLowerCase text)) :
    detectTone toLowerCase (some text) = "positive" := by
  have hp := (regexTest_iff positiveWords positiveWords_wordy (toLowerCase text)).mpr
    ⟨kw, hkw, h⟩
  rw [detectTone_of_tests toLowerCase text hne, if_pos hp]

theorem detectTone_negative_of (toLowerCase : String → String) (text kw : String)
    (hkw : kw ∈ negativeWords) (hne : text ≠ "") (h : WholeWord kw (toLowerCase text))
    (hnone : ∀ p ∈ positiveWords, ¬ WholeWord p (toLowerCase text)) :
    detectTone toLowerCase (some text) = "negative" := by
  have hn := (regexTest_iff negativeWords negativeWords_wordy (toLowerCase text)).mpr
    ⟨kw, hkw, h⟩
  have hp : ¬ regexTest positiveWords (toLowerCase text) = true := by
    intro hp
    obtain ⟨p, hp1, hp2⟩ :=
      (regexTest_iff positiveWords positiveWords_wordy (toLowerCase text)).mp hp
    exact hnone p hp1 hp2
  rw [detectTone_of_tests toLowerCase text hne, if_neg hp, if_pos hn]

theorem detectTone_neutral_iff (toLowerCase : String → String) (text : Option String) :
    detectTone toLowerCase text = "neutral" ↔
      (text = none ∨ text = some "" ∨
        ∃ t, text = some t ∧
          ∀ kw ∈ positiveWords ++ negativeWords, ¬ WholeWord kw (toLowerCase t)) := by
  cases text with
  | none => exact ⟨fun _ => Or.inl rfl, fun _ => rfl⟩
  | some t =>
    by_cases ht : t = ""
    · subst ht
      exact ⟨fun _ => Or.inr (Or.inl rfl), fun _ => rfl⟩
    · rw [detectTone_of_tests toLowerCase t ht]
      have hP := regexTest_iff positiveWords positiveWords_wordy (toLowerCase t)
      have hN := regexTest_iff negativeWords negativeWords_wordy (toLowerCase t)
      constructor
      · intro h
        have hp : ¬ regexTest positiveWords (toLowerCase t) = true := by
          intro hp
          rw [if_pos hp] at h
          exact absurd h (by decide)
        rw [if_neg hp] at h
        have hn : ¬ regexTest negativeWords (toLowerCase t) = true := by
          intro hn
          rw [if_pos hn] at h
          exact absurd h (by decide)
        refine Or.inr (Or.inr ⟨t, rfl, ?_⟩)
        intro kw hkw hw
        rcases List.mem_append.mp hkw with hk | hk
        · exact hp (hP.mpr ⟨kw, hk, hw⟩)
        · exact hn (hN.mpr ⟨kw, hk, hw⟩)
      · rintro (h | h | ⟨u, hu, hall⟩)
        · exact absurd h (by simp)
        · exact absurd (Option.some.inj h) ht
        · have hut : t = u := Option.some.inj hu
          subst hut
          have hp : ¬ regexTest positiveWords (toLowerCase t) = true := by
            intro hp
            obtain ⟨kw, hk, hw⟩ := hP.mp hp
            exact hall kw (List.mem_append.mpr (Or.inl hk)) hw
          have hn : ¬ regexTest negativeWords (toLowerCase t) = true := by
            intro hn
            obtain ⟨kw, hk, hw⟩ := hN.mp hn
            exact hall kw (List.mem_append.mpr (Or.inr hk)) hw
          rw [if_neg hp, if_neg hn]

theorem detectTone_range (toLowerCase : String → String) (text : Option String) :
    detectTone toLowerCase text = "positive" ∨ detectTone toLowerCase text = "negative" ∨
      detectTone toLowerCase text = "neutral" := by
  cases text with
  | none => exact Or.inr (Or.inr rfl)
  | some t =>
    by_cases ht : t = ""
    · subst ht
      exact Or.inr (Or.inr rfl)
    · rw [detectTone_of_tests toLowerCase t ht]
      split
      · exact Or.inl rfl
      · split
        · exact Or.inr (Or.inl rfl)
        · exact Or.inr (Or.inr rfl)

/-- C24: whenever a positive keyword occurs as a whole word, in any letter case,
in the lower-cased text, `detectTone` returns 'positive', whatever else the text
contains; with `toLowerCase` acting on the ASCII letters this is an occurrence
in the text itself. The test sentence gives 'positive', and so does a text that
also holds negative keywords. -/
theorem detectTone_positive :
    (∀ (toLowerCase : String → String) (text kw : String), kw ∈ positiveWords → text ≠ "" →
      WholeWord kw (toLowerCase text) → detectTone toLowerCase (some text) = "positive") ∧
    (∀ text kw : String, kw ∈ positiveWords → WholeWord kw text →
      detectTone asciiToLowerCase (some text) = "positive") ∧
    detectTone asciiToLowerCase
      (some "I am feeling absolutely amazing and wonderful today!") = "positive" ∧
    detectTone asciiToLowerCase (some "So SAD and tired, yet WONDERFUL.") = "positive" := by
  refine ⟨fun tl text kw hkw hne h => detectTone_positive_of tl text kw hkw hne h, ?_,
    by decide, by decide⟩
  intro text kw hkw h
  exact detectTone_positive_of asciiToLowerCase text kw hkw
    (wholeWord_ne_empty kw text (positiveWords_wordy kw hkw) h)
    ((wholeWord_ascii_iff kw text).mpr h)

/-- C25: whenever a negative keyword occurs as a whole word, in any letter case,
in the lower-cased text and no positive keyword does, `detectTone` returns
'negative'; with `toLowerCase` acting on the ASCII letters these are occurrences
in the text itself. The test sentence gives 'negative'. -/
theorem detectTone_negative :
    (∀ (toLowerCase : String → String) (text kw : String), kw ∈ negativeWords → text ≠ "" →
      WholeWord kw (toLowerCase text) →
      (∀ p ∈ positiveWords, ¬ WholeWord p (toLowerCase text)) →
      detectTone toLowerCase (some text) = "negative") ∧
    (∀ text kw : String, kw ∈ negativeWords → WholeWord kw text →
      (∀ p ∈ positiveWords, ¬ WholeWord p text) →
      detectTone asciiToLowerCase (some text) = "negative") ∧
    detectTone asciiToLowerCase (some "This is so bad and I am really sad about it.") =
      "negative" := by
  refine ⟨fun tl text kw hkw hne h hn => detectTone_negative_of tl text kw hkw hne h hn, ?_,
    by decide⟩
  intro text kw hkw h hn
  exact detectTone_negative_of asciiToLowerCase text kw hkw
    (wholeWord_ne_empty kw text (negativeWords_wordy kw hkw) h)
    ((wholeWord_ascii_iff kw text).mpr h)
    (fun p hp hw => hn p hp ((wholeWord_ascii_iff p text).mp hw))

/-- C26: `detectTone` returns 'neutral' exactly when the text is absent, empty, or
has no whole-word occurrence of a positive or negative keyword; the result is
always 'positive', 'negative' or 'neutral'; the test sentence is neutral, and
so are "goodbye" and "Madam, goodbye.", where 'good' and 'mad' only occur inside
longer words. -/
theorem detectTone_neutral :
    (∀ (toLowerCase : String → String) (text : Option String),
      detectTone toLowerCase text = "neutral" ↔
        (text = none ∨ text = some "" ∨
          ∃ t, text = some t ∧
            ∀ kw ∈ positiveWords ++ negativeWords, ¬ WholeWord kw (toLowerCase t))) ∧
    (∀ text : String, detectTone asciiToLowerCase (some text) = "neutral" ↔
      (text = "" ∨ ∀ kw ∈ positiveWords ++ negativeWords, ¬ WholeWord kw text)) ∧
    (∀ (toLowerCase : String → String) (text : Option String),
      detectTone toLowerCase text = "positive" ∨ detectTone toLowerCase text = "negative" ∨
        detectTone toLowerCase text = "neutral") ∧
    detectTone asciiToLowerCase (some "I went to the store to buy some groceries.") =
      "neutral" ∧
    detectTone asciiToLowerCase (some "goodbye") = "neutral" ∧
    detectTone asciiToLowerCase (some "Madam, goodbye.") = "neutral" ∧
    detectTone asciiToLowerCase none = "neutral" ∧
    detectTone asciiToLowerCase (some "") = "neutral" := by
  refine ⟨detectTone_neutral_iff, ?_, detectTone_range, by decide, by decide, by decide,
    by decide, by decide⟩
  intro text
  rw [detectTone_neutral_iff]
  constructor
  · rintro (h | h | ⟨t, ht, hall⟩)
    · exact absurd h (by simp)
    · exact Or.inl (Option.some.inj h)
    · have htt : text = t := Option.some.inj ht
      subst htt
      exact Or.inr (fun kw hkw hw => hall kw hkw ((wholeWord_ascii_iff kw text).mpr hw))
  · rintro (h | hall)
    · exact Or.inr (Or.inl (by rw [h]))
    · exact Or.inr (Or.inr ⟨text, rfl,
        fun kw hkw hw => hall kw hkw ((wholeWord_ascii_iff kw text).mp hw)⟩)

end EchoScript
